import Mathlib

/-!
# luna-page/agent: the interactive installer (`internal/install/install.go`)

A shallow embedding of the installer in Lean 4, followed by the authorisation check of the
agent's HTTP server (`internal/agent/server.go`).

* Go strings are Lean `String`s; byte-level loops of the Go library are written over
  `String.data`.  `strings.ToLower` takes the Unicode case table of the Go library as a
  parameter.
* The terminal is an input stream (`List String`, one entry per `takeUserInput` call; an
  exhausted stream is end-of-file, where `fmt.Scanln` leaves the variable empty) and an
  output log (`List Event`).  ANSI styling (`trm.Styled`) is dropped from printed text.
* The operating system is a `World`: the nodes `os.Stat` sees, the open file handles, and
  the operations that are going to fail.
* Unbounded `for` loops take a fuel argument; `none` means the loop is still running when
  the fuel is gone.
* `doWithProgressIndicator` is given twice: as the function of the action's result that
  `Init` uses, and as a transition system of the goroutine, the ticker and the foreground
  loop, whose schedules are the interleavings.
-/

namespace Install

/-! ## Go library functions used by the installer -/

/-- The Go function `unicode.ToLower`: a rune up to `MaxASCII` is lowered when it is one of
the letters `A` to `Z`; any other rune is looked up in the Unicode case table of the Go
library, `table`, which is taken as given. -/
def unicodeToLower (table : Char → Char) (r : Char) : Char :=
  if r.toNat ≤ 127 then r.toLower else table r

/-- The Go function `strings.ToLower`: `unicode.ToLower` applied to every rune. -/
def toLower (table : Char → Char) (s : String) : String :=
  String.mk (s.data.map (unicodeToLower table))

/-- The digit loop of `strconv.Atoi`: `n = n*10 + int(ch - 48)`, a syntax error on any byte
that is not a decimal digit. -/
def digitsValue : List Char → Nat → Option Nat
  | [], n => some n
  | ch :: cs, n => if ch.isDigit then digitsValue cs (n * 10 + (ch.toNat - 48)) else none

/-- The Go function `strconv.Atoi` for an `int` of `intSize` bits: an optional sign, then one
or more decimal digits; `none` is a returned error (syntax, or value out of range). -/
def Atoi (intSize : Nat) (s : String) : Option Int :=
  match s.data with
  | [] => none
  | c :: cs =>
    let body := if c = '-' ∨ c = '+' then cs else c :: cs
    if body = [] then none
    else
      match digitsValue body 0 with
      | none => none
      | some un =>
        if c = '-' then
          if un ≤ 2 ^ (intSize - 1) then some (-(un : Int)) else none
        else
          if un < 2 ^ (intSize - 1) then some (un : Int) else none

/-- The Go function `strconv.Itoa` on a non-negative value. -/
def Itoa (n : Nat) : String := toString n

/-- The Go function `strings.TrimSuffix`. -/
def TrimSuffix (s suffix : String) : String :=
  if suffix.data.isSuffixOf s.data then
    String.mk (s.data.take (s.data.length - suffix.data.length))
  else s

/-- Strip trailing path separators, as the first loop of `filepath.Base` does. -/
def stripTrailingSlashes (cs : List Char) : List Char :=
  (cs.reverse.dropWhile (fun c => c = '/')).reverse

/-- The Go function `filepath.Base` on Unix: the last element of the path, after trailing
slashes are removed; `.` for the empty path and `/` for a path of slashes only. -/
def Base (path : String) : String :=
  if path = "" then "."
  else
    let p := stripTrailingSlashes path.data
    let last := (p.reverse.takeWhile (fun c => c ≠ '/')).reverse
    if last = [] then "/" else String.mk last

/-- The Go function `filepath.IsAbs` on Unix. -/
def IsAbs (path : String) : Bool :=
  match path.data with
  | c :: _ => c = '/'
  | [] => false

/-- Split a path at every separator. -/
def splitSlash : List Char → List (List Char)
  | [] => [[]]
  | c :: cs =>
    if c = '/' then [] :: splitSlash cs
    else
      match splitSlash cs with
      | [] => [[c]]
      | e :: es => (c :: e) :: es

/-- The element loop of `filepath.Clean`: `out` holds the elements written so far, newest
first.  Empty and `.` elements are dropped, `..` removes the newest element when there is one
to backtrack over, is dropped at the root, and is kept at the front of a relative path. -/
def cleanElems (rooted : Bool) : List (List Char) → List (List Char) → List (List Char)
  | [], out => out
  | e :: es, out =>
    if e = [] ∨ e = ['.'] then cleanElems rooted es out
    else if e = ['.', '.'] then
      match out with
      | o :: os =>
        if o = ['.', '.'] then cleanElems rooted es (e :: out)
        else cleanElems rooted es os
      | [] => if rooted then cleanElems rooted es [] else cleanElems rooted es [e]
    else cleanElems rooted es (e :: out)

/-- The Go function `filepath.Clean` on Unix. -/
def Clean (path : String) : String :=
  if path = "" then "."
  else
    let rooted := IsAbs path
    let out := (cleanElems rooted (splitSlash path.data) []).reverse
    let body := List.intercalate ['/'] out
    if rooted then String.mk ('/' :: body)
    else if body = [] then "." else String.mk body

/-- The Go function `filepath.Join`: empty elements are ignored, the rest joined with a
separator and cleaned; the empty string when every element is empty. -/
def Join (elem : List String) : String :=
  match elem.filter (fun e => e ≠ "") with
  | [] => ""
  | es => Clean (String.intercalate "/" es)

/-- The Go function `filepath.Abs` on Unix; `cwd` is the result of `os.Getwd`. -/
def Abs (cwd : Except String String) (path : String) : Except String String :=
  if IsAbs path then .ok (Clean path)
  else
    match cwd with
    | .error e => .error e
    | .ok wd => .ok (Join [wd, path])

/-! ## The options record -/

/-- The record `installOptions`. -/
structure installOptions where
  InstallDirectory : String
  BinaryPath : String
  ConfigPath : String
  ServicePath : String
  ServiceName : String
  UninstallScriptPath : String
  LocalAddress : String
  Hostname : String
  AuthToken : String
  Port : Nat
  HiddenMountpoints : List String
  AddFirewallRule : Bool
  EnableAndRunService : Bool
  RandomAuthToken : Bool
  UsingCustomConfigPath : Bool
  deriving DecidableEq, Repr

/-! ## The operating system -/

/-- What a path names, as `os.Stat` sees it (symbolic links followed). -/
inductive Node
  /-- A regular file with its contents and permission bits. -/
  | file (contents : String) (perms : Nat)
  /-- A directory. -/
  | dir
  /-- A device, socket or pipe. -/
  | special
  /-- Something `os.Stat` cannot reach: it fails with an error other than "not exist". -/
  | unreachable
  deriving DecidableEq, Repr

/-- The state of the operating system: the file-system nodes by path, the open file handles
(descriptor and path), and the paths on which an operation is going to fail. -/
structure World where
  nodes : List (String × Node)
  handles : List (Nat × String)
  nextFd : Nat
  openFails : List String
  writeFails : List String
  readFails : List String
  closeFails : List String
  mkdirFails : List String
  deriving DecidableEq, Repr

/-- The result of `os.Stat`. -/
inductive StatResult
  | notExist
  | otherError
  | info (isDir : Bool)
  deriving DecidableEq, Repr

/-- The Go function `os.Stat`. -/
def Stat (w : World) (path : String) : StatResult :=
  match w.nodes.lookup path with
  | none => .notExist
  | some .unreachable => .otherError
  | some .dir => .info true
  | some _ => .info false

/-- Replace (or add) the node at a path. -/
def setNode (nodes : List (String × Node)) (path : String) (n : Node) : List (String × Node) :=
  (path, n) :: nodes.filter (fun e => e.1 ≠ path)

/-- The call `os.OpenFile(path, O_WRONLY|O_CREATE|O_TRUNC, perms)`: an error on a directory
or when the open is going to fail; otherwise the file is created empty, or truncated with
its permission bits kept, and a new handle is returned. -/
def OpenFile (w : World) (path : String) (perms : Nat) : Except String (Nat × World) :=
  if path ∈ w.openFails then .error ("open " ++ path ++ ": permission denied")
  else
    let opened (nodes : List (String × Node)) : Except String (Nat × World) :=
      .ok (w.nextFd,
        { w with nodes := nodes, handles := (w.nextFd, path) :: w.handles,
                 nextFd := w.nextFd + 1 })
    match w.nodes.lookup path with
    | some .dir => .error ("open " ++ path ++ ": is a directory")
    | some .unreachable => .error ("open " ++ path ++ ": permission denied")
    | some .special => opened w.nodes
    | some (.file _ p) => opened (setNode w.nodes path (.file "" p))
    | none => opened (setNode w.nodes path (.file "" perms))

/-- The Go function `os.Open`: a read-only handle on an existing node. -/
def Open (w : World) (path : String) : Except String (Nat × World) :=
  if path ∈ w.openFails then .error ("open " ++ path ++ ": permission denied")
  else
    match w.nodes.lookup path with
    | none => .error ("open " ++ path ++ ": no such file or directory")
    | some .unreachable => .error ("open " ++ path ++ ": permission denied")
    | some _ =>
      .ok (w.nextFd, { w with handles := (w.nextFd, path) :: w.handles, nextFd := w.nextFd + 1 })

/-- The method `(*os.File).Write` on a handle opened by `OpenFile`. -/
def Write (w : World) (fd : Nat) (contents : String) : Option String × World :=
  match w.handles.lookup fd with
  | none => (some "write: file already closed", w)
  | some path =>
    if path ∈ w.writeFails then (some ("write " ++ path ++ ": no space left on device"), w)
    else
      match w.nodes.lookup path with
      | some (.file old p) => (none, { w with nodes := setNode w.nodes path (.file (old ++ contents) p) })
      | _ => (none, w)

/-- The method `(*os.File).Close`: the handle is released, also when an error is returned. -/
def Close (w : World) (fd : Nat) : Option String × World :=
  match w.handles.lookup fd with
  | none => (some "close: file already closed", w)
  | some path =>
    let w1 := { w with handles := w.handles.filter (fun h => h.1 ≠ fd) }
    if path ∈ w.closeFails then (some ("close " ++ path ++ ": input/output error"), w1)
    else (none, w1)

/-- The method `(*os.File).ReadFrom`: everything read from `src` is written to `dst`. -/
def ReadFrom (w : World) (dst src : Nat) : Option String × World :=
  match w.handles.lookup src, w.handles.lookup dst with
  | some srcPath, some dstPath =>
    if srcPath ∈ w.readFails then (some ("read " ++ srcPath ++ ": input/output error"), w)
    else
      match w.nodes.lookup srcPath with
      | some (.file data _) => Write w dst data
      | some .dir => (some ("read " ++ srcPath ++ ": is a directory"), w)
      | _ => (if dstPath ∈ w.writeFails then some ("write " ++ dstPath ++ ": no space left on device") else none, w)
  | _, _ => (some "use of closed file", w)

/-- The Go function `os.MkdirAll`, called where `os.Stat` found nothing.  Directories carry
no permission bits in this model. -/
def MkdirAll (w : World) (path : String) (_perms : Nat) : Option String × World :=
  if path ∈ w.mkdirFails then (some ("mkdir " ++ path ++ ": permission denied"), w)
  else (none, { w with nodes := setNode w.nodes path .dir })

/-! ## File helpers of the installer -/

/-- The function `fileExists`: `os.Stat` succeeds and the node is not a directory. -/
def fileExists (w : World) (path : String) : Bool :=
  match Stat w path with
  | .info isDir => !isDir
  | _ => false

/-- The function `createFileIfNotExists`; the result is the returned error and the new
state of the operating system. -/
def createFileIfNotExists (w : World) (path contents : String) (perms : Nat) :
    Option String × World :=
  if fileExists w path then (none, w)
  else
    match OpenFile w path perms with
    | .error err => (some ("creating file " ++ path ++ ": " ++ err), w)
    | .ok (f, w1) =>
      match Write w1 f contents with
      | (some err, w2) => (some ("writing to file " ++ path ++ ": " ++ err), w2)
      | (none, w2) => Close w2 f

/-- The function `createPathIfNotExists`: the directory is made only where `os.Stat` fails
with "not exist"; the result is the created flag, the error and the new state. -/
def createPathIfNotExists (w : World) (path : String) (perms : Nat) :
    (Bool × Option String) × World :=
  match Stat w path with
  | .notExist =>
    match MkdirAll w path perms with
    | (some err, w1) => ((false, some ("creating directory " ++ path ++ ": " ++ err)), w1)
    | (none, w1) => ((true, none), w1)
  | _ => ((false, none), w)

/-- The function `copyFileFromTo`; the two deferred `Close` calls run on return, newest
first. -/
def copyFileFromTo (w : World) (src dest : String) (perms : Nat) : Option String × World :=
  match Open w src with
  | .error err => (some err, w)
  | .ok (r, w1) =>
    match OpenFile w1 dest perms with
    | .error err => (some err, (Close w1 r).2)
    | .ok (wr, w2) =>
      let (err, w3) := ReadFrom w2 wr r
      (err, (Close (Close w3 wr).2 r).2)

/-- The function `resolvePath`; `home` is the result of `os.UserHomeDir` and `cwd` that of
`os.Getwd`. -/
def resolvePath (home cwd : Except String String) (path : String) : Except String String :=
  if path = "" ∨ IsAbs path then .ok path
  else
    let joined : Except String String :=
      match path.data with
      | '~' :: tail =>
        match home with
        | .error err => .error ("getting user home directory: " ++ err)
        | .ok h => .ok (Join [h, String.mk tail])
      | _ => .ok path
    match joined with
    | .error err => .error err
    | .ok p =>
      match Abs cwd p with
      | .error err => .error ("resolving " ++ p ++ ": " ++ err)
      | .ok abs => .ok abs

/-- The function `stringToBool`. -/
def stringToBool (s : String) : Bool := s = "yes" ∨ s = "y"

/-! ## The terminal and the option loop -/

/-- What the installer does that a user can observe, in order. -/
inductive Event
  /-- The numbered option list: title and value of every option. -/
  | optionList (lines : List (String × String))
  /-- A prompt printed by `takeUserInput`. -/
  | prompt (text : String)
  /-- The hint that the square brackets are decorative. -/
  | tip
  /-- The message "Invalid option". -/
  | invalidOption
  /-- The handler of the option at this (0-based) position is called. -/
  | handlerCall (position : Nat)
  /-- The message "Error editing option: ...". -/
  | editError (msg : String)
  /-- The outcome line of one step run by `doWithProgressIndicator`. -/
  | step (message outcome : String) (err : Option String)
  /-- An external command run by `runCommand`. -/
  | command (cmd : String) (args : List String)
  /-- One HTTP GET sent by the health check. -/
  | request (url : String) (authorization : Option String)
  /-- Any other printed line. -/
  | line (text : String)
  deriving DecidableEq, Repr

/-- The function `takeUserInput` reading from the input stream: the next answer, already
trimmed, or the empty string at end of input.  The prompt it prints is recorded by the
caller. -/
def takeUserInput (stdin : List String) : String × List String :=
  match stdin with
  | [] => ("", [])
  | s :: rest => (s, rest)

/-- What one call of an option handler leaves behind: the returned error, the options
record, the unread input and the prompts it printed. -/
structure HandlerResult where
  err : Option String
  options : installOptions
  stdin : List String
  out : List String

/-- An option handler (`handleChange`): it reads its own input and mutates the options
record it was created over. -/
abbrev Handler := installOptions → List String → HandlerResult

/-- What an entry of `editableInstallOptions` returns: title, value and handler (`none` is
the nil handler). -/
structure OptionView where
  title : String
  value : String
  handleChange : Option Handler

/-- The type `editableInstallOptions`. -/
abbrev editableInstallOptions := List (installOptions → OptionView)

/-- The result of the option loop: the returned flag, the options record, the unread input
and the trace. -/
structure LoopResult where
  proceed : Bool
  options : installOptions
  stdin : List String
  out : List Event

/-- Put events in front of the trace of a result. -/
def LoopResult.after (evs : List Event) (r : LoopResult) : LoopResult :=
  { r with out := evs ++ r.out }

/-- The text `styledInputOption` prints, without styling. -/
def styledInputOption (option : String) : String := "[" ++ option ++ "]"

/-- The prompt of the main loop. -/
def mainPrompt : String :=
  "You can begin the installation with the above options by typing " ++
    styledInputOption "install" ++
    ",\nedit any of the above options by entering their number, or quit the installer by typing " ++
    styledInputOption "quit"

/-- The test `len(input) >= 3 && input[0] == 91 && input[len(input)-1] == 93`: the input
starts with `[`, ends with `]` and has something in between (for such a string the length
in bytes is at least 3 exactly when the length in characters is). -/
def isBracketed (input : String) : Bool :=
  decide (input.data.length ≥ 3) && input.data.head? = some '[' && input.data.getLast? = some ']'

/-- The slice `input[1 : len(input)-1]`. -/
def unwrapBrackets (input : String) : String :=
  String.mk input.data.tail.dropLast

/-- The inner `for` loop of `handleUserInputLoop`: the handler is called until it returns
no error. -/
def editLoop (position : Nat) (handler : Handler) :
    Nat → installOptions → List String → Option LoopResult
  | 0, _, _ => none
  | fuel + 1, options, stdin =>
    let r := handler options stdin
    match r.err with
    | some err =>
      (editLoop position handler fuel r.options r.stdin).map
        (LoopResult.after
          (Event.handlerCall position :: r.out.map Event.prompt ++ [Event.editError err]))
    | none =>
      some ⟨true, r.options, r.stdin, Event.handlerCall position :: r.out.map Event.prompt⟩

/-- The method `handleUserInputLoop`. -/
def handleUserInputLoop (intSize : Nat) (table : Char → Char) (e : editableInstallOptions) :
    Nat → installOptions → List String → Option LoopResult
  | 0, _, _ => none
  | fuel + 1, options, stdin =>
    let shown : List Event :=
      [Event.optionList (e.map fun opt => ((opt options).title, (opt options).value)),
        Event.prompt mainPrompt]
    let (input, stdin) := takeUserInput stdin
    if input = "" then
      (handleUserInputLoop intSize table e fuel options stdin).map (LoopResult.after shown)
    else
      let input := toLower table input
      let bracketed := isBracketed input
      let input := if bracketed then unwrapBrackets input else input
      let shown := if bracketed then shown ++ [Event.tip] else shown
      if input = "install" ∨ input = "i" then some ⟨true, options, stdin, shown⟩
      else if input = "quit" ∨ input = "q" then some ⟨false, options, stdin, shown⟩
      else
        match Atoi intSize input with
        | none =>
          (handleUserInputLoop intSize table e fuel options stdin).map
            (LoopResult.after (shown ++ [Event.invalidOption]))
        | some index =>
          if index < 1 ∨ index > (e.length : Int) then
            (handleUserInputLoop intSize table e fuel options stdin).map
              (LoopResult.after (shown ++ [Event.invalidOption]))
          else
            match e[(index - 1).toNat]? with
            | none => none -- not reached: the index is in range
            | some opt =>
              match (opt options).handleChange with
              | none =>
                (handleUserInputLoop intSize table e fuel options stdin).map (LoopResult.after shown)
              | some handler =>
                match editLoop (index - 1).toNat handler fuel options stdin with
                | none => none
                | some r =>
                  (handleUserInputLoop intSize table e fuel r.options r.stdin).map
                    (LoopResult.after (shown ++ r.out))

/-! ## The host the installer runs on -/

/-- The result of `runCommand`: trimmed standard output and error, and the error of `Run`. -/
structure CmdResult where
  stdout : String
  stderr : String
  err : Option String

/-- The result of one `client.Do(req)`: a connection error, or a response with its status. -/
inductive ProbeResult
  | failed (err : String)
  | response (statusCode : Nat)
  deriving DecidableEq, Repr

/-- Everything `Init` asks of its host besides the file system and the terminal.  The four
templates are embedded files that are not part of the sources; they are taken as given, and
so is `caseTable`, the Unicode case table `strings.ToLower` looks runes beyond ASCII up in. -/
structure Env where
  intSize : Nat
  caseTable : Char → Char
  GOOS : String
  executable : Except String String
  hasUFW : Bool
  partitions : Except String (List String)
  localAddress : Except String String
  hostname : Except String String
  home : Except String String
  cwd : Except String String
  random : Nat → Nat
  serviceTemplate : installOptions → Except String String
  configTemplate : installOptions → Except String String
  configEntryTemplate : installOptions → Except String String
  uninstallScriptTemplate : installOptions → Except String String
  runCommand : String → List String → CmdResult
  probe : String → Option String → Nat → ProbeResult

/-! ## The option handlers built by `Init` -/

/-- The body shared by the three path handlers after the prompt: blank input goes back, the
path is resolved, and a path at which a file exists is refused; `store` writes the field. -/
def pathHandler (env : Env) (w : World) (prompt : String)
    (store : installOptions → String → installOptions) : Handler :=
  fun o stdin =>
    let (newPath, stdin) := takeUserInput stdin
    if newPath = "" then ⟨none, o, stdin, [prompt]⟩
    else
      match resolvePath env.home env.cwd newPath with
      | .error err => ⟨some ("invalid path: " ++ err), o, stdin, [prompt]⟩
      | .ok absPath =>
        if fileExists w absPath then
          ⟨some ("a file already exists at " ++ absPath), o, stdin, [prompt]⟩
        else ⟨none, store o absPath, stdin, [prompt]⟩

/-- Option "Install at directory". -/
def installDirectoryOption (env : Env) (w : World) (o : installOptions) : OptionView :=
  { title := "Install at directory"
    value := o.InstallDirectory
    handleChange := some (pathHandler env w
      "Enter a new installation path or leave blank to go back without making changes"
      (fun o absPath => { o with InstallDirectory := absPath })) }

/-- Option "Create configuration file at". -/
def configPathOption (env : Env) (w : World) (o : installOptions) : OptionView :=
  { title := "Create configuration file at"
    value := if o.UsingCustomConfigPath then o.ConfigPath
             else Join [o.InstallDirectory, "agent.yml"]
    handleChange := some (pathHandler env w
      "Enter a new path for the config or leave blank to go back without making changes"
      (fun o absPath => { o with UsingCustomConfigPath := true, ConfigPath := absPath })) }

/-- Option "Create service file at". -/
def servicePathOption (env : Env) (w : World) (o : installOptions) : OptionView :=
  { title := "Create service file at"
    value := o.ServicePath
    handleChange := some (pathHandler env w
      "Enter a new path for the service or leave blank to go back without making changes"
      (fun o absPath => { o with ServicePath := absPath })) }

/-- The handler of the option "Port to listen on". -/
def portHandler (intSize : Nat) : Handler :=
  fun o stdin =>
    let prompt := "Enter a new port number or leave blank to use the current value"
    let (portStr, stdin) := takeUserInput stdin
    if portStr = "" then ⟨none, o, stdin, [prompt]⟩
    else
      match Atoi intSize portStr with
      | none => ⟨some ("invalid port number: " ++ portStr), o, stdin, [prompt]⟩
      | some port =>
        if port < 1 ∨ port > 65535 then
          ⟨some ("invalid port number: " ++ portStr), o, stdin, [prompt]⟩
        else ⟨none, { o with Port := (port % 65536).toNat }, stdin, [prompt]⟩

/-- Option "Port to listen on". -/
def portOption (env : Env) (o : installOptions) : OptionView :=
  { title := "Port to listen on"
    value := Itoa o.Port
    handleChange := some (portHandler env.intSize) }

/-- The body shared by the three yes/no handlers: blank input goes back, anything else is
passed to `stringToBool` and stored. -/
def yesNoHandler (prompt : String) (store : installOptions → Bool → installOptions) : Handler :=
  fun o stdin =>
    let (input, stdin) := takeUserInput stdin
    if input = "" then ⟨none, o, stdin, [prompt]⟩
    else ⟨none, store o (stringToBool input), stdin, [prompt]⟩

/-- Option "Use a randomly generated authentication token". -/
def randomTokenOption (o : installOptions) : OptionView :=
  { title := "Use a randomly generated authentication token"
    value := if o.RandomAuthToken then "Yes" else "No"
    handleChange := some (yesNoHandler
      ("Enter " ++ styledInputOption "yes" ++ " to use a random token, " ++
        styledInputOption "no" ++
        " to remove authentication or leave blank to go back without making changes")
      (fun o b => { o with RandomAuthToken := b })) }

/-- Option "Run ufw allow PORT/tcp", present when `ufw` is installed. -/
def firewallOption (o : installOptions) : OptionView :=
  { title := "Run " ++ ("ufw allow " ++ Itoa o.Port ++ "/tcp")
    value := if o.AddFirewallRule then "Yes" else "No"
    handleChange := some (yesNoHandler
      ("Enter " ++ styledInputOption "yes" ++ " to add a firewall rule for the port, " ++
        styledInputOption "no" ++
        " to skip this step or leave blank to go back without making changes")
      (fun o b => { o with AddFirewallRule := b })) }

/-- The service name shown by the option "Run systemctl enable --now NAME". -/
def displayedServiceName (o : installOptions) : String :=
  TrimSuffix (Base o.ServicePath) ".service"

/-- Option "Run systemctl enable --now NAME". -/
def enableServiceOption (o : installOptions) : OptionView :=
  { title := "Run " ++ ("systemctl enable --now " ++ displayedServiceName o)
    value := if o.EnableAndRunService then "Yes" else "No"
    handleChange := some (yesNoHandler
      ("Enter " ++ styledInputOption "yes" ++ " to enable and start the service, " ++
        styledInputOption "no" ++
        " to skip this step or leave blank to go back without making changes")
      (fun o b => { o with EnableAndRunService := b })) }

/-- The list `installOptionHandlers` of `Init`. -/
def installOptionHandlers (env : Env) (w : World) : editableInstallOptions :=
  [installDirectoryOption env w, configPathOption env w, servicePathOption env w,
    portOption env, randomTokenOption] ++
  (if env.hasUFW then [firewallOption] else []) ++
  [enableServiceOption]

/-! ## The installation steps -/

/-- The constant `charset` of `makeRandomString`. -/
def charset : String := "abcdefghijklmnopqrstuvwxyzABCDEFGHIJKLMNOPQRSTUVWXYZ0123456789"

/-- The loop `b[i] = charset[b[i] % charsetLen]`; `none` is an index out of range. -/
def charsetLookup (charsetLen : Nat) : List Nat → Option (List Char)
  | [] => some []
  | b :: bs =>
    match charset.data[b % charsetLen]?, charsetLookup charsetLen bs with
    | some c, some cs => some (c :: cs)
    | _, _ => none

/-- The function `makeRandomString`; `random i` is the i-th byte `rand.Read` delivers. -/
def makeRandomString (length : Nat) (random : Nat → Nat) : Option String :=
  let charsetLen := charset.data.length % 256
  let b := (List.range length).map (fun i => random i % 256)
  (charsetLookup charsetLen b).map String.mk

/-- The assignments `Init` makes to the options record once the user has confirmed: the
token, the default configuration path and the derived fields. -/
def deriveFields (random : Nat → Nat) (options : installOptions) : Option installOptions :=
  let tokened : Option installOptions :=
    if options.RandomAuthToken then
      (makeRandomString 32 random).map (fun t => { options with AuthToken := t })
    else some options
  tokened.map fun options =>
    let options :=
      if !options.UsingCustomConfigPath then
        { options with ConfigPath := Join [options.InstallDirectory, "agent.yml"] }
      else options
    { options with
      BinaryPath := Join [options.InstallDirectory, "agent"]
      UninstallScriptPath := Join [options.InstallDirectory, "uninstall.sh"]
      ServiceName := Base options.ServicePath }

/-- What an action handed to `doWithProgressIndicator` returns. -/
structure StepResult where
  outcome : String
  err : Option String
  proceed : Bool
  deriving DecidableEq, Repr

/-- The function `doWithProgressIndicator`, the action having run: the outcome line is
printed and the action's proceed flag returned.  Spinner frames are not recorded. -/
def doWithProgressIndicator (message : String) (r : StepResult) : Bool × List Event :=
  (r.proceed, [Event.step message r.outcome r.err])

/-- The four generated files. -/
structure Artifacts where
  serviceFileContents : String
  configFileContents : String
  lunaConfigEntryContents : String
  uninstallScriptFileContents : String
  deriving DecidableEq, Repr

/-- The action "Generating file contents". -/
def generateAction (env : Env) (options : installOptions) : StepResult × Artifacts :=
  match env.serviceTemplate options with
  | .error err => (⟨"FAILED", some err, false⟩, ⟨"", "", "", ""⟩)
  | .ok service =>
    match env.configTemplate options with
    | .error err => (⟨"FAILED", some err, false⟩, ⟨service, "", "", ""⟩)
    | .ok config =>
      match env.configEntryTemplate options with
      | .error err => (⟨"FAILED", some err, false⟩, ⟨service, config ++ "\n", "", ""⟩)
      | .ok entry =>
        match env.uninstallScriptTemplate options with
        | .error err => (⟨"FAILED", some err, false⟩, ⟨service, config ++ "\n", entry, ""⟩)
        | .ok uninstall => (⟨"DONE", none, true⟩, ⟨service, config ++ "\n", entry, uninstall⟩)

/-- The action "Creating installation directory". -/
def directoryAction (w : World) (options : installOptions) : StepResult × World :=
  match createPathIfNotExists w options.InstallDirectory 0o755 with
  | ((_, some err), w1) => (⟨"FAILED", some err, false⟩, w1)
  | ((false, none), w1) => (⟨"SKIPPED (already exists)", none, true⟩, w1)
  | ((true, none), w1) => (⟨"DONE", none, true⟩, w1)

/-- The action "Creating installation files". -/
def filesAction (w : World) (currentPathOfBinary : String) (options : installOptions)
    (a : Artifacts) : StepResult × World :=
  match createFileIfNotExists w options.ServicePath a.serviceFileContents 0o644 with
  | (some err, w1) => (⟨"FAILED", some err, false⟩, w1)
  | (none, w1) =>
    match copyFileFromTo w1 currentPathOfBinary options.BinaryPath 0o755 with
    | (some err, w2) => (⟨"FAILED", some err, false⟩, w2)
    | (none, w2) =>
      match createFileIfNotExists w2 options.ConfigPath a.configFileContents 0o600 with
      | (some err, w3) => (⟨"FAILED", some err, false⟩, w3)
      | (none, w3) =>
        match createFileIfNotExists w3 options.UninstallScriptPath
            a.uninstallScriptFileContents 0o744 with
        | (some err, w4) => (⟨"FAILED", some err, false⟩, w4)
        | (none, w4) => (⟨"DONE", none, true⟩, w4)

/-- The action of the two command steps: FAILED with the standard error as the error when
the command fails, DONE otherwise. -/
def commandAction (r : CmdResult) : StepResult :=
  match r.err with
  | some err => ⟨"FAILED (" ++ err ++ ")", some r.stderr, false⟩
  | none => ⟨"DONE", none, true⟩

/-- The loop `for range 3` of the health check: `left` iterations remain, `n` requests
have been sent, `lastErr` is the error of the last one.  The trace has one entry per
request sent. -/
def healthAttempts (probe : Nat → ProbeResult) (req : Event) :
    Nat → Nat → Option String → StepResult × List Event
  | 0, _, lastErr => (⟨"FAILED AFTER 3 TRIES", lastErr, false⟩, [])
  | left + 1, n, _ =>
    match probe n with
    | .failed err =>
      let r := healthAttempts probe req left (n + 1) (some err)
      (r.1, req :: r.2)
    | .response statusCode =>
      if statusCode = 200 then (⟨"OK", none, true⟩, [req])
      else
        let r := healthAttempts probe req left (n + 1)
          (some ("unexpected status code: " ++ Itoa statusCode))
        (r.1, req :: r.2)

/-- The URL of the health request. -/
def healthUrl (options : installOptions) : String :=
  "http://localhost:" ++ Itoa options.Port ++ "/api/healthz"

/-- The Authorization header of the health request, set when a random token is used. -/
def healthAuthorization (options : installOptions) : Option String :=
  if options.RandomAuthToken then some ("Bearer " ++ options.AuthToken) else none

/-- What the host answers to the successive health requests of this installation. -/
def healthProbe (env : Env) (options : installOptions) : Nat → ProbeResult :=
  env.probe (healthUrl options) (healthAuthorization options)

/-- The action "Checking if agent is running". -/
def healthAction (env : Env) (options : installOptions) : StepResult × List Event :=
  healthAttempts (healthProbe env options)
    (Event.request (healthUrl options) (healthAuthorization options)) 3 0 none

/-! ## Init -/

/-- The function `isUsingSystemd`. -/
def isUsingSystemd (w : World) : Bool :=
  match Stat w "/run/systemd/system" with
  | .info isDir => isDir
  | _ => false

/-- The function `isRunningInsideDockerContainer`. -/
def isRunningInsideDockerContainer (w : World) : Bool :=
  match Stat w "/.dockerenv" with
  | .info _ => true
  | _ => false

/-- The variable `defaultHiddenMountpoints`. -/
def defaultHiddenMountpoints : List String := ["/boot", "/boot/efi", "/var/hdd.log"]

/-- The options record `Init` starts the option loop with. -/
def defaultOptions (env : Env) : installOptions :=
  { InstallDirectory := "/opt/luna-agent"
    BinaryPath := ""
    ConfigPath := ""
    ServicePath := "/etc/systemd/system/luna-agent.service"
    ServiceName := ""
    UninstallScriptPath := ""
    LocalAddress :=
      match env.localAddress with
      | .ok a => a
      | .error _ => "<insert IP address or domain of this server>"
    Hostname :=
      match env.hostname with
      | .ok h => h
      | .error _ => "unnamed server"
    AuthToken := ""
    Port := 27973
    HiddenMountpoints :=
      match env.partitions with
      | .ok ms => ms.filter (fun m => m ∈ defaultHiddenMountpoints)
      | .error _ => []
    AddFirewallRule := env.hasUFW
    EnableAndRunService := true
    RandomAuthToken := true
    UsingCustomConfigPath := false }

/-- What `Init` leaves behind: the returned error, the options record, the operating
system and the trace. -/
structure InitResult where
  err : Option String
  options : installOptions
  world : World
  out : List Event

/-- An early return of `Init` with an error, which the deferred function prints. -/
def InitResult.failed (msg : String) (options : installOptions) (w : World)
    (out : List Event) : InitResult :=
  ⟨some msg, options, w, out ++ [Event.line ("Installation error: " ++ msg)]⟩

/-- The part of `Init` after the user has confirmed and the fields are derived: the three
steps that must succeed, the steps that may fail, and the report. -/
def installSteps (env : Env) (currentPathOfBinary : String) (w : World)
    (options : installOptions) (out : List Event) : InitResult :=
  let gen := generateAction env options
  let genDone := doWithProgressIndicator "Generating file contents" gen.1
  let out := out ++ genDone.2
  if !genDone.1 then
    InitResult.failed "cannot continue without generating file contents" options w out
  else
    let dir := directoryAction w options
    let dirDone := doWithProgressIndicator "Creating installation directory" dir.1
    let out := out ++ dirDone.2
    if !dirDone.1 then
      InitResult.failed "cannot continue without creating installation directory"
        options dir.2 out
    else
      let files := filesAction dir.2 currentPathOfBinary options gen.2
      let filesDone := doWithProgressIndicator "Creating installation files" files.1
      let out := out ++ filesDone.2
      if !filesDone.1 then
        InitResult.failed "cannot continue without necessary installation files"
          options files.2 out
      else
        let out :=
          if env.hasUFW && options.AddFirewallRule then
            let args := ["allow", Itoa options.Port ++ "/tcp"]
            out ++ [Event.command "ufw" args] ++
              (doWithProgressIndicator "Adding firewall rule"
                (commandAction (env.runCommand "ufw" args))).2
          else out
        let out :=
          if options.EnableAndRunService then
            let args := ["enable", "--now", options.ServiceName]
            let started := doWithProgressIndicator "Enabling and starting service"
              (commandAction (env.runCommand "systemctl" args))
            let out := out ++ [Event.command "systemctl" args] ++ started.2
            if started.1 then
              let health := healthAction env options
              out ++ health.2 ++
                (doWithProgressIndicator "Checking if agent is running" health.1).2
            else out
          else out
        let out := out ++
          [Event.line "======================", Event.line "Installation completed",
            Event.line "======================"]
        let out :=
          if !env.hasUFW || !options.AddFirewallRule then
            out ++ [Event.line ("NOTE: You may need to manually open port " ++
              Itoa options.Port ++ "/tcp on this server if you have a firewall")]
          else out
        let out := out ++
          [Event.line ("To uninstall the agent run sudo " ++ options.UninstallScriptPath),
            Event.line "Add the following entry to your servers list in luna.yml:",
            Event.line gen.2.lunaConfigEntryContents]
        ⟨none, options, files.2, out⟩

/-- The function `Init`.  `none`: the option loop is still running when the fuel is gone,
or `makeRandomString` indexed out of range. -/
def Init (env : Env) (fuel : Nat) (w : World) (stdin : List String) : Option InitResult :=
  let start := defaultOptions env
  if env.GOOS ≠ "linux" then
    some (InitResult.failed "automatic installation is only supported on Linux systems"
      start w [])
  else if !isUsingSystemd w then
    some (InitResult.failed
      "automatic installation is only supported on systems running systemd" start w [])
  else if isRunningInsideDockerContainer w then
    some (InitResult.failed "automatic installation is not possible inside Docker containers"
      start w [])
  else
    match env.executable with
    | .error err =>
      some (InitResult.failed ("getting current binary path: " ++ err) start w [])
    | .ok currentPathOfBinary =>
      let banner :=
        [Event.line "Installation of the luna Agent will use the following default options:"]
      match handleUserInputLoop env.intSize env.caseTable (installOptionHandlers env w) fuel
          start stdin with
      | none => none
      | some r =>
        if !r.proceed then
          some ⟨none, r.options, w, banner ++ r.out ++ [Event.line "Installation cancelled"]⟩
        else
          match deriveFields env.random r.options with
          | none => none
          | some options => some (installSteps env currentPathOfBinary w options (banner ++ r.out))

/-! ## Specification vocabulary -/

/-- The decimal digit a character stands for. -/
def digitOf (c : Char) : Nat := c.toNat - 48

/-- The input "parses as the decimal integer `n`": an optional sign followed by one or more
decimal digits whose value, read in base ten, is `n`. -/
def ParsesAsDecimal (s : String) (n : Int) : Prop :=
  ∃ ds : List Char, ds ≠ [] ∧ (∀ c ∈ ds, c.isDigit = true) ∧
    (((s.data = ds ∨ s.data = '+' :: ds) ∧ n = (Nat.ofDigits 10 (ds.reverse.map digitOf) : Nat)) ∨
      (s.data = '-' :: ds ∧ n = -((Nat.ofDigits 10 (ds.reverse.map digitOf) : Nat) : Int)))

/-- What an answer to the main prompt makes the option loop do. -/
inductive Decision
  /-- Empty input: the prompt is shown again. -/
  | again
  /-- The loop returns true. -/
  | confirm
  /-- The loop returns false. -/
  | cancel
  /-- "Invalid option" is printed and the prompt shown again. -/
  | invalid
  /-- The option at this (0-based) position is edited. -/
  | edit (position : Nat)
  deriving DecidableEq, Repr

/-- The answer as the loop matches it: lower-cased, and unwrapped when it is bracketed;
the flag tells whether the hint is printed. -/
def normalize (table : Char → Char) (input : String) : String × Bool :=
  if isBracketed (toLower table input) then (unwrapBrackets (toLower table input), true)
  else (toLower table input, false)

/-- The decision the loop takes on an answer, `count` being the number of options. -/
def decision (intSize : Nat) (table : Char → Char) (count : Nat) (input : String) :
    Decision :=
  if input = "" then .again
  else if (normalize table input).1 = "install" ∨ (normalize table input).1 = "i" then .confirm
  else if (normalize table input).1 = "quit" ∨ (normalize table input).1 = "q" then .cancel
  else
    match Atoi intSize (normalize table input).1 with
    | none => .invalid
    | some index =>
      if index < 1 ∨ index > (count : Int) then .invalid else .edit (index - 1).toNat

/-- What the loop prints on an answer before it acts on it. -/
def shownFor (table : Char → Char) (e : editableInstallOptions) (options : installOptions)
    (input : String) : List Event :=
  [Event.optionList (e.map fun opt => ((opt options).title, (opt options).value)),
    Event.prompt mainPrompt] ++
  (if input ≠ "" ∧ (normalize table input).2 = true then [Event.tip] else [])

/-- The options records `Init` can hold while the option loop runs: the defaults, and what
any handler of `installOptionHandlers` leaves after a call on such a record. -/
inductive Reachable (env : Env) (w : World) : installOptions → Prop
  | start : Reachable env w (defaultOptions env)
  | edit (o created : installOptions) (opt : installOptions → OptionView) (h : Handler)
      (stdin : List String) :
      Reachable env w o → opt ∈ installOptionHandlers env w →
      (opt created).handleChange = some h → Reachable env w (h o stdin).options

/-- The error one health request leaves in `lastErr`: the connection error, or
"unexpected status code" for a response. -/
def probeError : ProbeResult → String
  | .failed err => err
  | .response statusCode => "unexpected status code: " ++ Itoa statusCode

/-- A port in the range 1 to 65535. -/
def PortInRange (o : installOptions) : Prop := 1 ≤ o.Port ∧ o.Port ≤ 65535

/-! ## A sample host -/

/-- The two entries of the Unicode case table that lower a rune into ASCII, the capital I
with dot above (U+0130) to `i` and the Kelvin sign (U+212A) to `k`; other runes are left
as they are. -/
def sampleCaseTable (c : Char) : Char :=
  if c.toNat = 0x130 then 'i' else if c.toNat = 0x212A then 'k' else c

/-- A Linux host with systemd and ufw, whose health endpoint answers on the third request. -/
def sampleEnv : Env :=
  { intSize := 64
    caseTable := sampleCaseTable
    GOOS := "linux"
    executable := .ok "/tmp/agent"
    hasUFW := true
    partitions := .ok ["/", "/boot"]
    localAddress := .ok "10.0.0.2"
    hostname := .ok "box"
    home := .ok "/root"
    cwd := .ok "/tmp"
    random := fun i => 7 * i + 250
    serviceTemplate := fun o => .ok ("ExecStart=" ++ o.BinaryPath)
    configTemplate := fun o => .ok ("port: " ++ Itoa o.Port ++ " token: " ++ o.AuthToken)
    configEntryTemplate := fun o => .ok ("- name: " ++ o.Hostname)
    uninstallScriptTemplate := fun o => .ok ("systemctl disable --now " ++ o.ServiceName)
    runCommand := fun _ _ => ⟨"", "", none⟩
    probe := fun _ _ n => if n < 2 then .failed "connection refused" else .response 200 }

/-- A file system with the systemd runtime directory, the running binary and one file. -/
def sampleWorld : World :=
  { nodes := [("/run/systemd/system", .dir), ("/tmp/agent", .file "ELF" 0o755),
      ("/etc/motd", .file "hello" 0o644), ("/srv", .dir)]
    handles := []
    nextFd := 3
    openFails := []
    writeFails := []
    readFails := []
    closeFails := []
    mkdirFails := [] }

/-- The same result with the hint printed right after the option list and the prompt. -/
def LoopResult.withTip (r : LoopResult) : LoopResult :=
  { r with out := r.out.take 2 ++ [Event.tip] ++ r.out.drop 2 }

/-- The options record and the unread input after `n` calls of a handler in a row. -/
def afterCalls (h : Handler) : Nat → installOptions → List String → installOptions × List String
  | 0, o, stdin => (o, stdin)
  | n + 1, o, stdin => afterCalls h n (h o stdin).options (h o stdin).stdin

/-- The result of call number `i` (counting from 0) of a handler called in a row. -/
def callResult (h : Handler) (i : Nat) (o : installOptions) (stdin : List String) :
    HandlerResult :=
  h (afterCalls h i o stdin).1 (afterCalls h i o stdin).2

/-- The trace of an edit in which the handler is called `n` times with an error shown
after each call, and then once more. -/
def retryTrace (position : Nat) (h : Handler) : Nat → installOptions → List String → List Event
  | 0, o, stdin => Event.handlerCall position :: (h o stdin).out.map Event.prompt
  | n + 1, o, stdin =>
    (Event.handlerCall position :: (h o stdin).out.map Event.prompt ++
        [Event.editError ((h o stdin).err.getD "")]) ++
      retryTrace position h n (h o stdin).options (h o stdin).stdin

/-- The events that record a handler call. -/
def isHandlerCall : Event → Bool
  | .handlerCall _ => true
  | _ => false

/-- Every open handle has a descriptor below the next one to be handed out. -/
def handlesFresh (w : World) : Prop := ∀ h ∈ w.handles, h.1 < w.nextFd

/-- The sample file system on a full disk: writing the configuration file fails. -/
def fullDiskWorld : World :=
  { sampleWorld with writeFails := ["/opt/luna-agent/agent.yml"] }

end Install

/-! # The agent's HTTP server (`internal/agent/server.go`) -/

namespace Agent

/-- The loop `v |= x[i] ^ y[i]` of `subtle.ConstantTimeCompare`, over slices of one length. -/
def xorAccumulate : List Char → List Char → Nat → Nat
  | x :: xs, y :: ys, v => xorAccumulate xs ys (v ||| (x.toNat ^^^ y.toNat))
  | _, _, v => v

/-- The Go function `subtle.ConstantTimeCompare`: 0 when the lengths differ, otherwise 1
when the accumulated difference is zero and 0 when it is not. -/
def ConstantTimeCompare (x y : List Char) : Nat :=
  if x.length ≠ y.length then 0
  else if xorAccumulate x y 0 = 0 then 1 else 0

/-- The server part of the type `config`. -/
structure config where
  Host : String
  Port : Int
  Token : String
  deriving DecidableEq, Repr

/-- An incoming request: its path and its header, the values of every key in order. -/
structure Request where
  path : String
  Header : List (String × List String)
  deriving DecidableEq, Repr

/-- The method `Header.Get`: the first value of the key, or the empty string. -/
def Request.Get (r : Request) (key : String) : String :=
  match r.Header.lookup key with
  | some (v :: _) => v
  | _ => ""

/-- What a handler has written to its `http.ResponseWriter`: the status passed to
`WriteHeader` (`none`: not called yet), the header and the body. -/
structure ResponseWriter where
  status : Option Nat
  header : List (String × String)
  body : String
  deriving DecidableEq, Repr

/-- A response writer nothing has been written to. -/
def ResponseWriter.fresh : ResponseWriter := ⟨none, [], ""⟩

/-- The Go function `http.Error`: a plain-text reply with the given status, the message
and a newline as body. -/
def httpError (w : ResponseWriter) (error : String) (code : Nat) : ResponseWriter :=
  { status := some code
    header := ("Content-Type", "text/plain; charset=utf-8") ::
      ("X-Content-Type-Options", "nosniff") ::
      w.header.filter (fun h => h.1 ≠ "Content-Type" ∧ h.1 ≠ "X-Content-Type-Options" ∧
        h.1 ≠ "Content-Length")
    body := w.body ++ error ++ "\n" }

/-- The constant `http.StatusUnauthorized`. -/
def StatusUnauthorized : Nat := 401

/-- The constant `http.StatusOK`. -/
def StatusOK : Nat := 200

/-- The constant `http.StatusInternalServerError`. -/
def StatusInternalServerError : Nat := 500

/-- The closure `isAuthorized` of `serve`: the returned flag and the response writer. -/
def isAuthorized (cfg : config) (r : Request) (w : ResponseWriter) : Bool × ResponseWriter :=
  let authorizationValue := ("Bearer " ++ cfg.Token).data
  if cfg.Token ≠ "" ∧
      ConstantTimeCompare (r.Get "Authorization").data authorizationValue ≠ 1 then
    (false, httpError w "Unauthorized" StatusUnauthorized)
  else (true, w)

/-- The handler of `/api/healthz`. -/
def healthzHandler (cfg : config) (r : Request) (w : ResponseWriter) : ResponseWriter :=
  match isAuthorized cfg r w with
  | (false, w1) => w1
  | (true, w1) => { w1 with status := some StatusOK }

/-- The variable `cachedSystemInfo`; times are in milliseconds. -/
structure CachedSystemInfo where
  json : String
  lastUpdate : Int
  deriving DecidableEq, Repr

/-- The handler of `/api/sysinfo/all`; `now` is the clock and `marshalled` the result of
collecting the system information and encoding it, both done outside this repository. -/
def sysinfoHandler (cfg : config) (now : Int) (marshalled : Except String String)
    (cache : CachedSystemInfo) (r : Request) (w : ResponseWriter) :
    ResponseWriter × CachedSystemInfo :=
  match isAuthorized cfg r w with
  | (false, w1) => (w1, cache)
  | (true, w1) =>
    let reply (c : CachedSystemInfo) : ResponseWriter × CachedSystemInfo :=
      ({ status := some (w1.status.getD StatusOK)
         header := ("Content-Type", "application/json") ::
           w1.header.filter (fun h => h.1 ≠ "Content-Type")
         body := w1.body ++ c.json }, c)
    if now - cache.lastUpdate > 1000 then
      match marshalled with
      | .error _ => (httpError w1 "Internal Server Error" StatusInternalServerError, cache)
      | .ok infoAsJson => reply ⟨infoAsJson, now⟩
    else reply cache

end Agent

namespace Install

/-- The resolution of a path as the specification words it: an absolute input is returned
unchanged; every other input is resolved against the home directory, a leading `~`
standing for the home directory and any other relative path being taken relative to it. -/
def resolveAgainstHome (home path : String) : String :=
  if IsAbs path then path
  else
    match path.data with
    | '~' :: tail => Join [home, String.mk tail]
    | _ => Join [home, path]

/-- A path element `filepath.Clean` keeps as it is: not empty, not `.`, not `..`, and
without a separator. -/
def NormalElem (e : List Char) : Prop :=
  e ≠ [] ∧ e ≠ ['.'] ∧ e ≠ ['.', '.'] ∧ '/' ∉ e

/-! ## doWithProgressIndicator as two goroutines

The foreground loop and the goroutine that runs the action, as a transition system.  A
schedule is a list of moves; every interleaving the Go runtime can produce is a schedule.
-/

/-- What one call of `doWithProgressIndicator` prints. -/
inductive Printed
  /-- A spinner frame: `printProgress(loaderChars[i])`. -/
  | frame (symbol : String)
  /-- The final outcome line: `printProgress(outcomeSymbol)` and `fmt.Println(outcome)`. -/
  | outcome (symbol text : String)
  /-- The indented error line printed under a failed step. -/
  | errorLine (msg : String)
  deriving DecidableEq, Repr

/-- Where the goroutine started by `doWithProgressIndicator` stands. -/
inductive ActionPc
  /-- The action is running. -/
  | running
  /-- The action has returned and `outcome, err, proceed` are assigned. -/
  | assigned
  /-- `ticker.Stop()` has been called; the goroutine is blocked sending on `done`. -/
  | stopped
  /-- The send on `done` has been received; the goroutine is gone. -/
  | exited
  deriving DecidableEq, Repr

/-- The state of one call: the goroutine, the variables it shares with the foreground
loop, the ticker and its channel (which holds at most one tick), the spinner position,
what has been printed, and the returned flag once the call has returned. -/
structure ProgressState where
  pc : ActionPc
  shared : StepResult
  tickerRunning : Bool
  tickPending : Bool
  loaderCharIndex : Nat
  printed : List Printed
  result : Option Bool
  deriving DecidableEq, Repr

/-- The array `loaderChars`. -/
def loaderChars : List String := ["-", "\\", "|", "/"]

/-- The state when the foreground loop is entered: the first frame is printed, the ticker
runs, the goroutine has been started and the shared variables hold their zero values. -/
def ProgressState.start : ProgressState :=
  { pc := .running
    shared := ⟨"", none, false⟩
    tickerRunning := true
    tickPending := false
    loaderCharIndex := 0
    printed := [Printed.frame (loaderChars.getD 0 "")]
    result := none }

/-- What the branch `case <-done` prints: the outcome line with the success or failure
glyph, and the error line when there is an error. -/
def outcomeLines (r : StepResult) : List Printed :=
  match r.err with
  | none => [Printed.outcome "✔" r.outcome]
  | some err => [Printed.outcome "✘" r.outcome, Printed.errorLine (" └╴ " ++ err)]

/-- One atomic move of the runtime, the goroutine or the foreground loop. -/
inductive Move
  /-- The ticker sends on `ticker.C`; the tick is dropped when one is waiting. -/
  | timerFires
  /-- The goroutine: `outcome, err, proceed = action()` completes. -/
  | actionReturns
  /-- The goroutine: `ticker.Stop()`; `drain` tells whether a waiting tick is discarded. -/
  | stopTicker (drain : Bool)
  /-- The goroutine sends on `done` and the `select` takes `case <-done`. -/
  | receiveDone
  /-- The `select` takes `case <-ticker.C`. -/
  | receiveTick
  deriving DecidableEq, Repr

/-- One move from a state; `none` when the move cannot happen there.  `action` is what
the action returns. -/
def progressStep (action : StepResult) (m : Move) (s : ProgressState) : Option ProgressState :=
  match m with
  | .timerFires =>
    if s.tickerRunning then some { s with tickPending := true } else none
  | .actionReturns =>
    if s.pc = .running then some { s with pc := .assigned, shared := action } else none
  | .stopTicker drain =>
    if s.pc = .assigned then
      some { s with pc := .stopped, tickerRunning := false,
                    tickPending := if drain then false else s.tickPending }
    else none
  | .receiveDone =>
    if s.pc = .stopped ∧ s.result = none then
      some { s with pc := .exited, printed := s.printed ++ outcomeLines s.shared,
                    result := some s.shared.proceed }
    else none
  | .receiveTick =>
    if s.tickPending = true ∧ s.result = none then
      some { s with tickPending := false,
                    printed := s.printed ++
                      [Printed.frame (loaderChars.getD s.loaderCharIndex "")],
                    loaderCharIndex := (s.loaderCharIndex + 1) % loaderChars.length }
    else none

/-- A schedule run from a state; `none` when one of its moves cannot happen. -/
def progressRun (action : StepResult) : List Move → ProgressState → Option ProgressState
  | [], s => some s
  | m :: ms, s =>
    match progressStep action m s with
    | none => none
    | some s1 => progressRun action ms s1

/-- The spinner frames among what was printed. -/
def Printed.isFrame : Printed → Bool
  | .frame _ => true
  | _ => false

/-- The outcome lines among what was printed. -/
def Printed.isOutcome : Printed → Bool
  | .outcome _ _ => true
  | _ => false

/-- The schedule of an action that lasts `k` ticks, each shown as a frame, after which
the goroutine stops the ticker and hands over. -/
def durationSchedule (k : Nat) (drain : Bool) : List Move :=
  (List.replicate k [Move.timerFires, Move.receiveTick]).flatten ++
    [Move.actionReturns, Move.stopTicker drain, Move.receiveDone]

/-- What holds of every state a schedule reaches: the call has returned exactly when the
goroutine is gone; before the return only frames are printed; once the action has returned
the shared variables hold what it returned; after `ticker.Stop()` the ticker is off; and
after the return the flag is the action's and the printed text is frames followed by the
outcome lines. -/
structure ProgressInvariant (action : StepResult) (s : ProgressState) : Prop where
  returned_iff : s.result = none ↔ s.pc ≠ .exited
  frames_only : s.result = none → ∀ p ∈ s.printed, p.isFrame = true
  shared_assigned : s.pc ≠ .running → s.shared = action
  ticker_off : s.pc = .stopped ∨ s.pc = .exited → s.tickerRunning = false
  outcome_last : ∀ b, s.result = some b → b = action.proceed ∧
    ∃ frames : List Printed, (∀ p ∈ frames, p.isFrame = true) ∧
      s.printed = frames ++ outcomeLines action

/-! ## Theorems -/

/-! ### strconv.Atoi -/

theorem digitsValue_of_digits (ds : List Char) (hd : ∀ c ∈ ds, c.isDigit = true) (acc : Nat) :
    digitsValue ds acc =
      some (acc * 10 ^ ds.length + Nat.ofDigits 10 (ds.reverse.map digitOf)) := by
  induction ds generalizing acc with
  | nil => simp [digitsValue]
  | cons c cs ih =>
    have hc : c.isDigit = true := hd c (List.mem_cons_self _ _)
    have hcs : ∀ x ∈ cs, x.isDigit = true := fun x hx => hd x (List.mem_cons_of_mem _ hx)
    simp only [digitsValue, hc, if_true, ih hcs, List.reverse_cons, List.map_append,
      List.map_cons, List.map_nil, Nat.ofDigits_append, Nat.ofDigits_singleton,
      List.length_map, List.length_reverse, List.length_cons, digitOf]
    congr 1
    ring

theorem digitsValue_some_digits (ds : List Char) (acc v : Nat)
    (h : digitsValue ds acc = some v) : ∀ c ∈ ds, c.isDigit = true := by
  induction ds generalizing acc with
  | nil => simp
  | cons c cs ih =>
    by_cases hc : c.isDigit = true
    · simp only [digitsValue, hc, if_true] at h
      intro x hx
      rcases List.mem_cons.mp hx with rfl | hx
      · exact hc
      · exact ih _ h x hx
    · simp [digitsValue, hc] at h

theorem isDigit_ne_sign (c : Char) (hc : c.isDigit = true) : c ≠ '-' ∧ c ≠ '+' := by
  constructor <;> rintro rfl <;> simp [Char.isDigit] at hc

theorem Atoi_body (intSize : Nat) (c : Char) (body : List Char) (n : Int)
    (h : (if body = [] then none
          else
            match digitsValue body 0 with
            | none => none
            | some un =>
              if c = '-' then
                if un ≤ 2 ^ (intSize - 1) then some (-(un : Int)) else none
              else
                if un < 2 ^ (intSize - 1) then some (un : Int) else none) = some n) :
    body ≠ [] ∧ (∀ x ∈ body, x.isDigit = true) ∧
      n = (if c = '-' then -((Nat.ofDigits 10 (body.reverse.map digitOf) : Nat) : Int)
           else ((Nat.ofDigits 10 (body.reverse.map digitOf) : Nat) : Int)) := by
  by_cases hb : body = []
  · simp [hb] at h
  · rw [if_neg hb] at h
    cases hv : digitsValue body 0 with
    | none => rw [hv] at h; exact absurd h (by simp)
    | some un =>
      have hdig := digitsValue_some_digits _ _ _ hv
      have hval := digitsValue_of_digits _ hdig 0
      rw [hv] at hval
      simp only [Option.some.injEq, Nat.zero_mul, Nat.zero_add] at hval
      rw [hv] at h
      refine ⟨hb, hdig, ?_⟩
      by_cases hneg : c = '-'
      · simp only [hneg, if_true] at h ⊢
        by_cases hr : un ≤ 2 ^ (intSize - 1)
        · rw [if_pos hr] at h
          rw [← hval]
          exact (Option.some.inj h).symm
        · rw [if_neg hr] at h; exact absurd h (by simp)
      · simp only [hneg, if_false] at h ⊢
        by_cases hr : un < 2 ^ (intSize - 1)
        · rw [if_pos hr] at h
          rw [← hval]
          exact (Option.some.inj h).symm
        · rw [if_neg hr] at h; exact absurd h (by simp)

theorem Atoi_sound (intSize : Nat) (s : String) (n : Int) (h : Atoi intSize s = some n) :
    ParsesAsDecimal s n := by
  unfold Atoi at h
  cases hs : s.data with
  | nil => simp [hs] at h
  | cons c cs =>
    simp only [hs] at h
    obtain ⟨hb, hdig, hn⟩ := Atoi_body intSize c _ n h
    by_cases hneg : c = '-'
    · simp only [hneg, true_or, if_true] at hb hdig hn
      exact ⟨cs, hb, hdig, Or.inr ⟨by rw [hs, hneg], hn⟩⟩
    · by_cases hpos : c = '+'
      · simp only [hpos, or_true, if_true] at hb hdig
        rw [if_neg hneg] at hn
        simp only [hpos, or_true, if_true] at hn
        exact ⟨cs, hb, hdig, Or.inl ⟨Or.inr (by rw [hs, hpos]), hn⟩⟩
      · simp only [hneg, hpos, or_self, if_false] at hb hdig hn
        exact ⟨c :: cs, hb, hdig, Or.inl ⟨Or.inl hs, hn⟩⟩

theorem Atoi_complete (intSize : Nat) (s : String) (n : Int) (h : ParsesAsDecimal s n)
    (hlo : -(2 ^ (intSize - 1) : Int) ≤ n) (hhi : n < 2 ^ (intSize - 1)) :
    Atoi intSize s = some n := by
  obtain ⟨ds, hne, hdig, hcase⟩ := h
  have hval := digitsValue_of_digits ds hdig 0
  simp only [Nat.zero_mul, Nat.zero_add] at hval
  unfold Atoi
  rcases hcase with ⟨hs | hs, hn⟩ | ⟨hs, hn⟩
  · cases ds with
    | nil => exact absurd rfl hne
    | cons c cs =>
      have hc := isDigit_ne_sign c (hdig c (List.mem_cons_self _ _))
      have hlt : Nat.ofDigits 10 (List.map digitOf (c :: cs).reverse) < 2 ^ (intSize - 1) := by
        rw [hn] at hhi; exact_mod_cast hhi
      simp only [hs, hc.1, hc.2, or_self, if_false, hval, reduceCtorEq, if_pos hlt, hn]
  · have hlt : Nat.ofDigits 10 (List.map digitOf ds.reverse) < 2 ^ (intSize - 1) := by
      rw [hn] at hhi; exact_mod_cast hhi
    have hp : ('+' : Char) ≠ '-' := by decide
    simp only [hs, or_true, if_true, hne, if_false, hval, if_pos hlt, hn, hp]
  · have hle : Nat.ofDigits 10 (List.map digitOf ds.reverse) ≤ 2 ^ (intSize - 1) := by
      rw [hn] at hlo
      have := neg_le_neg_iff.mp hlo
      exact_mod_cast this
    simp only [hs, true_or, if_true, hne, if_false, hval, if_pos hle, hn]

theorem handleUserInputLoop_succ (intSize : Nat) (table : Char → Char) (e : editableInstallOptions) (fuel : Nat)
    (o : installOptions) (stdin : List String) :
    handleUserInputLoop intSize table e (fuel + 1) o stdin =
      match decision intSize table e.length (takeUserInput stdin).1 with
      | .again =>
        (handleUserInputLoop intSize table e fuel o (takeUserInput stdin).2).map
          (LoopResult.after (shownFor table e o (takeUserInput stdin).1))
      | .confirm =>
        some ⟨true, o, (takeUserInput stdin).2, shownFor table e o (takeUserInput stdin).1⟩
      | .cancel =>
        some ⟨false, o, (takeUserInput stdin).2, shownFor table e o (takeUserInput stdin).1⟩
      | .invalid =>
        (handleUserInputLoop intSize table e fuel o (takeUserInput stdin).2).map
          (LoopResult.after (shownFor table e o (takeUserInput stdin).1 ++ [Event.invalidOption]))
      | .edit k =>
        match e[k]? with
        | none => none
        | some opt =>
          match (opt o).handleChange with
          | none =>
            (handleUserInputLoop intSize table e fuel o (takeUserInput stdin).2).map
              (LoopResult.after (shownFor table e o (takeUserInput stdin).1))
          | some handler =>
            match editLoop k handler fuel o (takeUserInput stdin).2 with
            | none => none
            | some r =>
              (handleUserInputLoop intSize table e fuel r.options r.stdin).map
                (LoopResult.after (shownFor table e o (takeUserInput stdin).1 ++ r.out)) := by
  rw [handleUserInputLoop]
  simp only [decision, shownFor, normalize]
  by_cases h0 : (takeUserInput stdin).1 = ""
  · simp [h0]
  · by_cases hb : isBracketed (toLower table (takeUserInput stdin).1) = true
    · simp only [h0, hb, if_true, if_false, ne_eq, not_false_eq_true, and_self]
      by_cases h1 : unwrapBrackets (toLower table (takeUserInput stdin).1) = "install" ∨
          unwrapBrackets (toLower table (takeUserInput stdin).1) = "i"
      · simp only [h1, if_true]
      · simp only [h1, if_false]
        by_cases h2 : unwrapBrackets (toLower table (takeUserInput stdin).1) = "quit" ∨
            unwrapBrackets (toLower table (takeUserInput stdin).1) = "q"
        · simp only [h2, if_true]
        · simp only [h2, if_false]
          cases ha : Atoi intSize (unwrapBrackets (toLower table (takeUserInput stdin).1)) with
          | none => simp only []
          | some index =>
            simp only []
            by_cases h3 : index < 1 ∨ index > (e.length : Int)
            · simp only [h3, if_true]
            · simp only [h3, if_false]
    · simp only [h0, hb, if_false, ne_eq, not_false_eq_true, true_and, Bool.false_eq_true,
        List.append_nil]
      by_cases h1 : toLower table (takeUserInput stdin).1 = "install" ∨
          toLower table (takeUserInput stdin).1 = "i"
      · simp only [h1, if_true]
      · simp only [h1, if_false]
        by_cases h2 : toLower table (takeUserInput stdin).1 = "quit" ∨
            toLower table (takeUserInput stdin).1 = "q"
        · simp only [h2, if_true]
        · simp only [h2, if_false]
          cases ha : Atoi intSize (toLower table (takeUserInput stdin).1) with
          | none => simp only []
          | some index =>
            simp only []
            by_cases h3 : index < 1 ∨ index > (e.length : Int)
            · simp only [h3, if_true]
            · simp only [h3, if_false]

/-! ### The option loop: unfolding and invariants -/

theorem editLoop_invariant (P : installOptions → Prop) (k : Nat) (h : Handler)
    (hh : ∀ o stdin, P o → P (h o stdin).options) :
    ∀ (fuel : Nat) (o : installOptions) (stdin : List String) (r : LoopResult),
      P o → editLoop k h fuel o stdin = some r → P r.options := by
  intro fuel
  induction fuel with
  | zero => intro o stdin r _ hr; simp [editLoop] at hr
  | succ fuel ih =>
    intro o stdin r ho hr
    unfold editLoop at hr
    cases herr : (h o stdin).err with
    | none =>
      simp only [herr] at hr
      cases hr
      exact hh o stdin ho
    | some err =>
      simp only [herr, Option.map_eq_some'] at hr
      obtain ⟨r', hr', rfl⟩ := hr
      exact ih _ _ r' (hh o stdin ho) hr'

theorem handleUserInputLoop_invariant (P : installOptions → Prop) (intSize : Nat) (table : Char → Char)
    (e : editableInstallOptions)
    (he : ∀ opt ∈ e, ∀ o h, (opt o).handleChange = some h →
      ∀ o1 stdin, P o1 → P (h o1 stdin).options) :
    ∀ (fuel : Nat) (o : installOptions) (stdin : List String) (r : LoopResult),
      P o → handleUserInputLoop intSize table e fuel o stdin = some r → P r.options := by
  intro fuel
  induction fuel with
  | zero => intro o stdin r _ hr; simp [handleUserInputLoop] at hr
  | succ fuel ih =>
    intro o stdin r ho hr
    rw [handleUserInputLoop_succ] at hr
    have hmap : ∀ (evs : List Event) (o1 : installOptions) (s1 : List String), P o1 →
        (handleUserInputLoop intSize table e fuel o1 s1).map (LoopResult.after evs) = some r →
        P r.options := by
      intro evs o1 s1 ho1 h
      simp only [Option.map_eq_some'] at h
      obtain ⟨r1, hr1, rfl⟩ := h
      exact ih _ _ r1 ho1 hr1
    split at hr
    · exact hmap _ _ _ ho hr
    · cases hr; exact ho
    · cases hr; exact ho
    · exact hmap _ _ _ ho hr
    · split at hr
      · exact absurd hr (by simp)
      · rename_i opt hopt
        split at hr
        · exact hmap _ _ _ ho hr
        · rename_i handler hhandler
          split at hr
          · exact absurd hr (by simp)
          · rename_i r1 hr1
            have hmem : opt ∈ e := List.getElem?_mem hopt
            exact hmap _ _ _ (editLoop_invariant P _ handler (he opt hmem o handler hhandler)
              fuel o _ r1 ho hr1) hr

/-! ### C1: the port handler -/

theorem portHandler_blank (intSize : Nat) (o : installOptions) (rest : List String) :
    (portHandler intSize o ("" :: rest)).err = none ∧
      (portHandler intSize o ("" :: rest)).options = o := by
  simp [portHandler, takeUserInput]

theorem portHandler_accept (intSize : Nat) (o : installOptions) (s : String)
    (rest : List String) (n : Int) (hs : s ≠ "") (ha : Atoi intSize s = some n)
    (h1 : 1 ≤ n) (h2 : n ≤ 65535) :
    (portHandler intSize o (s :: rest)).err = none ∧
      (portHandler intSize o (s :: rest)).options = { o with Port := n.toNat } := by
  have hr : ¬(n < 1 ∨ n > 65535) := by omega
  have hm : n % 65536 = n := Int.emod_eq_of_lt (by omega) (by omega)
  simp [portHandler, takeUserInput, hs, ha, hr, hm]

theorem portHandler_reject (intSize : Nat) (o : installOptions) (s : String)
    (rest : List String) (hs : s ≠ "")
    (ha : ∀ n : Int, Atoi intSize s = some n → n < 1 ∨ n > 65535) :
    (portHandler intSize o (s :: rest)).err ≠ none ∧
      (portHandler intSize o (s :: rest)).options = o := by
  cases hv : Atoi intSize s with
  | none => simp [portHandler, takeUserInput, hs, hv]
  | some n =>
    have hr := ha n hv
    simp [portHandler, takeUserInput, hs, hv, hr]

theorem portHandler_range (intSize : Nat) (o : installOptions) (stdin : List String)
    (ho : PortInRange o) : PortInRange (portHandler intSize o stdin).options := by
  cases stdin with
  | nil => simpa [portHandler, takeUserInput] using ho
  | cons s rest =>
    by_cases hs : s = ""
    · subst hs
      rw [(portHandler_blank intSize o rest).2]; exact ho
    · by_cases ha : ∃ n : Int, Atoi intSize s = some n ∧ 1 ≤ n ∧ n ≤ 65535
      · obtain ⟨n, hn, h1, h2⟩ := ha
        rw [(portHandler_accept intSize o s rest n hs hn h1 h2).2]
        constructor
        · show 1 ≤ n.toNat
          omega
        · show n.toNat ≤ 65535
          omega
      · rw [(portHandler_reject intSize o s rest hs (by
          intro n hn
          by_contra hc
          exact ha ⟨n, hn, by omega, by omega⟩)).2]
        exact ho

theorem pathHandler_port (env : Env) (w : World) (prompt : String)
    (store : installOptions → String → installOptions)
    (hstore : ∀ o p, (store o p).Port = o.Port) (o : installOptions) (stdin : List String) :
    (pathHandler env w prompt store o stdin).options.Port = o.Port := by
  unfold pathHandler
  simp only
  split
  · rfl
  · split
    · rfl
    · split
      · rfl
      · exact hstore _ _

theorem yesNoHandler_port (prompt : String) (store : installOptions → Bool → installOptions)
    (hstore : ∀ o b, (store o b).Port = o.Port) (o : installOptions) (stdin : List String) :
    (yesNoHandler prompt store o stdin).options.Port = o.Port := by
  unfold yesNoHandler
  simp only
  split
  · rfl
  · exact hstore _ _

theorem installOptionHandlers_range (env : Env) (w : World) :
    ∀ opt ∈ installOptionHandlers env w, ∀ (created : installOptions) (h : Handler),
      (opt created).handleChange = some h →
      ∀ (o : installOptions) (stdin : List String),
        PortInRange o → PortInRange (h o stdin).options := by
  intro opt hmem created h hh o stdin ho
  have keep : (h o stdin).options.Port = o.Port → PortInRange (h o stdin).options := by
    intro hp
    exact ⟨by rw [hp]; exact ho.1, by rw [hp]; exact ho.2⟩
  simp only [installOptionHandlers, List.mem_append, List.mem_cons, List.mem_singleton,
    List.not_mem_nil, or_false] at hmem
  rcases hmem with ((rfl | rfl | rfl | rfl | rfl) | hfw) | rfl
  · simp only [installDirectoryOption, Option.some.injEq] at hh
    subst hh
    exact keep (by apply pathHandler_port; intro _ _; rfl)
  · simp only [configPathOption, Option.some.injEq] at hh
    subst hh
    exact keep (by apply pathHandler_port; intro _ _; rfl)
  · simp only [servicePathOption, Option.some.injEq] at hh
    subst hh
    exact keep (by apply pathHandler_port; intro _ _; rfl)
  · simp only [portOption, Option.some.injEq] at hh
    subst hh
    exact portHandler_range _ _ _ ho
  · simp only [randomTokenOption, Option.some.injEq] at hh
    subst hh
    exact keep (by apply yesNoHandler_port; intro _ _; rfl)
  · by_cases hu : env.hasUFW = true
    · simp only [hu, if_true, List.mem_singleton] at hfw
      subst hfw
      simp only [firewallOption, Option.some.injEq] at hh
      subst hh
      exact keep (by apply yesNoHandler_port; intro _ _; rfl)
    · simp [hu] at hfw
  · simp only [enableServiceOption, Option.some.injEq] at hh
    subst hh
    exact keep (by apply yesNoHandler_port; intro _ _; rfl)

/-- C1: the port option handler.  For every prior options record and every input: empty
input returns no error and leaves the record unchanged; input that parses as a decimal
integer in 1..65535 sets Port to that integer and returns no error; every other input,
"0", "65536" and "abc" among them, returns an error and leaves the record unchanged.  Hence
Port is in 1..65535 in every options record reachable from the defaults (Port 27973), and in
the record every run of the option loop ends with. -/
theorem C1_port_validation (intSize : Nat) (hsize : 17 ≤ intSize) (o : installOptions)
    (s : String) (rest : List String) :
    (s = "" → (portHandler intSize o (s :: rest)).err = none ∧
        (portHandler intSize o (s :: rest)).options = o) ∧
    (∀ n : Int, ParsesAsDecimal s n → 1 ≤ n → n ≤ 65535 →
        (portHandler intSize o (s :: rest)).err = none ∧
        (portHandler intSize o (s :: rest)).options = { o with Port := n.toNat }) ∧
    (s ≠ "" → (¬ ∃ n : Int, ParsesAsDecimal s n ∧ 1 ≤ n ∧ n ≤ 65535) →
        (portHandler intSize o (s :: rest)).err ≠ none ∧
        (portHandler intSize o (s :: rest)).options = o) ∧
    (∀ bad ∈ ["0", "65536", "abc"],
        (portHandler intSize o (bad :: rest)).err ≠ none ∧
        (portHandler intSize o (bad :: rest)).options = o) ∧
    (∀ (env : Env) (w : World), (defaultOptions env).Port = 27973 ∧
        (∀ o1, Reachable env w o1 → PortInRange o1) ∧
        (∀ (fuel : Nat) (stdin : List String) (r : LoopResult),
          handleUserInputLoop env.intSize env.caseTable (installOptionHandlers env w) fuel
            (defaultOptions env) stdin = some r → PortInRange r.options)) := by
  have hpow : (65536 : Int) ≤ 2 ^ (intSize - 1) := by
    have h1 : (2 : Int) ^ 16 ≤ 2 ^ (intSize - 1) :=
      pow_le_pow_right₀ (by norm_num) (by omega)
    simpa using h1
  have hnonempty : ∀ (t : String) (n : Int), ParsesAsDecimal t n → t ≠ "" := by
    rintro t n ⟨ds, hne, -, ⟨h | h, -⟩ | ⟨h, -⟩⟩ ht
    · subst ht; exact hne h.symm
    · subst ht; simp at h
    · subst ht; simp at h
  have hreject : ∀ t : String, t ≠ "" →
      (¬ ∃ n : Int, ParsesAsDecimal t n ∧ 1 ≤ n ∧ n ≤ 65535) →
      (portHandler intSize o (t :: rest)).err ≠ none ∧
        (portHandler intSize o (t :: rest)).options = o := by
    intro t ht hno
    refine portHandler_reject intSize o t rest ht ?_
    intro n hn
    by_contra hc
    exact hno ⟨n, Atoi_sound intSize t n hn, by omega, by omega⟩
  have hstart : ∀ env : Env, PortInRange (defaultOptions env) := by
    intro env
    constructor <;> simp [defaultOptions]
  refine ⟨?_, ?_, hreject s, ?_, ?_⟩
  · rintro rfl
    exact portHandler_blank intSize o rest
  · intro n hp h1 h2
    exact portHandler_accept intSize o s rest n (hnonempty s n hp)
      (Atoi_complete intSize s n hp (by omega) (by omega)) h1 h2
  · intro bad hbad
    simp only [List.mem_cons, List.mem_singleton, List.not_mem_nil, or_false] at hbad
    have hno : ∀ n : Int, Atoi intSize bad = some n → n < 1 ∨ n > 65535 := by
      intro n hn
      rcases hbad with rfl | rfl | rfl
      · have : n = 0 := by
          simp [Atoi, digitsValue, Char.isDigit] at hn
          omega
        omega
      · have : n = 65536 := by
          simp [Atoi, digitsValue, Char.isDigit] at hn
          omega
        omega
      · simp [Atoi, digitsValue, Char.isDigit] at hn
    refine portHandler_reject intSize o bad rest ?_ hno
    rcases hbad with rfl | rfl | rfl <;> decide
  · intro env w
    refine ⟨rfl, ?_, ?_⟩
    · intro o1 h
      induction h with
      | start => exact hstart env
      | edit o2 created opt h stdin _ hmem hh ih =>
        exact installOptionHandlers_range env w opt hmem created h hh o2 stdin ih
    · intro fuel stdin r hr
      exact handleUserInputLoop_invariant PortInRange env.intSize env.caseTable _
        (installOptionHandlers_range env w) fuel _ stdin r (hstart env) hr

/-- C1 on the sample host: "8080" is stored, "65536" is refused and the port stays 27973. -/
theorem C1_port_validation_witness :
    17 ≤ 64 ∧
      (portHandler 64 (defaultOptions sampleEnv) ["8080"]).err = none ∧
      (portHandler 64 (defaultOptions sampleEnv) ["8080"]).options.Port = 8080 ∧
      (portHandler 64 (defaultOptions sampleEnv) ["65536"]).err ≠ none ∧
      (portHandler 64 (defaultOptions sampleEnv) ["65536"]).options.Port = 27973 := by
  have h := C1_port_validation 64 (by decide) (defaultOptions sampleEnv) "8080" []
  have hp : ParsesAsDecimal "8080" 8080 :=
    ⟨['8', '0', '8', '0'], by decide, by decide, Or.inl ⟨Or.inl rfl, by
      simp [Nat.ofDigits, digitOf]⟩⟩
  have ha := h.2.1 8080 hp (by decide) (by decide)
  have hb := h.2.2.2.1 "65536" (by simp)
  refine ⟨by decide, ha.1, ?_, hb.1, ?_⟩
  · rw [ha.2]; rfl
  · rw [hb.2]; rfl

/-! ### C2: the derived service name -/

/-- C2: the service name `Init` derives after confirmation is the base name of ServicePath
with the extension kept, not removed.  With the default ServicePath
"/etc/systemd/system/luna-agent.service" the derived ServiceName is "luna-agent.service",
while the option list shows "systemctl enable --now luna-agent"; the command `Init` then
runs is "systemctl enable --now luna-agent.service". -/
theorem C2_service_name_keeps_extension :
    (∀ (random : Nat → Nat) (o o1 : installOptions),
        deriveFields random o = some o1 → o1.ServiceName = Base o.ServicePath) ∧
    (deriveFields sampleEnv.random (defaultOptions sampleEnv)).map (fun o => o.ServiceName) =
      some "luna-agent.service" ∧
    displayedServiceName (defaultOptions sampleEnv) = "luna-agent" ∧
    (enableServiceOption (defaultOptions sampleEnv)).title =
      "Run systemctl enable --now luna-agent" ∧
    (Init sampleEnv 1 sampleWorld ["install"]).map (fun r =>
        (decide (Event.command "systemctl" ["enable", "--now", "luna-agent.service"] ∈ r.out),
          decide (Event.command "systemctl" ["enable", "--now", "luna-agent"] ∈ r.out))) =
      some (true, false) := by
  refine ⟨?_, by decide, by decide, by decide, by decide⟩
  intro random o o1 h
  unfold deriveFields at h
  simp only [Option.map_eq_some'] at h
  obtain ⟨o2, h2, rfl⟩ := h
  by_cases ht : o.RandomAuthToken = true
  · simp only [ht, if_true, Option.map_eq_some'] at h2
    obtain ⟨t, -, rfl⟩ := h2
    show Base (ite _ _ _ : installOptions).ServicePath = _
    split <;> rfl
  · simp only [ht, if_false, Option.some.injEq, Bool.false_eq_true] at h2
    subst h2
    show Base (ite _ _ _ : installOptions).ServicePath = _
    split <;> rfl

/-! ### C3: createFileIfNotExists on an existing file -/

theorem fileExists_of_file (w : World) (path contents : String) (perms : Nat)
    (h : w.nodes.lookup path = some (Node.file contents perms)) : fileExists w path = true := by
  simp [fileExists, Stat, h]

/-- C3: for every state of the operating system and every path at which a regular file
exists, `createFileIfNotExists` returns no error and leaves the state unchanged: the nodes
(so the file keeps its contents and permission bits, whatever contents and permissions
were passed) and the open handles. -/
theorem C3_existing_file_untouched (w : World) (path old : String) (oldPerms : Nat)
    (contents : String) (perms : Nat)
    (h : w.nodes.lookup path = some (Node.file old oldPerms)) :
    createFileIfNotExists w path contents perms = (none, w) ∧
      (createFileIfNotExists w path contents perms).2.nodes.lookup path =
        some (Node.file old oldPerms) := by
  have hx := fileExists_of_file w path old oldPerms h
  have h1 : createFileIfNotExists w path contents perms = (none, w) := by
    simp [createFileIfNotExists, hx]
  exact ⟨h1, by rw [h1]; exact h⟩

/-- C3 on the sample file system: the existing file keeps its contents. -/
theorem C3_existing_file_untouched_witness :
    sampleWorld.nodes.lookup "/etc/motd" = some (Node.file "hello" 0o644) ∧
      createFileIfNotExists sampleWorld "/etc/motd" "other contents" 0o600 =
        (none, sampleWorld) :=
  ⟨by decide,
    (C3_existing_file_untouched sampleWorld "/etc/motd" "hello" 0o644 "other contents" 0o600
      (by decide)).1⟩

/-! ### C4: the health check -/

theorem healthAttempts_three (p : Nat → ProbeResult) (req : Event) :
    (∃ k, 1 ≤ k ∧ k ≤ 3 ∧ (healthAttempts p req 3 0 none).2 = List.replicate k req ∧
      (∀ j, j + 1 < k → p j ≠ .response 200) ∧
      (((healthAttempts p req 3 0 none).1 = ⟨"OK", none, true⟩ ∧ p (k - 1) = .response 200) ∨
        ((healthAttempts p req 3 0 none).1 =
            ⟨"FAILED AFTER 3 TRIES", some (probeError (p 2)), false⟩ ∧
          k = 3 ∧ p 2 ≠ .response 200))) := by
  have key : ∀ n, p n = .response 200 ∨
      (p n ≠ .response 200 ∧ ∀ (left : Nat) (lastErr : Option String),
        healthAttempts p req (left + 1) n lastErr =
          ((healthAttempts p req left (n + 1) (some (probeError (p n)))).1,
            req :: (healthAttempts p req left (n + 1) (some (probeError (p n)))).2)) := by
    intro n
    cases hp : p n with
    | failed err =>
      right
      refine ⟨by simp, ?_⟩
      intro left lastErr
      rw [healthAttempts]
      simp [hp, probeError]
    | response code =>
      by_cases hc : code = 200
      · left; rw [hc]
      · right
        refine ⟨by simp [hc], ?_⟩
        intro left lastErr
        rw [healthAttempts]
        simp [hp, hc, probeError]
  have ok : ∀ n left lastErr, p n = .response 200 →
      healthAttempts p req (left + 1) n lastErr = (⟨"OK", none, true⟩, [req]) := by
    intro n left lastErr hp
    rw [healthAttempts]
    simp [hp]
  rcases key 0 with h0 | ⟨h0, e0⟩
  · exact ⟨1, by omega, by omega, by rw [ok 0 2 none h0]; rfl, by intro j hj; omega,
      Or.inl ⟨by rw [ok 0 2 none h0], h0⟩⟩
  · rcases key 1 with h1 | ⟨h1, e1⟩
    · refine ⟨2, by omega, by omega, by rw [e0, ok 1 1 _ h1]; rfl, ?_,
        Or.inl ⟨by rw [e0, ok 1 1 _ h1], h1⟩⟩
      intro j hj
      have : j = 0 := by omega
      subst this; exact h0
    · rcases key 2 with h2 | ⟨h2, e2⟩
      · refine ⟨3, by omega, by omega, by rw [e0, e1, ok 2 0 _ h2]; rfl, ?_,
          Or.inl ⟨by rw [e0, e1, ok 2 0 _ h2], h2⟩⟩
        intro j hj
        have : j = 0 ∨ j = 1 := by omega
        rcases this with rfl | rfl
        · exact h0
        · exact h1
      · refine ⟨3, by omega, by omega, by rw [e0, e1, e2]; rfl, ?_,
          Or.inr ⟨by rw [e0, e1, e2]; rfl, rfl, h2⟩⟩
        intro j hj
        have : j = 0 ∨ j = 1 := by omega
        rcases this with rfl | rfl
        · exact h0
        · exact h1

theorem healthAttempts_congr (p q : Nat → ProbeResult) (req : Event) :
    ∀ (left n : Nat) (lastErr : Option String), (∀ i, i < n + left → p i = q i) →
      healthAttempts p req left n lastErr = healthAttempts q req left n lastErr := by
  intro left
  induction left with
  | zero => intro n lastErr _; simp [healthAttempts]
  | succ left ih =>
    intro n lastErr h
    have hn : p n = q n := h n (by omega)
    have hrec : ∀ e, healthAttempts p req left (n + 1) e = healthAttempts q req left (n + 1) e :=
      fun e => ih (n + 1) e (fun i hi => h i (by omega))
    rw [healthAttempts, healthAttempts, hn]
    cases q n with
    | failed err => simp only [hrec]
    | response code => simp only [hrec]

/-- C4: the health check.  For every sequence of probe results, requests are sent in order
until the first 200 response or until 3 have been sent, and never a fourth: the number k of
requests is between 1 and 3, no result before the k-th is a 200, and results from the
fourth on have no influence.  The check succeeds (outcome OK, no error) iff one of the
first 3 results is a 200, k then being the position of the first 200; otherwise k = 3 and
it fails with the error of the third attempt, the connection error or "unexpected status
code".  A probe that fails twice and then returns 200 gives success after exactly 3
requests. -/
theorem C4_health_check (env : Env) (options : installOptions) :
    (∃ k, 1 ≤ k ∧ k ≤ 3 ∧
      (healthAction env options).2 =
        List.replicate k (Event.request (healthUrl options) (healthAuthorization options)) ∧
      (∀ j, j + 1 < k → healthProbe env options j ≠ .response 200) ∧
      (((healthAction env options).1 = ⟨"OK", none, true⟩ ∧
          healthProbe env options (k - 1) = .response 200) ∨
        ((healthAction env options).1 =
            ⟨"FAILED AFTER 3 TRIES", some (probeError (healthProbe env options 2)), false⟩ ∧
          k = 3 ∧ healthProbe env options 2 ≠ .response 200))) ∧
    ((healthAction env options).1.proceed = true ↔
      ∃ i, i < 3 ∧ healthProbe env options i = .response 200) ∧
    (∀ env2 : Env, (∀ i, i < 3 → healthProbe env2 options i = healthProbe env options i) →
      healthAction env2 options = healthAction env options) ∧
    (∀ e1 e2 : String, healthProbe env options 0 = .failed e1 →
      healthProbe env options 1 = .failed e2 → healthProbe env options 2 = .response 200 →
      (healthAction env options).1 = ⟨"OK", none, true⟩ ∧
        (healthAction env options).2.length = 3) := by
  obtain ⟨k, hk1, hk3, htrace, hbefore, hcase⟩ :=
    healthAttempts_three (healthProbe env options)
      (Event.request (healthUrl options) (healthAuthorization options))
  have hdef : healthAction env options =
      healthAttempts (healthProbe env options)
        (Event.request (healthUrl options) (healthAuthorization options)) 3 0 none := rfl
  refine ⟨⟨k, hk1, hk3, by rw [hdef]; exact htrace, hbefore, by rw [hdef]; exact hcase⟩,
    ?_, ?_, ?_⟩
  · rw [hdef]
    constructor
    · intro hp
      rcases hcase with ⟨-, h200⟩ | ⟨hfail, -, -⟩
      · exact ⟨k - 1, by omega, h200⟩
      · rw [hfail] at hp; exact absurd hp (by simp)
    · rintro ⟨i, hi, h200⟩
      rcases hcase with ⟨hok, -⟩ | ⟨-, hk, h2⟩
      · rw [hok]
      · exfalso
        by_cases hi2 : i = 2
        · subst hi2; exact h2 h200
        · exact hbefore i (by omega) h200
  · intro env2 h
    exact healthAttempts_congr _ _ _ 3 0 none (fun i hi => h i (by omega))
  · intro e1 e2 h0 h1 h2
    rcases hcase with ⟨hok, h200⟩ | ⟨-, -, hne⟩
    · refine ⟨hok, ?_⟩
      have hk : k = 3 := by
        by_contra hne
        have hlt : k = 1 ∨ k = 2 := by omega
        rcases hlt with rfl | rfl
        · rw [h0] at h200; exact absurd h200 (by simp)
        · rw [h1] at h200; exact absurd h200 (by simp)
      rw [hdef, htrace, hk]; rfl
    · exact absurd h2 hne

/-! ### C5: which steps make Init return an error -/

theorem charsetLookup_some (bs : List Nat) : ∃ cs, charsetLookup 62 bs = some cs := by
  induction bs with
  | nil => exact ⟨[], rfl⟩
  | cons b bs ih =>
    obtain ⟨cs, hcs⟩ := ih
    have hlen : charset.data.length = 62 := by decide
    have hb : b % 62 < charset.data.length := by rw [hlen]; exact Nat.mod_lt _ (by decide)
    refine ⟨charset.data[b % 62] :: cs, ?_⟩
    rw [charsetLookup, hcs, List.getElem?_eq_getElem hb]

theorem makeRandomString_some (length : Nat) (random : Nat → Nat) :
    ∃ t, makeRandomString length random = some t := by
  have hlen : charset.data.length % 256 = 62 := by decide
  obtain ⟨cs, hcs⟩ := charsetLookup_some ((List.range length).map (fun i => random i % 256))
  exact ⟨String.mk cs, by simp only [makeRandomString, hlen, hcs, Option.map_some']⟩

theorem deriveFields_some (random : Nat → Nat) (o : installOptions) :
    ∃ options, deriveFields random o = some options := by
  obtain ⟨t, ht⟩ := makeRandomString_some 32 random
  unfold deriveFields
  by_cases h : o.RandomAuthToken = true
  · simp [h, ht]
  · simp [h]

theorem generateAction_proceed (env : Env) (o : installOptions) :
    (generateAction env o).1.proceed = true ↔ (generateAction env o).1.err = none := by
  unfold generateAction
  split
  · simp
  · split
    · simp
    · split
      · simp
      · split <;> simp

theorem directoryAction_proceed (w : World) (o : installOptions) :
    (directoryAction w o).1.proceed = true ↔ (directoryAction w o).1.err = none := by
  unfold directoryAction
  split <;> simp

theorem filesAction_proceed (w : World) (bin : String) (o : installOptions) (a : Artifacts) :
    (filesAction w bin o a).1.proceed = true ↔ (filesAction w bin o a).1.err = none := by
  unfold filesAction
  split
  · simp
  · split
    · simp
    · split
      · simp
      · split <;> simp

theorem installSteps_err (env : Env) (bin : String) (w : World) (options : installOptions)
    (out : List Event) :
    (installSteps env bin w options out).err =
      if (generateAction env options).1.err ≠ none then
        some "cannot continue without generating file contents"
      else if (directoryAction w options).1.err ≠ none then
        some "cannot continue without creating installation directory"
      else if (filesAction (directoryAction w options).2 bin options
          (generateAction env options).2).1.err ≠ none then
        some "cannot continue without necessary installation files"
      else none := by
  simp only [ne_eq, ← generateAction_proceed, ← directoryAction_proceed,
    ← filesAction_proceed]
  unfold installSteps
  simp only [doWithProgressIndicator]
  by_cases hg : (generateAction env options).1.proceed = true
  · by_cases hd : (directoryAction w options).1.proceed = true
    · by_cases hf : (filesAction (directoryAction w options).2 bin options
          (generateAction env options).2).1.proceed = true
      · simp [hg, hd, hf]
      · simp [hg, hd, hf, InitResult.failed]
    · simp [hg, hd, InitResult.failed]
  · simp [hg, InitResult.failed]

theorem Init_confirmed (env : Env) (fuel : Nat) (w : World) (stdin : List String)
    (bin : String) (r : LoopResult) (options : installOptions)
    (hos : env.GOOS = "linux") (hsd : isUsingSystemd w = true)
    (hdk : isRunningInsideDockerContainer w = false) (hexe : env.executable = .ok bin)
    (hloop : handleUserInputLoop env.intSize env.caseTable (installOptionHandlers env w) fuel
      (defaultOptions env) stdin = some r)
    (hconfirm : r.proceed = true) (hderive : deriveFields env.random r.options = some options) :
    Init env fuel w stdin =
      some (installSteps env bin w options
        ([Event.line "Installation of the luna Agent will use the following default options:"]
          ++ r.out)) := by
  unfold Init
  simp [hos, hsd, hdk, hexe, hloop, hconfirm, hderive]

/-- C5: once the preconditions hold and the user has confirmed, `Init` returns, and it
returns an error iff generating the file contents, creating the installation directory or
creating the installation files fails.  What the firewall command, the service command and
the health probes answer has no influence on the returned error: with any other answers
`Init` returns the same error or none. -/
theorem C5_fatal_and_soft_steps (env : Env) (fuel : Nat) (w : World) (stdin : List String)
    (bin : String) (r : LoopResult)
    (hos : env.GOOS = "linux") (hsd : isUsingSystemd w = true)
    (hdk : isRunningInsideDockerContainer w = false) (hexe : env.executable = .ok bin)
    (hloop : handleUserInputLoop env.intSize env.caseTable (installOptionHandlers env w) fuel
      (defaultOptions env) stdin = some r)
    (hconfirm : r.proceed = true) :
    ∃ (options : installOptions) (res : InitResult),
      deriveFields env.random r.options = some options ∧
      Init env fuel w stdin = some res ∧
      (res.err ≠ none ↔
        (generateAction env options).1.err ≠ none ∨
          (directoryAction w options).1.err ≠ none ∨
          (filesAction (directoryAction w options).2 bin options
            (generateAction env options).2).1.err ≠ none) ∧
      (∀ (runCommand : String → List String → CmdResult)
          (probe : String → Option String → Nat → ProbeResult),
        ∃ res2 : InitResult,
          Init { env with runCommand := runCommand, probe := probe } fuel w stdin = some res2 ∧
            res2.err = res.err) := by
  obtain ⟨options, hderive⟩ := deriveFields_some env.random r.options
  refine ⟨options, _, hderive,
    Init_confirmed env fuel w stdin bin r options hos hsd hdk hexe hloop hconfirm hderive,
    ?_, ?_⟩
  · rw [installSteps_err]
    by_cases hg : (generateAction env options).1.err = none
    · by_cases hd : (directoryAction w options).1.err = none
      · by_cases hf : (filesAction (directoryAction w options).2 bin options
            (generateAction env options).2).1.err = none
        · simp [hg, hd, hf]
        · simp [hg, hd, hf]
      · simp [hg, hd]
    · simp [hg]
  · intro runCommand probe
    refine ⟨_, Init_confirmed { env with runCommand := runCommand, probe := probe } fuel w
      stdin bin r options hos hsd hdk hexe hloop hconfirm hderive, ?_⟩
    rw [installSteps_err, installSteps_err]
    rfl

/-- C5 on the sample host: the user confirms at once and `Init` returns no error. -/
theorem C5_fatal_and_soft_steps_witness :
    ∃ res : InitResult, Init sampleEnv 1 sampleWorld ["install"] = some res ∧
      res.err = none ∧
      (generateAction sampleEnv res.options).1.err = none := by
  obtain ⟨options, res, hd, hinit, hiff, -⟩ :=
    C5_fatal_and_soft_steps sampleEnv 1 sampleWorld ["install"] "/tmp/agent"
      ⟨true, defaultOptions sampleEnv, [],
        shownFor sampleCaseTable (installOptionHandlers sampleEnv sampleWorld)
          (defaultOptions sampleEnv) "install"⟩
      rfl (by decide) (by decide) rfl (by rfl) rfl
  have h2 : (Init sampleEnv 1 sampleWorld ["install"]).map (fun r => r.err) = some none := by
    decide
  have h3 : (Init sampleEnv 1 sampleWorld ["install"]).map
      (fun r => (generateAction sampleEnv r.options).1.err) = some none := by
    decide
  rw [hinit] at h2 h3
  exact ⟨res, hinit, by simpa using h2, by simpa using h3⟩

/-! ### C6: bracketed input -/

theorem toLower_data (table : Char → Char) (s : String) :
    (toLower table s).data = s.data.map (unicodeToLower table) := rfl

theorem bracket_data (s : String) : ("[" ++ s ++ "]").data = '[' :: (s.data ++ [']']) := by
  simp [String.data_append]

theorem unicodeToLower_ascii (table : Char → Char) (c : Char) (hc : c.toNat ≤ 127) :
    unicodeToLower table c = c.toLower := by
  simp [unicodeToLower, hc]

theorem toLower_bracket (table : Char → Char) (s : String) :
    toLower table ("[" ++ s ++ "]") = "[" ++ toLower table s ++ "]" := by
  have h1 : unicodeToLower table '[' = '[' := by
    rw [unicodeToLower_ascii table '[' (by decide)]; rfl
  have h2 : unicodeToLower table ']' = ']' := by
    rw [unicodeToLower_ascii table ']' (by decide)]; rfl
  apply String.ext
  rw [toLower_data, bracket_data, bracket_data, toLower_data]
  simp [h1, h2]

theorem isBracketed_bracket (t : String) (ht : t ≠ "") : isBracketed ("[" ++ t ++ "]") = true := by
  have hne : t.data ≠ [] := by
    intro h
    exact ht (String.ext h)
  have hlen : 0 < t.data.length := List.length_pos.mpr hne
  simp only [isBracketed, bracket_data, List.length_cons, List.length_append,
    List.length_singleton, List.head?_cons, Bool.and_eq_true, decide_eq_true_eq]
  refine ⟨⟨by omega, trivial⟩, ?_⟩
  have : ('[' :: (t.data ++ [']'])).getLast? = some ']' := by
    rw [← List.cons_append, List.getLast?_append]
    simp
  simp [this]

theorem unwrapBrackets_bracket (t : String) : unwrapBrackets ("[" ++ t ++ "]") = t := by
  apply String.ext
  simp [unwrapBrackets, bracket_data]

theorem toLower_ne_empty (table : Char → Char) (s : String) (hs : s ≠ "") :
    toLower table s ≠ "" := by
  intro h
  apply hs
  apply String.ext
  have := congrArg String.data h
  rw [toLower_data] at this
  simpa using this

theorem bracket_ne_empty (s : String) : "[" ++ s ++ "]" ≠ "" := by
  intro h
  have := congrArg String.data h
  rw [bracket_data] at this
  simp at this

theorem normalize_bracket (table : Char → Char) (s : String) (hs : s ≠ "") :
    normalize table ("[" ++ s ++ "]") = (toLower table s, true) := by
  simp only [normalize, toLower_bracket, isBracketed_bracket _ (toLower_ne_empty table s hs),
    if_true, unwrapBrackets_bracket]

theorem normalize_plain (table : Char → Char) (s : String)
    (h : isBracketed (toLower table s) = false) :
    normalize table s = (toLower table s, false) := by
  simp [normalize, h]

theorem decision_bracket (intSize : Nat) (table : Char → Char) (count : Nat) (s : String)
    (hs : s ≠ "") (h : isBracketed (toLower table s) = false) :
    decision intSize table count ("[" ++ s ++ "]") = decision intSize table count s := by
  simp only [decision, bracket_ne_empty, hs, if_false, normalize_bracket table s hs,
    normalize_plain table s h]

theorem toLower_ne_of_not_letter (c b : Char) (hb : b.toNat < 97 ∨ 122 < b.toNat) (h : c ≠ b) :
    c.toLower ≠ b := by
  unfold Char.toLower
  simp only []
  split
  · rename_i hr
    obtain ⟨h1, h2⟩ := hr
    generalize c.toNat = n at h1 h2
    intro hc
    rw [← hc] at hb
    interval_cases n <;> revert hb <;> decide
  · exact h

theorem toLower_eq_bracket_iff (c b : Char) (hb : b = '[' ∨ b = ']') :
    c.toLower = b ↔ c = b := by
  constructor
  · intro h
    by_contra hne
    refine toLower_ne_of_not_letter c b ?_ hne h
    rcases hb with rfl | rfl <;> decide
  · rintro rfl
    rcases hb with rfl | rfl <;> rfl

theorem unicodeToLower_eq_bracket_iff (table : Char → Char)
    (htable : ∀ c : Char, 127 < c.toNat → table c ≠ '[' ∧ table c ≠ ']') (c b : Char)
    (hb : b = '[' ∨ b = ']') : unicodeToLower table c = b ↔ c = b := by
  by_cases hc : c.toNat ≤ 127
  · rw [unicodeToLower_ascii table c hc]
    exact toLower_eq_bracket_iff c b hb
  · have hgt : 127 < c.toNat := by omega
    have hval : unicodeToLower table c = table c := by simp [unicodeToLower, hc]
    rw [hval]
    constructor
    · intro h
      rcases hb with rfl | rfl
      · exact absurd h (htable c hgt).1
      · exact absurd h (htable c hgt).2
    · intro h
      exfalso
      rw [h] at hgt
      rcases hb with rfl | rfl <;> exact absurd hgt (by decide)

theorem isBracketed_toLower (table : Char → Char)
    (htable : ∀ c : Char, 127 < c.toNat → table c ≠ '[' ∧ table c ≠ ']') (s : String) :
    isBracketed (toLower table s) = isBracketed s := by
  have hhead : (s.data.map (unicodeToLower table)).head? = some '[' ↔
      s.data.head? = some '[' := by
    cases s.data with
    | nil => simp
    | cons c cs => simp [unicodeToLower_eq_bracket_iff table htable c '[' (Or.inl rfl)]
  have hlast : (s.data.map (unicodeToLower table)).getLast? = some ']' ↔
      s.data.getLast? = some ']' := by
    rw [List.getLast?_eq_head?_reverse, List.getLast?_eq_head?_reverse, ← List.map_reverse]
    cases s.data.reverse with
    | nil => simp
    | cons c cs => simp [unicodeToLower_eq_bracket_iff table htable c ']' (Or.inr rfl)]
  simp only [isBracketed, toLower_data, List.length_map]
  rw [Bool.eq_iff_iff]
  simp only [Bool.and_eq_true, decide_eq_true_eq, hhead, hlast]

theorem shownFor_bracket (table : Char → Char) (e : editableInstallOptions)
    (o : installOptions) (s : String) (hs : s ≠ "") :
    shownFor table e o ("[" ++ s ++ "]") =
      [Event.optionList (e.map fun opt => ((opt o).title, (opt o).value)),
        Event.prompt mainPrompt, Event.tip] := by
  simp [shownFor, bracket_ne_empty, normalize_bracket table s hs]

theorem shownFor_plain (table : Char → Char) (e : editableInstallOptions)
    (o : installOptions) (s : String) (h : isBracketed (toLower table s) = false) :
    shownFor table e o s =
      [Event.optionList (e.map fun opt => ((opt o).title, (opt o).value)),
        Event.prompt mainPrompt] := by
  simp [shownFor, normalize_plain table s h]

theorem withTip_after (a b : Event) (evs : List Event) (r : LoopResult) :
    (LoopResult.after ([a, b] ++ evs) r).withTip = LoopResult.after ([a, b, Event.tip] ++ evs) r := by
  simp [LoopResult.withTip, LoopResult.after]

theorem map_withTip_after (a b : Event) (evs : List Event) (c : Option LoopResult) :
    (c.map (LoopResult.after ([a, b] ++ evs))).map LoopResult.withTip =
      c.map (LoopResult.after ([a, b, Event.tip] ++ evs)) := by
  cases c with
  | none => rfl
  | some r => simp only [Option.map_some', withTip_after]

/-- C6: for every option list, every options record and every non-empty input s that is
not itself a bracketed text, the option loop treats "[s]" exactly as it treats s: it takes
the same decision (confirm, cancel, edit option k, invalid option) and the whole run from
there gives the same returned flag, the same options record and the same unread input; the
trace differs only by the hint printed after the first prompt.  In particular "[install]"
confirms just as "install" does.  The case table is any table that, like the Unicode one,
lowers no rune beyond ASCII to a square bracket. -/
theorem C6_bracket_unwrap (intSize : Nat) (table : Char → Char)
    (e : editableInstallOptions) (fuel : Nat)
    (o : installOptions) (s : String) (rest : List String)
    (htable : ∀ c : Char, 127 < c.toNat → table c ≠ '[' ∧ table c ≠ ']')
    (hs : s ≠ "") (hnb : isBracketed s = false) :
    decision intSize table e.length ("[" ++ s ++ "]") = decision intSize table e.length s ∧
    handleUserInputLoop intSize table e fuel o (("[" ++ s ++ "]") :: rest) =
      (handleUserInputLoop intSize table e fuel o (s :: rest)).map LoopResult.withTip ∧
    (handleUserInputLoop intSize table e (fuel + 1) o ("install" :: rest)).map
        (fun r => (r.proceed, r.options, r.stdin)) = some (true, o, rest) ∧
    (handleUserInputLoop intSize table e (fuel + 1) o ("[install]" :: rest)).map
        (fun r => (r.proceed, r.options, r.stdin)) = some (true, o, rest) := by
  have hlow : isBracketed (toLower table s) = false := by
    rw [isBracketed_toLower table htable]; exact hnb
  have hdec := decision_bracket intSize table e.length s hs hlow
  refine ⟨hdec, ?_, ?_, ?_⟩
  · cases fuel with
    | zero => simp [handleUserInputLoop]
    | succ fuel =>
      rw [handleUserInputLoop_succ, handleUserInputLoop_succ]
      simp only [takeUserInput, hdec, shownFor_bracket table e o s hs,
        shownFor_plain table e o s hlow]
      cases decision intSize table e.length s with
      | again => exact (map_withTip_after _ _ [] _).symm
      | confirm => rfl
      | cancel => rfl
      | invalid => exact (map_withTip_after _ _ [Event.invalidOption] _).symm
      | edit k =>
        simp only []
        cases e[k]? with
        | none => rfl
        | some opt =>
          simp only []
          cases (opt o).handleChange with
          | none => exact (map_withTip_after _ _ [] _).symm
          | some handler =>
            simp only []
            cases editLoop k handler fuel o rest with
            | none => rfl
            | some r => exact (map_withTip_after _ _ r.out _).symm
  · rw [handleUserInputLoop_succ]
    have : decision intSize table e.length "install" = Decision.confirm := by
      simp [decision, normalize, toLower, unicodeToLower, isBracketed]
    simp only [takeUserInput, this, Option.map_some']
  · rw [handleUserInputLoop_succ]
    have : decision intSize table e.length "[install]" = Decision.confirm := by
      simp [decision, normalize, toLower, unicodeToLower, isBracketed, unwrapBrackets]
    simp only [takeUserInput, this, Option.map_some']

theorem sampleCaseTable_no_bracket :
    ∀ c : Char, 127 < c.toNat → sampleCaseTable c ≠ '[' ∧ sampleCaseTable c ≠ ']' := by
  intro c hc
  have hne : ∀ b : Char, b.toNat ≤ 127 → c ≠ b := by
    rintro b hb rfl
    omega
  unfold sampleCaseTable
  split
  · exact ⟨by decide, by decide⟩
  · split
    · exact ⟨by decide, by decide⟩
    · exact ⟨hne '[' (by decide), hne ']' (by decide)⟩

/-- C6 on the sample host: the answers "[7]" and "7" start the same edit. -/
theorem C6_bracket_unwrap_witness :
    "7" ≠ "" ∧ isBracketed "7" = false ∧
      (handleUserInputLoop 64 sampleCaseTable
          (installOptionHandlers sampleEnv sampleWorld) 3
          (defaultOptions sampleEnv) ["[7]", "no", "[q]"]).map
        (fun r => (r.proceed, r.options.EnableAndRunService, r.out.length)) =
        some (false, false, 8) ∧
      (handleUserInputLoop 64 sampleCaseTable
          (installOptionHandlers sampleEnv sampleWorld) 3
          (defaultOptions sampleEnv) ["7", "no", "[q]"]).map
        (fun r => (r.proceed, r.options.EnableAndRunService, r.out.length)) =
        some (false, false, 7) := by
  have h := (C6_bracket_unwrap 64 sampleCaseTable (installOptionHandlers sampleEnv sampleWorld)
    3 (defaultOptions sampleEnv) "7" ["no", "[q]"] sampleCaseTable_no_bracket (by decide)
    (by decide)).2.1
  have hplain : (handleUserInputLoop 64 sampleCaseTable
          (installOptionHandlers sampleEnv sampleWorld) 3
      (defaultOptions sampleEnv) ["7", "no", "[q]"]).map
      (fun r => (r.proceed, r.options.EnableAndRunService, r.out.length)) =
      some (false, false, 7) := by decide
  refine ⟨by decide, by decide, ?_, hplain⟩
  have hb : ("[" ++ "7" ++ "]" : String) = "[7]" := by decide
  rw [hb] at h
  rw [h]
  cases hr : handleUserInputLoop 64 sampleCaseTable
          (installOptionHandlers sampleEnv sampleWorld) 3
      (defaultOptions sampleEnv) ["7", "no", "[q]"] with
  | none => rw [hr] at hplain; exact absurd hplain (by simp)
  | some r =>
    rw [hr] at hplain
    simp only [Option.map_some', Option.some.injEq, Prod.mk.injEq] at hplain ⊢
    obtain ⟨h1, h2, h3⟩ := hplain
    refine ⟨h1, h2, ?_⟩
    simp only [LoopResult.withTip, List.length_append, List.length_take, List.length_drop,
      List.length_singleton]
    omega

/-! ### C7: cancelling -/

/-- C7: for every option list and every options record, when the answer to the main
prompt is "quit" or "q" in any letter case, that is, when `strings.ToLower` turns it into
"quit" or "q" (under the Unicode case table, whatever runes the answer is written with),
`handleUserInputLoop` returns (with any positive fuel), the returned flag is false, the
options record is the one it was given, the rest of the input is unread, and the trace is
the option list and the prompt only: no option handler is called. -/
theorem C7_quit_cancels (intSize : Nat) (table : Char → Char) (e : editableInstallOptions)
    (fuel : Nat) (o : installOptions) (input : String) (rest : List String)
    (h : toLower table input = "quit" ∨ toLower table input = "q") :
    handleUserInputLoop intSize table e (fuel + 1) o (input :: rest) =
        some ⟨false, o, rest,
          [Event.optionList (e.map fun opt => ((opt o).title, (opt o).value)),
            Event.prompt mainPrompt]⟩ ∧
      ∀ r, handleUserInputLoop intSize table e (fuel + 1) o (input :: rest) = some r →
        r.proceed = false ∧ r.options = o ∧ ∀ k, Event.handlerCall k ∉ r.out := by
  have hne : input ≠ "" := by
    rintro rfl
    have hempty : toLower table "" = "" := rfl
    rw [hempty] at h
    rcases h with h | h <;> exact absurd h (by decide)
  have hnb : isBracketed (toLower table input) = false := by
    rcases h with h | h <;> rw [h] <;> decide
  have hnot : ¬(toLower table input = "install" ∨ toLower table input = "i") := by
    rcases h with h | h <;> rw [h] <;> decide
  have hdec : decision intSize table e.length input = Decision.cancel := by
    simp only [decision, hne, if_false, normalize_plain table input hnb, hnot, h, if_true]
  have hrun : handleUserInputLoop intSize table e (fuel + 1) o (input :: rest) =
      some ⟨false, o, rest,
        [Event.optionList (e.map fun opt => ((opt o).title, (opt o).value)),
          Event.prompt mainPrompt]⟩ := by
    rw [handleUserInputLoop_succ]
    simp only [takeUserInput, hdec, shownFor_plain table e o input hnb]
  refine ⟨hrun, ?_⟩
  intro r hr
  rw [hrun] at hr
  cases hr
  refine ⟨rfl, rfl, ?_⟩
  intro k hk
  simp at hk

/-- C7 on the sample host: "QUİT", written with the dotted capital I (U+0130), is lowered
to "quit" and cancels; the answers after it stay unread. -/
theorem C7_quit_cancels_witness :
    (toLower sampleCaseTable "QUİT" = "quit" ∨ toLower sampleCaseTable "QUİT" = "q") ∧
      (handleUserInputLoop 64 sampleCaseTable
          (installOptionHandlers sampleEnv sampleWorld) 1
          (defaultOptions sampleEnv) ["QUİT", "4", "80"]).map
        (fun r => (r.proceed, r.options, r.stdin)) =
        some (false, defaultOptions sampleEnv, ["4", "80"]) := by
  refine ⟨by decide, ?_⟩
  rw [(C7_quit_cancels 64 sampleCaseTable (installOptionHandlers sampleEnv sampleWorld) 0
    (defaultOptions sampleEnv) "QUİT" ["4", "80"] (by decide)).1]
  rfl

/-! ### C8: editing an option -/

theorem editLoop_retry (k : Nat) (h : Handler) :
    ∀ (n fuel : Nat) (o : installOptions) (stdin : List String), n + 1 ≤ fuel →
      (∀ i, i < n → (callResult h i o stdin).err ≠ none) →
      (callResult h n o stdin).err = none →
      editLoop k h fuel o stdin =
        some ⟨true, (callResult h n o stdin).options, (callResult h n o stdin).stdin,
          retryTrace k h n o stdin⟩ := by
  intro n
  induction n with
  | zero =>
    intro fuel o stdin hf _ hok
    obtain ⟨f, rfl⟩ : ∃ f, fuel = f + 1 := ⟨fuel - 1, by omega⟩
    have hok0 : (h o stdin).err = none := hok
    rw [editLoop]
    simp only [hok0]
    rfl
  | succ n ih =>
    intro fuel o stdin hf hfail hok
    obtain ⟨f, rfl⟩ : ∃ f, fuel = f + 1 := ⟨fuel - 1, by omega⟩
    have h0 : (h o stdin).err ≠ none := hfail 0 (by omega)
    obtain ⟨err, herr⟩ := Option.ne_none_iff_exists'.mp h0
    have hrec := ih f (h o stdin).options (h o stdin).stdin (by omega)
      (fun i hi => hfail (i + 1) (by omega)) hok
    rw [editLoop]
    simp only [herr, hrec, Option.map_some']
    simp only [LoopResult.after, retryTrace, herr, Option.getD_some]
    rfl

theorem retryTrace_calls (k : Nat) (h : Handler) :
    ∀ (n : Nat) (o : installOptions) (stdin : List String),
      (retryTrace k h n o stdin).filter isHandlerCall =
        List.replicate (n + 1) (Event.handlerCall k) := by
  have hprompts : ∀ l : List String, (l.map Event.prompt).filter isHandlerCall = [] := by
    intro l
    induction l with
    | nil => rfl
    | cons a l _ => simp [List.filter, isHandlerCall]
  intro n
  induction n with
  | zero =>
    intro o stdin
    simp [retryTrace, List.filter_cons, isHandlerCall, hprompts]
  | succ n ih =>
    intro o stdin
    simp [retryTrace, List.filter_cons, List.filter_append, isHandlerCall, hprompts, ih,
      List.replicate_succ]

theorem toLower_of_isDigit (c : Char) (hc : c.isDigit = true) : c.toLower = c := by
  have h : c.toNat ≤ 57 := by
    simp only [Char.isDigit, Bool.and_eq_true, decide_eq_true_eq] at hc
    have := hc.2
    exact this
  unfold Char.toLower
  simp only []
  rw [if_neg]
  omega

theorem unicodeToLower_of_isDigit (table : Char → Char) (c : Char) (hc : c.isDigit = true) :
    unicodeToLower table c = c := by
  have h : c.toNat ≤ 57 := by
    simp only [Char.isDigit, Bool.and_eq_true, decide_eq_true_eq] at hc
    have := hc.2
    exact this
  rw [unicodeToLower_ascii table c (by omega)]
  exact toLower_of_isDigit c hc

theorem ParsesAsDecimal_positive (table : Char → Char) (s : String) (n : Int)
    (h : ParsesAsDecimal s n) (hn : 1 ≤ n) :
    ∃ c cs, s.data = c :: cs ∧ (c.isDigit = true ∨ c = '+') ∧
      ∀ x ∈ c :: cs, unicodeToLower table x = x := by
  obtain ⟨ds, hne, hdig, ⟨hs | hs, -⟩ | ⟨-, hneg⟩⟩ := h
  · cases ds with
    | nil => exact absurd rfl hne
    | cons c cs =>
      exact ⟨c, cs, hs, Or.inl (hdig c (List.mem_cons_self _ _)),
        fun x hx => unicodeToLower_of_isDigit table x (hdig x hx)⟩
  · refine ⟨'+', ds, hs, Or.inr rfl, ?_⟩
    intro x hx
    rcases List.mem_cons.mp hx with rfl | hx
    · rw [unicodeToLower_ascii table '+' (by decide)]; rfl
    · exact unicodeToLower_of_isDigit table x (hdig x hx)
  · exfalso
    have : (0 : Int) ≤ (Nat.ofDigits 10 (List.map digitOf ds.reverse) : Nat) := Int.natCast_nonneg _
    omega

theorem decision_index {e : editableInstallOptions} {o : installOptions}
    (intSize : Nat) (table : Char → Char) (count : Nat) (input : String) (index : Int)
    (hp : ParsesAsDecimal input index) (h1 : 1 ≤ index) (h2 : index ≤ count)
    (hcount : (count : Int) < 2 ^ (intSize - 1)) :
    decision intSize table count input = Decision.edit (index - 1).toNat ∧
      shownFor table e o input =
        [Event.optionList (e.map fun opt => ((opt o).title, (opt o).value)),
          Event.prompt mainPrompt] := by
  obtain ⟨c, cs, hs, hc, hlow⟩ := ParsesAsDecimal_positive table input index hp h1
  have hlower : toLower table input = input := by
    apply String.ext
    rw [toLower_data, hs]
    exact (List.map_congr_left (g := id) hlow).trans (List.map_id _)
  have hne : input ≠ "" := by
    intro h
    rw [h] at hs
    simp at hs
  have hhead : ∀ t : String, (∃ d ds, t.data = d :: ds ∧ d.isDigit = false ∧ d ≠ '+') →
      input ≠ t := by
    rintro t ⟨d, ds, ht, hd1, hd2⟩ rfl
    rw [ht] at hs
    obtain ⟨rfl, -⟩ := List.cons.inj hs
    rcases hc with hc | hc
    · rw [hd1] at hc; exact absurd hc (by simp)
    · exact hd2 hc
  have hnb : isBracketed (toLower table input) = false := by
    rw [hlower]
    have : input.data.head? ≠ some '[' := by
      rw [hs]
      simp only [List.head?_cons, ne_eq, Option.some.injEq]
      rintro rfl
      rcases hc with hc | hc
      · exact absurd hc (by decide)
      · exact absurd hc (by decide)
    simp [isBracketed, this]
  have hn1 : ¬(input = "install" ∨ input = "i") := by
    rintro (h | h)
    · exact hhead "install" ⟨'i', _, rfl, by decide, by decide⟩ h
    · exact hhead "i" ⟨'i', _, rfl, by decide, by decide⟩ h
  have hn2 : ¬(input = "quit" ∨ input = "q") := by
    rintro (h | h)
    · exact hhead "quit" ⟨'q', _, rfl, by decide, by decide⟩ h
    · exact hhead "q" ⟨'q', _, rfl, by decide, by decide⟩ h
  have hatoi : Atoi intSize input = some index :=
    Atoi_complete intSize input index hp (by
      have : (0 : Int) ≤ 2 ^ (intSize - 1) := by positivity
      omega) (by omega)
  have hrange : ¬(index < 1 ∨ index > (count : Int)) := by omega
  refine ⟨?_, shownFor_plain table e o input hnb⟩
  simp only [decision, hne, if_false, normalize_plain table input hnb, hlower, hn1, hn2, hatoi,
    hrange]

theorem pathHandler_blank (env : Env) (w : World) (prompt : String)
    (store : installOptions → String → installOptions) (o : installOptions)
    (rest : List String) :
    (pathHandler env w prompt store o ("" :: rest)).err = none ∧
      (pathHandler env w prompt store o ("" :: rest)).options = o ∧
      (pathHandler env w prompt store o ("" :: rest)).stdin = rest := by
  simp [pathHandler, takeUserInput]

theorem yesNoHandler_blank (prompt : String) (store : installOptions → Bool → installOptions)
    (o : installOptions) (rest : List String) :
    (yesNoHandler prompt store o ("" :: rest)).err = none ∧
      (yesNoHandler prompt store o ("" :: rest)).options = o ∧
      (yesNoHandler prompt store o ("" :: rest)).stdin = rest := by
  simp [yesNoHandler, takeUserInput]

theorem installOptionHandlers_blank (env : Env) (w : World) :
    ∀ opt ∈ installOptionHandlers env w, ∀ created : installOptions,
      ∃ h : Handler, (opt created).handleChange = some h ∧
        ∀ (o : installOptions) (rest : List String),
          (h o ("" :: rest)).err = none ∧ (h o ("" :: rest)).options = o ∧
            (h o ("" :: rest)).stdin = rest := by
  intro opt hmem created
  simp only [installOptionHandlers, List.mem_append, List.mem_cons, List.mem_singleton,
    List.not_mem_nil, or_false] at hmem
  rcases hmem with ((rfl | rfl | rfl | rfl | rfl) | hfw) | rfl
  · exact ⟨_, rfl, fun o rest => pathHandler_blank _ _ _ _ o rest⟩
  · exact ⟨_, rfl, fun o rest => pathHandler_blank _ _ _ _ o rest⟩
  · exact ⟨_, rfl, fun o rest => pathHandler_blank _ _ _ _ o rest⟩
  · refine ⟨_, rfl, fun o rest => ?_⟩
    simp [portHandler, takeUserInput]
  · exact ⟨_, rfl, fun o rest => yesNoHandler_blank _ _ o rest⟩
  · by_cases hu : env.hasUFW = true
    · simp only [hu, if_true, List.mem_singleton] at hfw
      subst hfw
      exact ⟨_, rfl, fun o rest => yesNoHandler_blank _ _ o rest⟩
    · simp [hu] at hfw
  · exact ⟨_, rfl, fun o rest => yesNoHandler_blank _ _ o rest⟩

/-- C8: when the answer to the main prompt is a valid 1-based option index, the loop calls
the handler of the option at that position; as long as a call returns an error the error is
shown and the same handler is called again, and after the first call that returns no error
the loop is back at the main prompt with the options record and input that call left.  With
n failing calls followed by a call without error the handler is called exactly n + 1 times,
every call being a call of that same option.  Every handler `Init` installs answers a blank
input with no error and the options record unchanged, so a blank answer ends the edit. -/
theorem C8_edit_retry (intSize : Nat) (table : Char → Char) (e : editableInstallOptions)
    (fuel n : Nat)
    (o : installOptions) (input : String) (rest : List String) (index : Int)
    (opt : installOptions → OptionView) (h : Handler)
    (hp : ParsesAsDecimal input index) (h1 : 1 ≤ index) (h2 : index ≤ e.length)
    (hlen : (e.length : Int) < 2 ^ (intSize - 1))
    (hopt : e[(index - 1).toNat]? = some opt) (hh : (opt o).handleChange = some h)
    (hfail : ∀ i, i < n → (callResult h i o rest).err ≠ none)
    (hok : (callResult h n o rest).err = none) (hfuel : n + 1 ≤ fuel) :
    handleUserInputLoop intSize table e (fuel + 1) o (input :: rest) =
        (handleUserInputLoop intSize table e fuel (callResult h n o rest).options
            (callResult h n o rest).stdin).map
          (LoopResult.after
            ([Event.optionList (e.map fun opt => ((opt o).title, (opt o).value)),
                Event.prompt mainPrompt] ++
              retryTrace (index - 1).toNat h n o rest)) ∧
      (retryTrace (index - 1).toNat h n o rest).filter isHandlerCall =
        List.replicate (n + 1) (Event.handlerCall (index - 1).toNat) ∧
      (∀ (env : Env) (w : World), ∀ opt1 ∈ installOptionHandlers env w,
        ∀ created : installOptions,
          ∃ h1 : Handler, (opt1 created).handleChange = some h1 ∧
            ∀ (o1 : installOptions) (rest1 : List String),
              (h1 o1 ("" :: rest1)).err = none ∧ (h1 o1 ("" :: rest1)).options = o1 ∧
                (h1 o1 ("" :: rest1)).stdin = rest1) := by
  refine ⟨?_, retryTrace_calls _ h n o rest, installOptionHandlers_blank⟩
  obtain ⟨hdec, hshown⟩ := decision_index (e := e) (o := o) intSize table e.length input
    index hp h1 h2 hlen
  rw [handleUserInputLoop_succ]
  simp only [takeUserInput, hdec, hopt, hh, hshown,
    editLoop_retry (index - 1).toNat h n fuel o rest hfuel hfail hok]

/-- C8 on the sample host: the port handler is called three times, twice with an error. -/
theorem C8_edit_retry_witness :
    (handleUserInputLoop 64 sampleCaseTable
          (installOptionHandlers sampleEnv sampleWorld) 4
        (defaultOptions sampleEnv) ["4", "0", "abc", "8080", "q"]).map
      (fun r => (r.proceed, r.options.Port, r.out.filter isHandlerCall)) =
      some (false, 8080, [Event.handlerCall 3, Event.handlerCall 3, Event.handlerCall 3]) := by
  have hp : ParsesAsDecimal "4" 4 :=
    ⟨['4'], by decide, by decide, Or.inl ⟨Or.inl rfl, by simp [Nat.ofDigits, digitOf]⟩⟩
  have h := (C8_edit_retry 64 sampleCaseTable (installOptionHandlers sampleEnv sampleWorld) 3 2
    (defaultOptions sampleEnv) "4" ["0", "abc", "8080", "q"] 4 (portOption sampleEnv)
    (portHandler 64) hp (by decide) (by decide) (by decide) rfl rfl (by decide)
    (by decide) (by decide)).1
  rw [h]
  decide

/-! ### C9: the path handlers -/

theorem pathHandler_resolved (env : Env) (w : World) (prompt : String)
    (store : installOptions → String → installOptions) (o : installOptions) (s : String)
    (rest : List String) (abs : String) (hs : s ≠ "")
    (hres : resolvePath env.home env.cwd s = .ok abs) :
    pathHandler env w prompt store o (s :: rest) =
      if fileExists w abs then ⟨some ("a file already exists at " ++ abs), o, rest, [prompt]⟩
      else ⟨none, store o abs, rest, [prompt]⟩ := by
  simp [pathHandler, takeUserInput, hs, hres]

theorem fileExists_of_dir_or_nothing (w : World) (path : String)
    (h : w.nodes.lookup path = some Node.dir ∨ w.nodes.lookup path = none) :
    fileExists w path = false := by
  rcases h with h | h <;> simp [fileExists, Stat, h]

/-- C9: the install-directory, config-path and service-path handlers.  For every state of
the file system and every non-empty input whose path resolves: if a regular file exists at
the resolved path the handler returns an error and leaves the options record unchanged; if
a directory or nothing exists there the handler returns no error and stores the resolved
path in its field (the config handler also sets UsingCustomConfigPath).  Hence whenever one
of these handlers accepts a non-empty input, no regular file exists at the path it stored.
An input whose path does not resolve is refused with the record unchanged. -/
theorem C9_path_handlers (env : Env) (w : World) (o : installOptions) (s : String)
    (rest : List String) (hs : s ≠ "") :
    ∀ p ∈ [(installDirectoryOption env w,
              fun (o : installOptions) (a : String) => { o with InstallDirectory := a }),
            (configPathOption env w,
              fun (o : installOptions) (a : String) =>
                { o with UsingCustomConfigPath := true, ConfigPath := a }),
            (servicePathOption env w,
              fun (o : installOptions) (a : String) => { o with ServicePath := a })],
      ∀ created : installOptions, ∃ h : Handler, (p.1 created).handleChange = some h ∧
        (∀ abs : String, resolvePath env.home env.cwd s = .ok abs →
          ((∃ c perms, w.nodes.lookup abs = some (Node.file c perms)) →
            (h o (s :: rest)).err ≠ none ∧ (h o (s :: rest)).options = o) ∧
          ((w.nodes.lookup abs = some Node.dir ∨ w.nodes.lookup abs = none) →
            (h o (s :: rest)).err = none ∧ (h o (s :: rest)).options = p.2 o abs) ∧
          ((h o (s :: rest)).err = none →
            (h o (s :: rest)).options = p.2 o abs ∧
              ¬ ∃ c perms, w.nodes.lookup abs = some (Node.file c perms))) ∧
        (∀ err : String, resolvePath env.home env.cwd s = .error err →
          (h o (s :: rest)).err ≠ none ∧ (h o (s :: rest)).options = o) := by
  have generic : ∀ (prompt : String) (store : installOptions → String → installOptions),
      (∀ abs : String, resolvePath env.home env.cwd s = .ok abs →
        ((∃ c perms, w.nodes.lookup abs = some (Node.file c perms)) →
          (pathHandler env w prompt store o (s :: rest)).err ≠ none ∧
            (pathHandler env w prompt store o (s :: rest)).options = o) ∧
        ((w.nodes.lookup abs = some Node.dir ∨ w.nodes.lookup abs = none) →
          (pathHandler env w prompt store o (s :: rest)).err = none ∧
            (pathHandler env w prompt store o (s :: rest)).options = store o abs) ∧
        ((pathHandler env w prompt store o (s :: rest)).err = none →
          (pathHandler env w prompt store o (s :: rest)).options = store o abs ∧
            ¬ ∃ c perms, w.nodes.lookup abs = some (Node.file c perms))) ∧
      (∀ err : String, resolvePath env.home env.cwd s = .error err →
        (pathHandler env w prompt store o (s :: rest)).err ≠ none ∧
          (pathHandler env w prompt store o (s :: rest)).options = o) := by
    intro prompt store
    constructor
    · intro abs hres
      rw [pathHandler_resolved env w prompt store o s rest abs hs hres]
      refine ⟨?_, ?_, ?_⟩
      · rintro ⟨c, perms, hfile⟩
        rw [fileExists_of_file w abs c perms hfile]
        simp
      · intro hnone
        rw [fileExists_of_dir_or_nothing w abs hnone]
        simp
      · intro hok
        by_cases hx : fileExists w abs = true
        · rw [hx] at hok
          simp at hok
        · simp only [hx, if_false, Bool.false_eq_true, true_and]
          rintro ⟨c, perms, hfile⟩
          exact hx (fileExists_of_file w abs c perms hfile)
    · intro err hres
      simp [pathHandler, takeUserInput, hs, hres]
  intro p hp created
  simp only [List.mem_cons, List.mem_singleton, List.not_mem_nil, or_false] at hp
  rcases hp with rfl | rfl | rfl
  · exact ⟨_, rfl, generic _ _⟩
  · exact ⟨_, rfl, generic _ _⟩
  · exact ⟨_, rfl, generic _ _⟩

/-- C9 on the sample host: the service-path handler refuses the path of an existing file. -/
theorem C9_path_handlers_witness :
    "/etc/motd" ≠ "" ∧
      ∃ h : Handler,
        (servicePathOption sampleEnv sampleWorld (defaultOptions sampleEnv)).handleChange =
          some h ∧
        (h (defaultOptions sampleEnv) ["/etc/motd"]).err ≠ none ∧
        (h (defaultOptions sampleEnv) ["/etc/motd"]).options = defaultOptions sampleEnv := by
  obtain ⟨h, hh, hok, -⟩ :=
    C9_path_handlers sampleEnv sampleWorld (defaultOptions sampleEnv) "/etc/motd" []
      (by decide)
      (servicePathOption sampleEnv sampleWorld,
        fun (o : installOptions) (a : String) => { o with ServicePath := a })
      (by simp) (defaultOptions sampleEnv)
  exact ⟨by decide, h, hh, (hok "/etc/motd" rfl).1 ⟨"hello", 0o644, by decide⟩⟩

/-! ### C10: file handles -/

theorem filter_cons_drop (hs : List (Nat × String)) (fd : Nat) (x : String) :
    ((fd, x) :: hs).filter (fun e => e.1 ≠ fd) = hs.filter (fun e => e.1 ≠ fd) := by
  rw [List.filter_cons]
  simp

theorem filter_cons_keep (hs : List (Nat × String)) (fd k : Nat) (x : String) (hk : k ≠ fd) :
    ((k, x) :: hs).filter (fun e => e.1 ≠ fd) = (k, x) :: hs.filter (fun e => e.1 ≠ fd) := by
  rw [List.filter_cons]
  simp [hk]

theorem lookup_eq_none_filter (hs : List (Nat × String)) (fd : Nat)
    (h : hs.lookup fd = none) : hs.filter (fun e => e.1 ≠ fd) = hs := by
  induction hs with
  | nil => rfl
  | cons e es ih =>
    obtain ⟨k, v⟩ := e
    by_cases hk : fd = k
    · subst hk
      simp [List.lookup] at h
    · have hb : (fd == k) = false := by simpa using hk
      rw [List.lookup, hb] at h
      rw [filter_cons_keep es fd k v (fun hc => hk hc.symm), ih h]

theorem Close_handles (w : World) (fd : Nat) :
    (Close w fd).2.handles = w.handles.filter (fun e => e.1 ≠ fd) ∧
      (Close w fd).2.nextFd = w.nextFd := by
  unfold Close
  cases hl : w.handles.lookup fd with
  | none => exact ⟨(lookup_eq_none_filter _ _ hl).symm, rfl⟩
  | some path =>
    simp only []
    split <;> exact ⟨rfl, rfl⟩

theorem Write_handles (w : World) (fd : Nat) (contents : String) :
    (Write w fd contents).2.handles = w.handles ∧ (Write w fd contents).2.nextFd = w.nextFd := by
  unfold Write
  split
  · exact ⟨rfl, rfl⟩
  · split
    · exact ⟨rfl, rfl⟩
    · split <;> exact ⟨rfl, rfl⟩

theorem ReadFrom_handles (w : World) (dst src : Nat) :
    (ReadFrom w dst src).2.handles = w.handles ∧ (ReadFrom w dst src).2.nextFd = w.nextFd := by
  unfold ReadFrom
  split
  · split
    · exact ⟨rfl, rfl⟩
    · split
      · exact Write_handles _ _ _
      · exact ⟨rfl, rfl⟩
      · exact ⟨rfl, rfl⟩
  · exact ⟨rfl, rfl⟩

theorem OpenFile_handles (w : World) (path : String) (perms fd : Nat) (w1 : World)
    (h : OpenFile w path perms = .ok (fd, w1)) :
    fd = w.nextFd ∧ w1.handles = (w.nextFd, path) :: w.handles ∧ w1.nextFd = w.nextFd + 1 := by
  unfold OpenFile at h
  split at h
  · exact absurd h (by simp)
  · simp only [] at h
    split at h
    · exact absurd h (by simp)
    · exact absurd h (by simp)
    all_goals
      simp only [Except.ok.injEq, Prod.mk.injEq] at h
      obtain ⟨rfl, rfl⟩ := h
      exact ⟨rfl, rfl, rfl⟩

theorem Open_handles (w : World) (path : String) (fd : Nat) (w1 : World)
    (h : Open w path = .ok (fd, w1)) :
    fd = w.nextFd ∧ w1.handles = (w.nextFd, path) :: w.handles ∧ w1.nextFd = w.nextFd + 1 := by
  unfold Open at h
  split at h
  · exact absurd h (by simp)
  · split at h
    · exact absurd h (by simp)
    · exact absurd h (by simp)
    · simp only [Except.ok.injEq, Prod.mk.injEq] at h
      obtain ⟨rfl, rfl⟩ := h
      exact ⟨rfl, rfl, rfl⟩

theorem filter_fresh (hs : List (Nat × String)) (fd : Nat) (h : ∀ e ∈ hs, e.1 < fd) :
    hs.filter (fun e => e.1 ≠ fd) = hs := by
  rw [List.filter_eq_self]
  intro e he
  have := h e he
  simp only [ne_eq, decide_not, Bool.not_eq_true', decide_eq_false_iff_not]
  omega

theorem copyFileFromTo_handles (w : World) (src dest : String) (perms : Nat)
    (hw : handlesFresh w) : (copyFileFromTo w src dest perms).2.handles = w.handles := by
  unfold copyFileFromTo
  cases ho : Open w src with
  | error err => rfl
  | ok p =>
    obtain ⟨r, w1⟩ := p
    obtain ⟨hr, hh1, hn1⟩ := Open_handles w src r w1 ho
    simp only []
    cases hf : OpenFile w1 dest perms with
    | error err =>
      simp only []
      rw [(Close_handles w1 r).1, hh1, hr, filter_cons_drop,
        filter_fresh w.handles w.nextFd hw]
    | ok q =>
      obtain ⟨wr, w2⟩ := q
      obtain ⟨hwr, hh2, hn2⟩ := OpenFile_handles w1 dest perms wr w2 hf
      simp only []
      rw [(Close_handles _ r).1, (Close_handles _ wr).1, (ReadFrom_handles w2 wr r).1, hh2,
        hh1, hwr, hr, hn1]
      have hlt : ∀ e ∈ w.handles, e.1 < w.nextFd + 1 := fun e he => Nat.lt_succ_of_lt (hw e he)
      rw [filter_cons_drop, filter_cons_keep _ _ _ _ (by omega),
        filter_fresh w.handles (w.nextFd + 1) hlt, filter_cons_drop,
        filter_fresh w.handles w.nextFd hw]

theorem createFileIfNotExists_handles (w : World) (path contents : String) (perms : Nat)
    (hw : handlesFresh w) (hwrite : path ∉ w.writeFails) :
    (createFileIfNotExists w path contents perms).2.handles = w.handles := by
  unfold createFileIfNotExists
  split
  · rfl
  · cases hf : OpenFile w path perms with
    | error err => rfl
    | ok q =>
      obtain ⟨f, w1⟩ := q
      obtain ⟨hfd, hh1, hn1⟩ := OpenFile_handles w path perms f w1 hf
      have hwf : w1.writeFails = w.writeFails := by
        unfold OpenFile at hf
        split at hf
        · exact absurd hf (by simp)
        · simp only [] at hf
          split at hf
          · exact absurd hf (by simp)
          · exact absurd hf (by simp)
          all_goals
            simp only [Except.ok.injEq, Prod.mk.injEq] at hf
            obtain ⟨-, rfl⟩ := hf
            rfl
      have hlook : w1.handles.lookup f = some path := by
        rw [hh1, hfd]
        simp [List.lookup]
      have hwok : (Write w1 f contents).1 = none := by
        unfold Write
        simp only [hlook, hwf, hwrite, if_false]
        split <;> rfl
      simp only []
      have hpair : Write w1 f contents = (none, (Write w1 f contents).2) := by
        rw [← hwok]
      rw [hpair]
      simp only []
      rw [(Close_handles _ f).1, (Write_handles w1 f contents).1, hh1, hfd, filter_cons_drop,
        filter_fresh w.handles w.nextFd hw]

theorem createFileIfNotExists_leak (w : World) (path contents : String) (perms : Nat)
    (hopen : path ∉ w.openFails) (hnode : w.nodes.lookup path = none)
    (hwrite : path ∈ w.writeFails) :
    (createFileIfNotExists w path contents perms).1 ≠ none ∧
      (createFileIfNotExists w path contents perms).2.handles =
        (w.nextFd, path) :: w.handles := by
  have hlook : ((w.nextFd, path) :: w.handles).lookup w.nextFd = some path := by
    simp [List.lookup]
  have hx : fileExists w path = false := by simp [fileExists, Stat, hnode]
  simp [createFileIfNotExists, hx, OpenFile, hopen, hnode, Write, hlook, hwrite]

/-- C10: `copyFileFromTo` closes every handle it opened on every exit path, and so does
`createFileIfNotExists` on every exit path but one: when the file was opened and writing
to it fails, the function returns the error without closing the handle, which stays open.
On a full disk, creating the configuration file returns a write error and leaves
descriptor 3 open where no handle was open before. -/
theorem C10_handle_left_open_on_write_error :
    handlesFresh fullDiskWorld ∧ fullDiskWorld.handles = [] ∧
    (createFileIfNotExists fullDiskWorld "/opt/luna-agent/agent.yml" "port: 27973" 0o600).1 =
      some ("writing to file /opt/luna-agent/agent.yml: " ++
        "write /opt/luna-agent/agent.yml: no space left on device") ∧
    (createFileIfNotExists fullDiskWorld "/opt/luna-agent/agent.yml" "port: 27973"
        0o600).2.handles = [(3, "/opt/luna-agent/agent.yml")] ∧
    (∀ (w : World) (path contents : String) (perms : Nat),
      path ∉ w.openFails → w.nodes.lookup path = none → path ∈ w.writeFails →
      (createFileIfNotExists w path contents perms).1 ≠ none ∧
        (createFileIfNotExists w path contents perms).2.handles =
          (w.nextFd, path) :: w.handles) ∧
    (∀ (w : World) (path contents : String) (perms : Nat),
      handlesFresh w → path ∉ w.writeFails →
      (createFileIfNotExists w path contents perms).2.handles = w.handles) ∧
    (∀ (w : World) (src dest : String) (perms : Nat),
      handlesFresh w → (copyFileFromTo w src dest perms).2.handles = w.handles) := by
  refine ⟨?_, rfl, by decide, by decide, createFileIfNotExists_leak,
    createFileIfNotExists_handles, copyFileFromTo_handles⟩
  intro h hh
  simp [fullDiskWorld, sampleWorld] at hh

end Install

namespace Agent

/-! ### C11: the authorisation check of the server -/

theorem lor_eq_zero (a b : Nat) (h : a ||| b = 0) : a = 0 ∧ b = 0 := by
  constructor
  · apply Nat.eq_of_testBit_eq
    intro i
    have := congrArg (fun n => n.testBit i) h
    simp only [Nat.testBit_or, Nat.zero_testBit, Bool.or_eq_false_iff] at this
    rw [this.1, Nat.zero_testBit]
  · apply Nat.eq_of_testBit_eq
    intro i
    have := congrArg (fun n => n.testBit i) h
    simp only [Nat.testBit_or, Nat.zero_testBit, Bool.or_eq_false_iff] at this
    rw [this.2, Nat.zero_testBit]

theorem toNat_eq (x y : Char) (h : x.toNat = y.toNat) : x = y :=
  Char.ext (UInt32.toNat.inj h)

theorem xorAccumulate_eq_zero :
    ∀ (x y : List Char) (v : Nat), x.length = y.length →
      (xorAccumulate x y v = 0 ↔ v = 0 ∧ x = y) := by
  intro x
  induction x with
  | nil =>
    intro y v hlen
    cases y with
    | nil => simp [xorAccumulate]
    | cons b ys => simp at hlen
  | cons a xs ih =>
    intro y v hlen
    cases y with
    | nil => simp at hlen
    | cons b ys =>
      have hlen1 : xs.length = ys.length := by simpa using hlen
      rw [xorAccumulate, ih ys _ hlen1]
      constructor
      · rintro ⟨hv, rfl⟩
        obtain ⟨h1, h2⟩ := lor_eq_zero _ _ hv
        rw [toNat_eq a b (Nat.xor_eq_zero.mp h2)]
        exact ⟨h1, rfl⟩
      · rintro ⟨rfl, hab⟩
        obtain ⟨rfl, rfl⟩ := List.cons.inj hab
        exact ⟨by simp, rfl⟩

theorem ConstantTimeCompare_eq_one (x y : List Char) : ConstantTimeCompare x y = 1 ↔ x = y := by
  unfold ConstantTimeCompare
  by_cases hlen : x.length = y.length
  · simp only [hlen, ne_eq, not_true_eq_false, if_false]
    by_cases hz : xorAccumulate x y 0 = 0
    · simp only [hz, if_true, true_iff]
      exact ((xorAccumulate_eq_zero x y 0 hlen).mp hz).2
    · simp only [hz, if_false]
      constructor
      · intro h; exact absurd h (by decide)
      · intro h
        exact absurd ((xorAccumulate_eq_zero x y 0 hlen).mpr ⟨rfl, h⟩) hz
  · simp only [ne_eq, hlen, not_false_eq_true, if_true]
    constructor
    · intro h; exact absurd h (by decide)
    · intro h
      exact absurd (congrArg List.length h) hlen

theorem isAuthorized_eq (cfg : config) (r : Request) (w : ResponseWriter) :
    isAuthorized cfg r w =
      if cfg.Token = "" ∨ r.Get "Authorization" = "Bearer " ++ cfg.Token then (true, w)
      else (false, httpError w "Unauthorized" StatusUnauthorized) := by
  have hcmp : ConstantTimeCompare (r.Get "Authorization").data ("Bearer " ++ cfg.Token).data = 1 ↔
      r.Get "Authorization" = "Bearer " ++ cfg.Token := by
    rw [ConstantTimeCompare_eq_one]
    exact ⟨fun h => String.ext h, fun h => congrArg String.data h⟩
  unfold isAuthorized
  by_cases hc : cfg.Token = "" ∨ r.Get "Authorization" = "Bearer " ++ cfg.Token
  · rw [if_pos hc, if_neg]
    rintro ⟨ht, hne⟩
    rcases hc with h | h
    · exact ht h
    · exact hne (hcmp.mpr h)
  · rw [if_neg hc, if_pos]
    exact ⟨fun h => hc (Or.inl h), fun h => hc (Or.inr (hcmp.mp h))⟩

theorem isAuthorized_iff (cfg : config) (r : Request) (w : ResponseWriter) :
    (isAuthorized cfg r w).1 = true ↔
      cfg.Token = "" ∨ r.Get "Authorization" = "Bearer " ++ cfg.Token := by
  rw [isAuthorized_eq]
  by_cases hc : cfg.Token = "" ∨ r.Get "Authorization" = "Bearer " ++ cfg.Token
  · rw [if_pos hc]
    exact ⟨fun _ => hc, fun _ => rfl⟩
  · rw [if_neg hc]
    exact ⟨fun h => absurd h (by simp), fun h => absurd h hc⟩

theorem isAuthorized_false (cfg : config) (r : Request) (w : ResponseWriter)
    (h : (isAuthorized cfg r w).1 = false) :
    isAuthorized cfg r w = (false, httpError w "Unauthorized" StatusUnauthorized) := by
  rw [isAuthorized_eq] at h ⊢
  by_cases hc : cfg.Token = "" ∨ r.Get "Authorization" = "Bearer " ++ cfg.Token
  · rw [if_pos hc] at h
    exact absurd h (by simp)
  · rw [if_neg hc]

theorem isAuthorized_true (cfg : config) (r : Request) (w : ResponseWriter)
    (h : (isAuthorized cfg r w).1 = true) : isAuthorized cfg r w = (true, w) := by
  rw [isAuthorized_eq] at h ⊢
  by_cases hc : cfg.Token = "" ∨ r.Get "Authorization" = "Bearer " ++ cfg.Token
  · rw [if_pos hc]
  · rw [if_neg hc] at h
    exact absurd h (by simp)

/-- C11: for every configured token and every request, the authorisation check of the
server passes iff the token is empty or the first Authorization value of the request is
exactly "Bearer " followed by the token, and a check that passes writes nothing.  With an
empty token every request is authorised.  With a non-empty token a missing or different
Authorization value fails the check, and both endpoints answer with status 401 and the
body "Unauthorized". -/
theorem C11_authorization (cfg : config) (r : Request) (w : ResponseWriter) :
    ((isAuthorized cfg r w).1 = true ↔
      cfg.Token = "" ∨ r.Get "Authorization" = "Bearer " ++ cfg.Token) ∧
    ((isAuthorized cfg r w).1 = true → (isAuthorized cfg r w).2 = w) ∧
    (cfg.Token = "" → isAuthorized cfg r w = (true, w)) ∧
    (cfg.Token ≠ "" →
      (r.Header.lookup "Authorization" = none ∨
        r.Get "Authorization" ≠ "Bearer " ++ cfg.Token) →
      (isAuthorized cfg r w).1 = false ∧
        (isAuthorized cfg r w).2.status = some 401 ∧
        (isAuthorized cfg r w).2.body = w.body ++ "Unauthorized" ++ "\n" ∧
        healthzHandler cfg r w = (isAuthorized cfg r w).2 ∧
        ∀ (now : Int) (marshalled : Except String String) (cache : CachedSystemInfo),
          sysinfoHandler cfg now marshalled cache r w = ((isAuthorized cfg r w).2, cache)) := by
  refine ⟨isAuthorized_iff cfg r w, ?_, ?_, ?_⟩
  · intro h
    rw [isAuthorized_true cfg r w h]
  · intro ht
    exact isAuthorized_true cfg r w ((isAuthorized_iff cfg r w).mpr (Or.inl ht))
  · intro ht hheader
    have hne : r.Get "Authorization" ≠ "Bearer " ++ cfg.Token := by
      rcases hheader with hmiss | hdiff
      · intro heq
        have hempty : r.Get "Authorization" = "" := by simp [Request.Get, hmiss]
        rw [hempty] at heq
        have hlen := congrArg String.length heq
        rw [String.length_append] at hlen
        have h7 : "Bearer ".length = 7 := by decide
        have h0 : "".length = 0 := by decide
        omega
      · exact hdiff
    have hfalse : (isAuthorized cfg r w).1 = false := by
      cases hb : (isAuthorized cfg r w).1 with
      | false => rfl
      | true =>
        rcases (isAuthorized_iff cfg r w).mp hb with h | h
        · exact absurd h ht
        · exact absurd h hne
    have heq := isAuthorized_false cfg r w hfalse
    refine ⟨hfalse, by rw [heq]; rfl, by rw [heq]; rfl, ?_, ?_⟩
    · unfold healthzHandler
      rw [heq]
    · intro now marshalled cache
      unfold sysinfoHandler
      rw [heq]

/-- C11 on a server whose token is "s3cret": a request with another token is answered
with 401 by the health endpoint. -/
theorem C11_authorization_witness :
    healthzHandler ⟨"", 27973, "s3cret"⟩
        ⟨"/api/healthz", [("Authorization", ["Bearer guess"])]⟩ ResponseWriter.fresh =
      ⟨some 401,
        [("Content-Type", "text/plain; charset=utf-8"), ("X-Content-Type-Options", "nosniff")],
        "Unauthorized\n"⟩ := by
  have h := (C11_authorization ⟨"", 27973, "s3cret"⟩
    ⟨"/api/healthz", [("Authorization", ["Bearer guess"])]⟩ ResponseWriter.fresh).2.2.2
    (by decide) (Or.inr (by decide))
  rw [h.2.2.2.1]
  decide

end Agent

namespace Install

/-! ### C12: the random token -/

theorem charsetLookup_spec (k : Nat) :
    ∀ (bs : List Nat) (cs : List Char), charsetLookup k bs = some cs →
      cs.length = bs.length ∧ ∀ c ∈ cs, c ∈ charset.data := by
  intro bs
  induction bs with
  | nil =>
    intro cs h
    simp only [charsetLookup, Option.some.injEq] at h
    subst h
    exact ⟨rfl, by simp⟩
  | cons b bs ih =>
    intro cs h
    rw [charsetLookup] at h
    cases hc : charset.data[b % k]? with
    | none => simp [hc] at h
    | some c =>
      cases hr : charsetLookup k bs with
      | none => simp [hc, hr] at h
      | some cs1 =>
        simp only [hc, hr, Option.some.injEq] at h
        subst h
        obtain ⟨hlen, hmem⟩ := ih cs1 hr
        refine ⟨by simp [hlen], ?_⟩
        intro x hx
        rcases List.mem_cons.mp hx with rfl | hx
        · exact List.getElem?_mem hc
        · exact hmem x hx

theorem makeRandomString_spec (n : Nat) (random : Nat → Nat) :
    ∃ t : String, makeRandomString n random = some t ∧ t.length = n ∧
      ∀ c ∈ t.data, c ∈ charset.data := by
  obtain ⟨t, ht⟩ := makeRandomString_some n random
  refine ⟨t, ht, ?_⟩
  have hlen : charset.data.length % 256 = 62 := by decide
  simp only [makeRandomString, hlen, Option.map_eq_some'] at ht
  obtain ⟨cs, hcs, rfl⟩ := ht
  obtain ⟨h1, h2⟩ := charsetLookup_spec 62 _ cs hcs
  refine ⟨?_, h2⟩
  show cs.length = n
  rw [h1, List.length_map, List.length_range]

/-- C12: for every length n and whatever bytes the random source delivers, `makeRandomString`
returns a string of exactly n characters, each taken from the charset, which consists of
62 different ASCII letters and digits; the index into the charset is below 62 for every
byte, so the lookup is never out of range.  Hence whenever RandomAuthToken is set when the
user confirms, the options record `Init` hands to the installation steps, artifact
generation first, has an AuthToken of exactly 32 such characters, which is not empty. -/
theorem C12_random_token (n : Nat) (random : Nat → Nat) :
    (∃ t : String, makeRandomString n random = some t ∧ t.length = n ∧
      ∀ c ∈ t.data, c ∈ charset.data) ∧
    (charset.data.length = 62 ∧ charset.data.Nodup ∧
      ∀ c ∈ charset.data, c.isAlphanum = true ∧ c.toNat < 128) ∧
    (∀ b : Nat, b % (charset.data.length % 256) < charset.data.length ∧
      charset.data[b % (charset.data.length % 256)]? ≠ none) ∧
    (∀ o : installOptions, o.RandomAuthToken = true →
      ∃ o1 : installOptions, deriveFields random o = some o1 ∧
        o1.AuthToken.length = 32 ∧ o1.AuthToken ≠ "" ∧
        (∀ c ∈ o1.AuthToken.data, c ∈ charset.data) ∧
        makeRandomString 32 random = some o1.AuthToken) ∧
    (∀ (env : Env) (fuel : Nat) (w : World) (stdin : List String) (bin : String)
        (r : LoopResult),
      env.random = random → env.GOOS = "linux" → isUsingSystemd w = true →
      isRunningInsideDockerContainer w = false → env.executable = .ok bin →
      handleUserInputLoop env.intSize env.caseTable (installOptionHandlers env w) fuel
        (defaultOptions env) stdin = some r →
      r.proceed = true → r.options.RandomAuthToken = true →
      ∃ (options : installOptions) (out : List Event),
        Init env fuel w stdin = some (installSteps env bin w options out) ∧
          options.AuthToken.length = 32 ∧ options.AuthToken ≠ "" ∧
          ∀ c ∈ options.AuthToken.data, c ∈ charset.data) := by
  have htoken : ∀ o : installOptions, o.RandomAuthToken = true →
      ∃ o1 : installOptions, deriveFields random o = some o1 ∧
        o1.AuthToken.length = 32 ∧ o1.AuthToken ≠ "" ∧
        (∀ c ∈ o1.AuthToken.data, c ∈ charset.data) ∧
        makeRandomString 32 random = some o1.AuthToken := by
    intro o ho
    obtain ⟨t, ht, hlen, hmem⟩ := makeRandomString_spec 32 random
    have hne : t ≠ "" := by
      rintro rfl
      exact absurd hlen (by decide)
    unfold deriveFields
    simp only [ho, if_true, ht, Option.map_some']
    refine ⟨_, rfl, ?_, ?_, ?_, ?_⟩
    · show (ite _ _ _ : installOptions).AuthToken.length = 32
      split <;> exact hlen
    · show (ite _ _ _ : installOptions).AuthToken ≠ ""
      split <;> exact hne
    · show ∀ c ∈ (ite _ _ _ : installOptions).AuthToken.data, c ∈ charset.data
      split <;> exact hmem
    · show some t = some (ite _ _ _ : installOptions).AuthToken
      split <;> rfl
  refine ⟨makeRandomString_spec n random, ⟨by decide, by decide, by decide⟩, ?_, htoken, ?_⟩
  · intro b
    have hlen : charset.data.length % 256 = 62 := by decide
    have h62 : charset.data.length = 62 := by decide
    have hb : b % (charset.data.length % 256) < charset.data.length := by
      rw [hlen, h62]
      exact Nat.mod_lt _ (by decide)
    exact ⟨hb, by rw [List.getElem?_eq_getElem hb]; simp⟩
  · intro env fuel w stdin bin r hrand hos hsd hdk hexe hloop hconfirm htok
    obtain ⟨options, hderive, hlen, hne, hmem, -⟩ := htoken r.options htok
    rw [← hrand] at hderive
    exact ⟨options, _,
      Init_confirmed env fuel w stdin bin r options hos hsd hdk hexe hloop hconfirm hderive,
      hlen, hne, hmem⟩

/-- C12 on the sample host: the token derived from the default options has 32 characters,
and it is the token the options record holds after `Init` has run. -/
theorem C12_random_token_witness :
    (∃ o1 : installOptions,
      deriveFields sampleEnv.random (defaultOptions sampleEnv) = some o1 ∧
        o1.AuthToken.length = 32 ∧ o1.AuthToken ≠ "") ∧
      (Init sampleEnv 1 sampleWorld ["install"]).map (fun r => r.options.AuthToken) =
        some "cbipwDKRY5cjqxELSZ6dkryFMT07elsz" := by
  obtain ⟨o1, hd, hlen, hne, -⟩ :=
    (C12_random_token 32 sampleEnv.random).2.2.2.1 (defaultOptions sampleEnv) rfl
  exact ⟨⟨o1, hd, hlen, hne⟩, by decide⟩

/-! ### C15: the yes/no handlers -/

theorem yesNoHandler_answer (prompt : String) (store : installOptions → Bool → installOptions)
    (o : installOptions) (s : String) (rest : List String) (hs : s ≠ "") :
    yesNoHandler prompt store o (s :: rest) = ⟨none, store o (stringToBool s), rest, [prompt]⟩ := by
  simp [yesNoHandler, takeUserInput, hs]

/-- C15: for every non-empty input, the handlers of the three yes/no options (random
token, firewall rule, enable service) return no error and store in their flag the value of
`stringToBool`, which is true exactly when the input is the string "yes" or "y" as typed,
in lower case; every other input, "Yes", "YES", "Y", "no" and "maybe" among them, sets the
flag to false. -/
theorem C15_yes_no_handlers (o : installOptions) (s : String) (rest : List String)
    (hs : s ≠ "") :
    (∀ p ∈ [(randomTokenOption,
              fun (o : installOptions) (b : Bool) => { o with RandomAuthToken := b }),
            (firewallOption,
              fun (o : installOptions) (b : Bool) => { o with AddFirewallRule := b }),
            (enableServiceOption,
              fun (o : installOptions) (b : Bool) => { o with EnableAndRunService := b })],
      ∀ created : installOptions, ∃ h : Handler, (p.1 created).handleChange = some h ∧
        (h o (s :: rest)).err = none ∧
        (h o (s :: rest)).options = p.2 o (decide (s = "yes" ∨ s = "y")) ∧
        (h o (s :: rest)).stdin = rest) ∧
    (stringToBool s = true ↔ s = "yes" ∨ s = "y") ∧
    (∀ other ∈ ["Yes", "YES", "Y", "no", "maybe"], stringToBool other = false) ∧
    (∀ (env : Env) (w : World),
      randomTokenOption ∈ installOptionHandlers env w ∧
      enableServiceOption ∈ installOptionHandlers env w ∧
      (firewallOption ∈ installOptionHandlers env w ↔ env.hasUFW = true)) := by
  have generic : ∀ (prompt : String) (store : installOptions → Bool → installOptions),
      (yesNoHandler prompt store o (s :: rest)).err = none ∧
        (yesNoHandler prompt store o (s :: rest)).options =
          store o (decide (s = "yes" ∨ s = "y")) ∧
        (yesNoHandler prompt store o (s :: rest)).stdin = rest := by
    intro prompt store
    rw [yesNoHandler_answer prompt store o s rest hs]
    exact ⟨rfl, rfl, rfl⟩
  refine ⟨?_, by simp [stringToBool], by decide, ?_⟩
  · intro p hp created
    simp only [List.mem_cons, List.mem_singleton, List.not_mem_nil, or_false] at hp
    rcases hp with rfl | rfl | rfl
    · exact ⟨_, rfl, generic _ _⟩
    · exact ⟨_, rfl, generic _ _⟩
    · exact ⟨_, rfl, generic _ _⟩
  · intro env w
    refine ⟨by simp [installOptionHandlers], by simp [installOptionHandlers], ?_⟩
    constructor
    · intro hmem
      by_contra hu
      simp only [installOptionHandlers, hu, List.mem_append, List.mem_cons,
        List.mem_singleton, List.not_mem_nil, or_false, if_false, Bool.false_eq_true] at hmem
      have htitle : ∀ v : installOptions → OptionView, firewallOption = v →
          (v (defaultOptions env)).title = (firewallOption (defaultOptions env)).title :=
        fun v hv => by rw [hv]
      have hfw : ((firewallOption (defaultOptions env)).title.data.take 7) =
          "Run ufw".data := by
        simp [firewallOption, String.data_append]
      rcases hmem with (h | h | h | h | h) | h
      all_goals
        have ht := htitle _ h
        rw [← ht] at hfw
        revert hfw
        simp [installDirectoryOption, configPathOption, servicePathOption, portOption,
          randomTokenOption, enableServiceOption, String.data_append]
    · intro hu
      simp [installOptionHandlers, hu]

/-- C15 on the default options: the answer "YES" switches the service step off. -/
theorem C15_yes_no_handlers_witness :
    "YES" ≠ "" ∧
      ∃ h : Handler, (enableServiceOption (defaultOptions sampleEnv)).handleChange = some h ∧
        (h (defaultOptions sampleEnv) ["YES"]).err = none ∧
        (h (defaultOptions sampleEnv) ["YES"]).options.EnableAndRunService = false ∧
        (defaultOptions sampleEnv).EnableAndRunService = true := by
  obtain ⟨h, hh, herr, hopt, -⟩ :=
    (C15_yes_no_handlers (defaultOptions sampleEnv) "YES" [] (by decide)).1
      (enableServiceOption,
        fun (o : installOptions) (b : Bool) => { o with EnableAndRunService := b })
      (by simp) (defaultOptions sampleEnv)
  refine ⟨by decide, h, hh, herr, ?_, rfl⟩
  rw [hopt]
  decide

/-! ### C14: resolvePath -/

theorem splitSlash_ne_nil (cs : List Char) : splitSlash cs ≠ [] := by
  induction cs with
  | nil => simp [splitSlash]
  | cons c cs ih =>
    rw [splitSlash]
    split
    · simp
    · split <;> simp

theorem splitSlash_slashFree (cs : List Char) : ∀ e ∈ splitSlash cs, '/' ∉ e := by
  induction cs with
  | nil => simp [splitSlash]
  | cons c cs ih =>
    intro e he
    rw [splitSlash] at he
    by_cases hc : c = '/'
    · rw [if_pos hc] at he
      rcases List.mem_cons.mp he with rfl | he
      · simp
      · exact ih e he
    · rw [if_neg hc] at he
      cases hs : splitSlash cs with
      | nil => exact absurd hs (splitSlash_ne_nil cs)
      | cons e1 es =>
        rw [hs] at he ih
        simp only [List.mem_cons] at he
        rcases he with rfl | he
        · intro hmem
          rcases List.mem_cons.mp hmem with h | h
          · exact hc h.symm
          · exact ih e1 (List.mem_cons_self _ _) h
        · exact ih e (List.mem_cons_of_mem _ he)

theorem splitSlash_elem (e : List Char) (he : '/' ∉ e) (rest : List Char) :
    splitSlash (e ++ '/' :: rest) = e :: splitSlash rest := by
  induction e with
  | nil => simp [splitSlash]
  | cons c cs ih =>
    have hc : c ≠ '/' := fun h => he (by rw [h]; exact List.mem_cons_self _ _)
    have hcs : '/' ∉ cs := fun h => he (List.mem_cons_of_mem _ h)
    rw [List.cons_append, splitSlash, if_neg hc, ih hcs]

theorem splitSlash_single (e : List Char) (he : '/' ∉ e) : splitSlash e = [e] := by
  induction e with
  | nil => rfl
  | cons c cs ih =>
    have hc : c ≠ '/' := fun h => he (by rw [h]; exact List.mem_cons_self _ _)
    have hcs : '/' ∉ cs := fun h => he (List.mem_cons_of_mem _ h)
    rw [splitSlash, if_neg hc, ih hcs]

theorem intercalate_cons_cons (sep a b : List Char) (l : List (List Char)) :
    List.intercalate sep (a :: b :: l) = a ++ sep ++ List.intercalate sep (b :: l) := by
  simp [List.intercalate, List.intersperse]

theorem splitSlash_intercalate :
    ∀ (l : List (List Char)), l ≠ [] → (∀ e ∈ l, '/' ∉ e) →
      splitSlash (List.intercalate ['/'] l) = l := by
  intro l
  induction l with
  | nil => intro h; exact absurd rfl h
  | cons a l ih =>
    intro _ hfree
    cases l with
    | nil =>
      have : List.intercalate ['/'] [a] = a := by simp [List.intercalate, List.intersperse]
      rw [this]
      exact splitSlash_single a (hfree a (List.mem_cons_self _ _))
    | cons b l =>
      rw [intercalate_cons_cons, List.append_assoc, List.singleton_append,
        splitSlash_elem a (hfree a (List.mem_cons_self _ _)),
        ih (by simp) (fun e he => hfree e (List.mem_cons_of_mem _ he))]

theorem cleanElems_cons (rooted : Bool) (e : List Char) (es out : List (List Char)) :
    cleanElems rooted (e :: es) out =
      if e = [] ∨ e = ['.'] then cleanElems rooted es out
      else if e = ['.', '.'] then
        match out with
        | o :: os =>
          if o = ['.', '.'] then cleanElems rooted es (e :: out)
          else cleanElems rooted es os
        | [] => if rooted then cleanElems rooted es [] else cleanElems rooted es [e]
      else cleanElems rooted es (e :: out) := by
  cases out <;> rfl

theorem cleanElems_rooted_normal :
    ∀ (elems out : List (List Char)), (∀ e ∈ elems, '/' ∉ e) → (∀ e ∈ out, NormalElem e) →
      ∀ e ∈ cleanElems true elems out, NormalElem e := by
  intro elems
  induction elems with
  | nil => intro out _ hout; simpa [cleanElems] using hout
  | cons a elems ih =>
    intro out hfree hout
    have hrest : ∀ e ∈ elems, '/' ∉ e := fun e he => hfree e (List.mem_cons_of_mem _ he)
    rw [cleanElems_cons]
    by_cases h1 : a = [] ∨ a = ['.']
    · rw [if_pos h1]
      exact ih out hrest hout
    · rw [if_neg h1]
      by_cases h2 : a = ['.', '.']
      · rw [if_pos h2]
        cases out with
        | nil => exact ih [] hrest (by simp)
        | cons o os =>
          have ho : o ≠ ['.', '.'] := (hout o (List.mem_cons_self _ _)).2.2.1
          simp only [if_neg ho]
          exact ih os hrest (fun e he => hout e (List.mem_cons_of_mem _ he))
      · rw [if_neg h2]
        refine ih (a :: out) hrest ?_
        intro e he
        rcases List.mem_cons.mp he with rfl | he
        · exact ⟨fun h => h1 (Or.inl h), fun h => h1 (Or.inr h), h2,
            hfree e (List.mem_cons_self _ _)⟩
        · exact hout e he

theorem cleanElems_of_normal (rooted : Bool) :
    ∀ (l out : List (List Char)), (∀ e ∈ l, NormalElem e) →
      cleanElems rooted l out = l.reverse ++ out := by
  intro l
  induction l with
  | nil => intro out _; simp [cleanElems]
  | cons a l ih =>
    intro out hl
    obtain ⟨h1, h2, h3, -⟩ := hl a (List.mem_cons_self _ _)
    have h12 : ¬(a = [] ∨ a = ['.']) := fun h => h.elim h1 h2
    rw [cleanElems_cons, if_neg h12, if_neg h3,
      ih (a :: out) (fun e he => hl e (List.mem_cons_of_mem _ he))]
    simp

theorem IsAbs_iff (path : String) : IsAbs path = true ↔ ∃ cs, path.data = '/' :: cs := by
  unfold IsAbs
  cases h : path.data with
  | nil => simp
  | cons c cs => simp

theorem Clean_rooted (path : String) (h : IsAbs path = true) :
    ∃ l : List (List Char), (∀ e ∈ l, NormalElem e) ∧
      Clean path = String.mk ('/' :: List.intercalate ['/'] l) := by
  obtain ⟨cs, hcs⟩ := (IsAbs_iff path).mp h
  have hne : path ≠ "" := by
    intro he
    rw [he] at hcs
    simp at hcs
  refine ⟨(cleanElems true (splitSlash path.data) []).reverse, ?_, ?_⟩
  · intro e he
    exact cleanElems_rooted_normal _ [] (splitSlash_slashFree _) (by simp) e
      (List.mem_reverse.mp he)
  · simp only [Clean, hne, h, if_false, if_true]

theorem Clean_idempotent_rooted (path : String) (h : IsAbs path = true) :
    IsAbs (Clean path) = true ∧ Clean (Clean path) = Clean path := by
  obtain ⟨l, hl, hclean⟩ := Clean_rooted path h
  have habs : IsAbs (String.mk ('/' :: List.intercalate ['/'] l)) = true := by
    simp [IsAbs]
  have hne : String.mk ('/' :: List.intercalate ['/'] l) ≠ "" := by
    intro he
    have := congrArg String.data he
    simp at this
  rw [hclean]
  refine ⟨habs, ?_⟩
  have hsplit : cleanElems true (splitSlash ('/' :: List.intercalate ['/'] l)) [] =
      l.reverse := by
    rw [splitSlash, if_pos rfl, cleanElems_cons, if_pos (Or.inl rfl)]
    cases l with
    | nil => simp [List.intercalate, splitSlash, cleanElems]
    | cons a l =>
      rw [splitSlash_intercalate (a :: l) (by simp) (fun e he => (hl e he).2.2.2),
        cleanElems_of_normal true (a :: l) [] hl]
      simp
  simp only [Clean, hne, habs, if_false, if_true, hsplit, List.reverse_reverse]

theorem Join_rooted (h t : String) (hh : IsAbs h = true) :
    ∃ x : String, IsAbs x = true ∧ Join [h, t] = Clean x := by
  obtain ⟨cs, hcs⟩ := (IsAbs_iff h).mp hh
  have hne : h ≠ "" := by
    intro he
    rw [he] at hcs
    simp at hcs
  by_cases ht : t = ""
  · refine ⟨h, hh, ?_⟩
    simp [Join, hne, ht, String.intercalate, String.intercalate.go]
  · refine ⟨h ++ "/" ++ t, ?_, ?_⟩
    · rw [IsAbs_iff]
      exact ⟨cs ++ ("/" ++ t).data, by simp [String.data_append, hcs]⟩
    · simp [Join, hne, ht, String.intercalate, String.intercalate.go]

theorem Abs_Join_rooted (cwd : Except String String) (h t : String) (hh : IsAbs h = true) :
    Abs cwd (Join [h, t]) = .ok (Join [h, t]) := by
  obtain ⟨x, hx, hj⟩ := Join_rooted h t hh
  obtain ⟨habs, hidem⟩ := Clean_idempotent_rooted x hx
  rw [hj]
  simp only [Abs, habs, if_true, hidem]

theorem cleanElems_kept (rooted : Bool) :
    ∀ (elems out : List (List Char)), (∀ e ∈ elems, '/' ∉ e) →
      (∀ e ∈ out, e ≠ [] ∧ '/' ∉ e) →
      ∀ e ∈ cleanElems rooted elems out, e ≠ [] ∧ '/' ∉ e := by
  intro elems
  induction elems with
  | nil => intro out _ hout; simpa [cleanElems] using hout
  | cons a elems ih =>
    intro out hfree hout
    have hrest : ∀ e ∈ elems, '/' ∉ e := fun e he => hfree e (List.mem_cons_of_mem _ he)
    have ha : '/' ∉ a := hfree a (List.mem_cons_self _ _)
    rw [cleanElems_cons]
    by_cases h1 : a = [] ∨ a = ['.']
    · rw [if_pos h1]
      exact ih out hrest hout
    · rw [if_neg h1]
      have hcons : ∀ e ∈ a :: out, e ≠ [] ∧ '/' ∉ e := by
        intro e he
        rcases List.mem_cons.mp he with rfl | he
        · exact ⟨fun h => h1 (Or.inl h), ha⟩
        · exact hout e he
      by_cases h2 : a = ['.', '.']
      · rw [if_pos h2]
        cases out with
        | nil =>
          cases rooted
          · exact ih [a] hrest (fun e he => hcons e (by simpa using he))
          · exact ih [] hrest (by simp)
        | cons o os =>
          by_cases ho : o = ['.', '.']
          · simp only [if_pos ho]
            exact ih (a :: o :: os) hrest hcons
          · simp only [if_neg ho]
            exact ih os hrest (fun e he => hout e (List.mem_cons_of_mem _ he))
      · rw [if_neg h2]
        exact ih (a :: out) hrest hcons

theorem intercalate_head (a : List Char) (l : List (List Char)) :
    ∃ r, List.intercalate ['/'] (a :: l) = a ++ r := by
  cases l with
  | nil => exact ⟨[], by simp [List.intercalate, List.intersperse]⟩
  | cons b l => exact ⟨['/'] ++ List.intercalate ['/'] (b :: l), by
      rw [intercalate_cons_cons, List.append_assoc]⟩

theorem Clean_relative (path : String) (h : IsAbs path = false) :
    IsAbs (Clean path) = false := by
  by_cases hne : path = ""
  · rw [hne]; rfl
  · have hkept : ∀ e ∈ (cleanElems false (splitSlash path.data) []).reverse,
        e ≠ [] ∧ '/' ∉ e := by
      intro e he
      exact cleanElems_kept false _ [] (splitSlash_slashFree _) (by simp) e
        (List.mem_reverse.mp he)
    simp only [Clean, hne, h, if_false, Bool.false_eq_true]
    cases hout : (cleanElems false (splitSlash path.data) []).reverse with
    | nil => rfl
    | cons a l =>
      rw [hout] at hkept
      obtain ⟨hane, hafree⟩ := hkept a (List.mem_cons_self _ _)
      obtain ⟨r, hr⟩ := intercalate_head a l
      rw [hr]
      cases a with
      | nil => exact absurd rfl hane
      | cons c cs =>
        have hc : c ≠ '/' := fun he => hafree (by rw [he]; exact List.mem_cons_self _ _)
        simp [IsAbs, hc]

theorem IsAbs_Clean (path : String) : IsAbs (Clean path) = IsAbs path := by
  cases h : IsAbs path with
  | false => exact Clean_relative path h
  | true => exact (Clean_idempotent_rooted path h).1

theorem Clean_Clean_of_IsAbs (path : String) (h : IsAbs (Clean path) = true) :
    Clean (Clean path) = Clean path := by
  rw [IsAbs_Clean] at h
  exact (Clean_idempotent_rooted path h).2

theorem Join_pair (h t : String) :
    Join [h, t] = "" ∨ ∃ x : String, Join [h, t] = Clean x := by
  by_cases hh : h = ""
  · by_cases ht : t = ""
    · left
      simp [Join, hh, ht]
    · right
      exact ⟨t, by simp [Join, hh, ht, String.intercalate, String.intercalate.go]⟩
  · by_cases ht : t = ""
    · right
      exact ⟨h, by simp [Join, hh, ht, String.intercalate, String.intercalate.go]⟩
    · right
      exact ⟨h ++ "/" ++ t, by simp [Join, hh, ht, String.intercalate, String.intercalate.go]⟩

theorem IsAbs_Join (h t : String) (hh : h ≠ "") : IsAbs (Join [h, t]) = IsAbs h := by
  have hdata : ∃ c cs, h.data = c :: cs := by
    cases hd : h.data with
    | nil => exact absurd (String.ext hd) hh
    | cons c cs => exact ⟨c, cs, rfl⟩
  obtain ⟨c, cs, hd⟩ := hdata
  by_cases ht : t = ""
  · have : Join [h, t] = Clean h := by
      simp [Join, hh, ht, String.intercalate, String.intercalate.go]
    rw [this, IsAbs_Clean]
  · have : Join [h, t] = Clean (h ++ "/" ++ t) := by
      simp [Join, hh, ht, String.intercalate, String.intercalate.go]
    rw [this, IsAbs_Clean]
    simp [IsAbs, String.data_append, hd]

theorem Abs_Join (cwd : Except String String) (h t : String) :
    Abs cwd (Join [h, t]) =
      if IsAbs (Join [h, t]) then .ok (Join [h, t])
      else
        match cwd with
        | .error e => .error e
        | .ok wd => .ok (Join [wd, Join [h, t]]) := by
  by_cases habs : IsAbs (Join [h, t]) = true
  · have hclean : Clean (Join [h, t]) = Join [h, t] := by
      rcases Join_pair h t with hj | ⟨x, hj⟩
      · rw [hj] at habs
        exact absurd habs (by decide)
      · rw [hj] at habs ⊢
        exact Clean_Clean_of_IsAbs x habs
    simp only [Abs, habs, if_true, hclean]
  · simp only [Abs, habs, if_false, Bool.false_eq_true]

theorem resolvePath_tilde_any (home cwd : Except String String) (path h : String)
    (tail : List Char) (hp : path.data = '~' :: tail) (hhome : home = .ok h) :
    resolvePath home cwd path =
      if IsAbs (Join [h, String.mk tail]) then .ok (Join [h, String.mk tail])
      else
        match cwd with
        | .error err =>
          .error ("resolving " ++ Join [h, String.mk tail] ++ ": " ++ err)
        | .ok wd => .ok (Join [wd, Join [h, String.mk tail]]) := by
  have hne : path ≠ "" := by
    intro he
    rw [he] at hp
    simp at hp
  have hrel : IsAbs path = false := by
    simp [IsAbs, hp]
  have hc : ¬(path = "" ∨ IsAbs path = true) := by
    rintro (h1 | h1)
    · exact hne h1
    · rw [hrel] at h1; exact absurd h1 (by simp)
  unfold resolvePath
  rw [if_neg hc]
  simp only [hp, hhome, Abs_Join cwd h (String.mk tail)]
  by_cases habs : IsAbs (Join [h, String.mk tail]) = true
  · simp only [habs, if_true]
  · simp only [habs, if_false, Bool.false_eq_true]
    cases cwd <;> rfl

theorem resolvePath_tilde_no_home (home cwd : Except String String) (path err : String)
    (tail : List Char) (hp : path.data = '~' :: tail) (hhome : home = .error err) :
    resolvePath home cwd path = .error ("getting user home directory: " ++ err) := by
  have hne : path ≠ "" := by
    intro he
    rw [he] at hp
    simp at hp
  have hrel : IsAbs path = false := by
    simp [IsAbs, hp]
  have hc : ¬(path = "" ∨ IsAbs path = true) := by
    rintro (h1 | h1)
    · exact hne h1
    · rw [hrel] at h1; exact absurd h1 (by simp)
  unfold resolvePath
  rw [if_neg hc]
  simp only [hp, hhome]

theorem resolvePath_tilde (home cwd : Except String String) (path h : String)
    (tail : List Char) (hp : path.data = '~' :: tail) (hhome : home = .ok h)
    (hh : IsAbs h = true) : resolvePath home cwd path = .ok (Join [h, String.mk tail]) := by
  have hne : path ≠ "" := by
    intro he
    rw [he] at hp
    simp at hp
  have hrel : IsAbs path = false := by
    simp [IsAbs, hp]
  have hc : ¬(path = "" ∨ IsAbs path = true) := by
    rintro (h1 | h1)
    · exact hne h1
    · rw [hrel] at h1; exact absurd h1 (by simp)
  unfold resolvePath
  rw [if_neg hc]
  simp only [hp, hhome, Abs_Join_rooted cwd h (String.mk tail) hh]

theorem resolvePath_relative (home cwd : Except String String) (path wd : String)
    (hne : path ≠ "") (hrel : IsAbs path = false) (htilde : path.data.head? ≠ some '~')
    (hcwd : cwd = .ok wd) : resolvePath home cwd path = .ok (Join [wd, path]) := by
  have hc : ¬(path = "" ∨ IsAbs path = true) := by
    rintro (h1 | h1)
    · exact hne h1
    · rw [hrel] at h1; exact absurd h1 (by simp)
  unfold resolvePath
  rw [if_neg hc]
  cases hd : path.data with
  | nil =>
    exact absurd (String.ext hd) hne
  | cons c cs =>
    have hct : c ≠ '~' := by
      intro he
      rw [hd, he] at htilde
      simp at htilde
    have hjoined : (match c :: cs with
        | '~' :: tail =>
          match home with
          | .error err => Except.error ("getting user home directory: " ++ err)
          | .ok h => Except.ok (Join [h, String.mk tail])
        | _ => Except.ok path) = (Except.ok path : Except String String) := by
      split
      · rename_i tail heq
        exact absurd (List.cons.inj heq).1 hct
      · rfl
    simp only [hjoined, Abs, hrel, hcwd, Bool.false_eq_true, if_false]

theorem resolvePath_relative_no_cwd (home cwd : Except String String) (path err : String)
    (hne : path ≠ "") (hrel : IsAbs path = false) (htilde : path.data.head? ≠ some '~')
    (hcwd : cwd = .error err) :
    resolvePath home cwd path = .error ("resolving " ++ path ++ ": " ++ err) := by
  have hc : ¬(path = "" ∨ IsAbs path = true) := by
    rintro (h1 | h1)
    · exact hne h1
    · rw [hrel] at h1; exact absurd h1 (by simp)
  unfold resolvePath
  rw [if_neg hc]
  cases hd : path.data with
  | nil =>
    exact absurd (String.ext hd) hne
  | cons c cs =>
    have hct : c ≠ '~' := by
      intro he
      rw [hd, he] at htilde
      simp at htilde
    have hjoined : (match c :: cs with
        | '~' :: tail =>
          match home with
          | .error err => Except.error ("getting user home directory: " ++ err)
          | .ok h => Except.ok (Join [h, String.mk tail])
        | _ => Except.ok path) = (Except.ok path : Except String String) := by
      split
      · rename_i tail heq
        exact absurd (List.cons.inj heq).1 hct
      · rfl
    simp only [hjoined, Abs, hrel, hcwd, Bool.false_eq_true, if_false]

/-- C14 as stated fails: with home directory "/root" and working directory "/tmp" the
relative input "x" resolves to "/tmp/x", against the working directory, and not to
"/root/x", against the home directory. -/
theorem C14_relative_path_counterexample :
    resolvePath (.ok "/root") (.ok "/tmp") "x" = .ok "/tmp/x" ∧
      resolveAgainstHome "/root" "x" = "/root/x" ∧
      ¬ (∀ home cwd path : String, path ≠ "" →
        resolvePath (.ok home) (.ok cwd) path = .ok (resolveAgainstHome home path)) := by
  refine ⟨rfl, by decide, ?_⟩
  intro h
  have h1 := h "/root" "/tmp" "x" (by decide)
  have h2 : resolvePath (.ok "/root") (.ok "/tmp") "x" = .ok "/tmp/x" := rfl
  have h3 : resolveAgainstHome "/root" "x" = "/root/x" := by decide
  rw [h2, h3] at h1
  exact absurd (Except.ok.inj h1) (by decide)

/-- C14, amended: for every home directory, every working directory and every non-empty
input path, `resolvePath` returns an absolute input unchanged; in an input with a leading `~`
the `~` stands for the user's home directory, the rest being joined to it, and the joined
path is the result when it is absolute (as it is for an absolute home directory), while for a
relative home directory it is in turn resolved against the working directory; any other
relative input is resolved against the working directory, not the home directory.  On
absolute inputs, and on inputs with a leading `~` under an absolute home directory, the
result is the one the specification words; under a relative home directory it is that path
resolved against the working directory.  When the home directory or the working directory
cannot be determined and is needed, the error is returned. -/
theorem C14_resolvePath_amended (home cwd : Except String String) (path : String)
    (hp : path ≠ "") :
    (IsAbs path = true → resolvePath home cwd path = .ok path) ∧
    (∀ (h : String) (tail : List Char), path.data = '~' :: tail → home = .ok h →
      IsAbs h = true →
      resolvePath home cwd path = .ok (Join [h, String.mk tail]) ∧
        resolvePath home cwd path = .ok (resolveAgainstHome h path)) ∧
    (∀ wd : String, IsAbs path = false → path.data.head? ≠ some '~' → cwd = .ok wd →
      resolvePath home cwd path = .ok (Join [wd, path])) ∧
    (∀ h : String, IsAbs path = true →
      resolvePath home cwd path = .ok (resolveAgainstHome h path)) ∧
    (∀ (h : String) (tail : List Char) (wd : String), path.data = '~' :: tail →
      home = .ok h → h ≠ "" → IsAbs h = false → cwd = .ok wd →
      resolvePath home cwd path = .ok (Join [wd, Join [h, String.mk tail]]) ∧
        resolvePath home cwd path = .ok (Join [wd, resolveAgainstHome h path])) ∧
    (∀ (h : String) (tail : List Char), path.data = '~' :: tail → home = .ok h →
      (h ≠ "" → IsAbs (Join [h, String.mk tail]) = IsAbs h) ∧
      resolvePath home cwd path =
        if IsAbs (Join [h, String.mk tail]) then .ok (Join [h, String.mk tail])
        else
          match cwd with
          | .error err =>
            .error ("resolving " ++ Join [h, String.mk tail] ++ ": " ++ err)
          | .ok wd => .ok (Join [wd, Join [h, String.mk tail]])) ∧
    (∀ (err : String) (tail : List Char), path.data = '~' :: tail → home = .error err →
      resolvePath home cwd path = .error ("getting user home directory: " ++ err)) ∧
    (∀ err : String, IsAbs path = false → path.data.head? ≠ some '~' → cwd = .error err →
      resolvePath home cwd path = .error ("resolving " ++ path ++ ": " ++ err)) := by
  have habs : IsAbs path = true → resolvePath home cwd path = .ok path := by
    intro h
    simp [resolvePath, h]
  refine ⟨habs, ?_, ?_, ?_, ?_, ?_, ?_, ?_⟩
  · intro h tail hdata hhome hh
    have hres := resolvePath_tilde home cwd path h tail hdata hhome hh
    refine ⟨hres, ?_⟩
    have hrel : IsAbs path = false := by simp [IsAbs, hdata]
    rw [hres]
    simp only [resolveAgainstHome, hrel, Bool.false_eq_true, if_false, hdata]
  · intro wd hrel htilde hcwd
    exact resolvePath_relative home cwd path wd hp hrel htilde hcwd
  · intro h hpabs
    rw [habs hpabs]
    simp [resolveAgainstHome, hpabs]
  · intro h tail wd hdata hhome hne hh hcwd
    have hjoin : IsAbs (Join [h, String.mk tail]) = false := by
      rw [IsAbs_Join h (String.mk tail) hne]; exact hh
    have hres : resolvePath home cwd path = .ok (Join [wd, Join [h, String.mk tail]]) := by
      rw [resolvePath_tilde_any home cwd path h tail hdata hhome, hcwd]
      simp only [hjoin, Bool.false_eq_true, if_false]
    refine ⟨hres, ?_⟩
    have hrel : IsAbs path = false := by simp [IsAbs, hdata]
    rw [hres]
    simp only [resolveAgainstHome, hrel, Bool.false_eq_true, if_false, hdata]
  · intro h tail hdata hhome
    exact ⟨fun hne => IsAbs_Join h (String.mk tail) hne,
      resolvePath_tilde_any home cwd path h tail hdata hhome⟩
  · intro err tail hdata hhome
    exact resolvePath_tilde_no_home home cwd path err tail hdata hhome
  · intro err hrel htilde hcwd
    exact resolvePath_relative_no_cwd home cwd path err hp hrel htilde hcwd

/-- C14, amended, on the sample host: with home "/root" and working directory "/tmp" the
input "~/x" resolves to "/root/x"; with the relative home directory "rel/home" and working
directory "/srv" it resolves to "/srv/rel/home/x". -/
theorem C14_resolvePath_amended_witness :
    "~/x" ≠ "" ∧ resolvePath sampleEnv.home sampleEnv.cwd "~/x" = .ok "/root/x" ∧
      resolvePath (.ok "rel/home") (.ok "/srv") "~/x" = .ok "/srv/rel/home/x" := by
  have h := ((C14_resolvePath_amended sampleEnv.home sampleEnv.cwd "~/x" (by decide)).2.1
    "/root" ['/', 'x'] rfl rfl rfl).1
  have hrel := ((C14_resolvePath_amended (.ok "rel/home") (.ok "/srv") "~/x"
    (by decide)).2.2.2.2.1 "rel/home" ['/', 'x'] "/srv" rfl rfl (by decide) rfl rfl).1
  refine ⟨by decide, ?_, ?_⟩
  · rw [h]
    rfl
  · rw [hrel]
    rfl

/-! ### C13: the progress indicator -/

theorem ProgressInvariant_start (action : StepResult) :
    ProgressInvariant action ProgressState.start where
  returned_iff := by simp [ProgressState.start]
  frames_only := by
    intro _ p hp
    simp only [ProgressState.start, List.mem_singleton] at hp
    rw [hp]; rfl
  shared_assigned := by intro h; exact absurd rfl h
  ticker_off := by
    intro h
    rcases h with h | h <;> simp [ProgressState.start] at h
  outcome_last := by
    intro b hb
    simp [ProgressState.start] at hb

theorem ProgressInvariant_step (action : StepResult) (m : Move) (s s1 : ProgressState)
    (inv : ProgressInvariant action s) (h : progressStep action m s = some s1) :
    ProgressInvariant action s1 := by
  cases m with
  | timerFires =>
    simp only [progressStep] at h
    split at h
    · cases h
      exact ⟨inv.returned_iff, inv.frames_only, inv.shared_assigned, inv.ticker_off,
        inv.outcome_last⟩
    · exact absurd h (by simp)
  | actionReturns =>
    simp only [progressStep] at h
    split at h
    · rename_i hpc
      cases h
      refine ⟨?_, inv.frames_only, fun _ => rfl, ?_, inv.outcome_last⟩
      · constructor
        · intro _; simp
        · intro _
          exact inv.returned_iff.mpr (by rw [hpc]; simp)
      · intro hc
        rcases hc with hc | hc <;> simp at hc
    · exact absurd h (by simp)
  | stopTicker drain =>
    simp only [progressStep] at h
    split at h
    · rename_i hpc
      cases h
      refine ⟨?_, inv.frames_only, fun _ => inv.shared_assigned (by rw [hpc]; simp),
        fun _ => rfl, inv.outcome_last⟩
      constructor
      · intro _; simp
      · intro _
        exact inv.returned_iff.mpr (by rw [hpc]; simp)
    · exact absurd h (by simp)
  | receiveDone =>
    simp only [progressStep] at h
    split at h
    · rename_i hc
      obtain ⟨hpc, hres⟩ := hc
      cases h
      have hshared : s.shared = action := inv.shared_assigned (by rw [hpc]; simp)
      refine ⟨by simp, by intro hn; simp at hn, fun _ => hshared,
        fun _ => inv.ticker_off (Or.inl hpc), ?_⟩
      intro b hb
      simp only [Option.some.injEq] at hb
      refine ⟨by rw [← hb, hshared], s.printed, inv.frames_only hres, by rw [hshared]⟩
    · exact absurd h (by simp)
  | receiveTick =>
    simp only [progressStep] at h
    split at h
    · rename_i hc
      obtain ⟨-, hres⟩ := hc
      cases h
      refine ⟨inv.returned_iff, ?_, inv.shared_assigned, inv.ticker_off, ?_⟩
      · intro _ p hp
        rcases List.mem_append.mp hp with hp | hp
        · exact inv.frames_only hres p hp
        · simp only [List.mem_singleton] at hp
          rw [hp]; rfl
      · intro b hb
        rw [hres] at hb
        exact absurd hb (by simp)
    · exact absurd h (by simp)

theorem ProgressInvariant_run (action : StepResult) :
    ∀ (moves : List Move) (s s1 : ProgressState), ProgressInvariant action s →
      progressRun action moves s = some s1 → ProgressInvariant action s1 := by
  intro moves
  induction moves with
  | nil =>
    intro s s1 inv h
    simp only [progressRun, Option.some.injEq] at h
    rw [← h]; exact inv
  | cons m ms ih =>
    intro s s1 inv h
    rw [progressRun] at h
    cases hs : progressStep action m s with
    | none => rw [hs] at h; exact absurd h (by simp)
    | some s2 =>
      rw [hs] at h
      exact ih s2 s1 (ProgressInvariant_step action m s s2 inv hs) h

theorem outcomeLines_count (r : StepResult) (frames : List Printed)
    (hf : ∀ p ∈ frames, p.isFrame = true) :
    ((frames ++ outcomeLines r).filter Printed.isOutcome).length = 1 ∧
      (frames ++ outcomeLines r).filter Printed.isFrame = frames := by
  have h1 : frames.filter Printed.isOutcome = [] := by
    rw [List.filter_eq_nil_iff]
    intro p hp
    have := hf p hp
    cases p <;> simp_all [Printed.isFrame, Printed.isOutcome]
  have h2 : frames.filter Printed.isFrame = frames := by
    rw [List.filter_eq_self]
    exact hf
  rw [List.filter_append, List.filter_append, h1, h2]
  cases he : r.err <;> simp [outcomeLines, he, Printed.isOutcome, Printed.isFrame]

theorem progressRun_append (action : StepResult) :
    ∀ (ms1 ms2 : List Move) (s s1 : ProgressState), progressRun action ms1 s = some s1 →
      progressRun action (ms1 ++ ms2) s = progressRun action ms2 s1 := by
  intro ms1
  induction ms1 with
  | nil =>
    intro ms2 s s1 h
    simp only [progressRun, Option.some.injEq] at h
    rw [List.nil_append, h]
  | cons m ms ih =>
    intro ms2 s s1 h
    rw [progressRun] at h
    rw [List.cons_append, progressRun]
    cases hs : progressStep action m s with
    | none => rw [hs] at h; exact absurd h (by simp)
    | some s2 =>
      rw [hs] at h
      simp only []
      exact ih ms2 s2 s1 h

theorem progressRun_ticks (action : StepResult) :
    ∀ (k : Nat) (s : ProgressState), s.pc = .running → s.tickerRunning = true →
      s.result = none →
      ∃ s1, progressRun action (List.replicate k [Move.timerFires, Move.receiveTick]).flatten s =
          some s1 ∧
        s1.pc = .running ∧ s1.tickerRunning = true ∧ s1.result = none ∧
        s1.printed.length = s.printed.length + k := by
  intro k
  induction k with
  | zero =>
    intro s h1 h2 h3
    exact ⟨s, rfl, h1, h2, h3, rfl⟩
  | succ k ih =>
    intro s h1 h2 h3
    obtain ⟨s1, hrun, hp1, hp2, hp3, hlen⟩ :=
      ih { s with tickPending := false,
                  printed := s.printed ++ [Printed.frame (loaderChars.getD s.loaderCharIndex "")],
                  loaderCharIndex := (s.loaderCharIndex + 1) % loaderChars.length }
        h1 h2 h3
    refine ⟨s1, ?_, hp1, hp2, hp3, ?_⟩
    · have hstep1 : progressStep action Move.timerFires s =
          some { s with tickPending := true } := by
        simp only [progressStep, h2, if_true]
      have hstep2 : progressStep action Move.receiveTick { s with tickPending := true } =
          some { s with tickPending := false,
                        printed := s.printed ++
                          [Printed.frame (loaderChars.getD s.loaderCharIndex "")],
                        loaderCharIndex := (s.loaderCharIndex + 1) % loaderChars.length } := by
        simp only [progressStep, h3, and_self, if_true]
      rw [List.replicate_succ, List.flatten_cons, List.cons_append, List.cons_append,
        List.nil_append, progressRun, hstep1]
      simp only []
      rw [progressRun, hstep2]
      exact hrun
    · rw [hlen]
      simp only [List.length_append, List.length_singleton]
      omega

theorem progressRun_duration (action : StepResult) (k : Nat) (drain : Bool) :
    ∃ s, progressRun action (durationSchedule k drain) ProgressState.start = some s ∧
      s.result = some action.proceed ∧
      (s.printed.filter Printed.isFrame).length = k + 1 ∧
      (s.printed.filter Printed.isOutcome).length = 1 := by
  obtain ⟨s1, hrun, hp1, hp2, hp3, hlen⟩ :=
    progressRun_ticks action k ProgressState.start rfl rfl rfl
  have inv1 := ProgressInvariant_run action _ _ s1 (ProgressInvariant_start action) hrun
  have hframes := inv1.frames_only hp3
  have hcount := outcomeLines_count action s1.printed hframes
  refine ⟨{ s1 with pc := .exited, shared := action, tickerRunning := false,
                    tickPending := if drain then false else s1.tickPending,
                    printed := s1.printed ++ outcomeLines action,
                    result := some action.proceed }, ?_, rfl, ?_, hcount.1⟩
  · unfold durationSchedule
    rw [progressRun_append action _ _ _ s1 hrun]
    simp [progressRun, progressStep, hp1, hp3]
  · show ((s1.printed ++ outcomeLines action).filter Printed.isFrame).length = k + 1
    rw [hcount.2, hlen]
    simp only [ProgressState.start, List.length_singleton]
    omega

theorem progress_no_move_after_return (action : StepResult) (s : ProgressState)
    (inv : ProgressInvariant action s) (h : s.result ≠ none) (m : Move) :
    progressStep action m s = none := by
  have hpc : s.pc = .exited := by
    by_contra hne
    exact h (inv.returned_iff.mpr hne)
  have hoff := inv.ticker_off (Or.inr hpc)
  cases m <;> simp [progressStep, hpc, hoff, h]

theorem progress_can_finish (action : StepResult) (s : ProgressState)
    (inv : ProgressInvariant action s) (h : s.result = none) :
    ∃ rest : List Move, rest ≠ [] ∧ rest.length ≤ 3 ∧
      (progressRun action rest s).map (fun s1 => s1.result) = some (some action.proceed) := by
  have hne : s.pc ≠ .exited := inv.returned_iff.mp h
  cases hpc : s.pc with
  | running =>
    exact ⟨[.actionReturns, .stopTicker false, .receiveDone], by simp, by simp,
      by simp [progressRun, progressStep, hpc, h]⟩
  | assigned =>
    have hsh := inv.shared_assigned (by rw [hpc]; simp)
    exact ⟨[.stopTicker false, .receiveDone], by simp, by simp,
      by simp [progressRun, progressStep, hpc, h, hsh]⟩
  | stopped =>
    have hsh := inv.shared_assigned (by rw [hpc]; simp)
    exact ⟨[.receiveDone], by simp, by simp,
      by simp [progressRun, progressStep, hpc, h, hsh]⟩
  | exited => exact absurd hpc hne

theorem progress_after_stop (action : StepResult) (s : ProgressState)
    (inv : ProgressInvariant action s) (hpc : s.pc = .stopped) (m1 m2 : Move)
    (s2 : ProgressState) (h : progressRun action [m1, m2] s = some s2) :
    s2.result = some action.proceed := by
  have hoff := inv.ticker_off (Or.inl hpc)
  have hsh := inv.shared_assigned (by rw [hpc]; simp)
  have hres : s.result = none := inv.returned_iff.mpr (by rw [hpc]; simp)
  cases m1 with
  | timerFires => simp [progressRun, progressStep, hoff] at h
  | actionReturns => simp [progressRun, progressStep, hpc] at h
  | stopTicker d => simp [progressRun, progressStep, hpc] at h
  | receiveDone =>
    cases m2 <;> simp [progressRun, progressStep, hpc, hres, hoff] at h
  | receiveTick =>
    by_cases hp : s.tickPending = true
    · cases m2 with
      | timerFires => simp [progressRun, progressStep, hoff, hp, hres] at h
      | actionReturns => simp [progressRun, progressStep, hpc, hp, hres] at h
      | stopTicker d => simp [progressRun, progressStep, hpc, hp, hres] at h
      | receiveTick => simp [progressRun, progressStep, hp, hres] at h
      | receiveDone =>
        simp only [progressRun, progressStep, hp, hres, and_self, if_true, hpc,
          Option.some.injEq] at h
        rw [← h]
        simp [hsh]
    · simp [progressRun, progressStep, hp] at h

/-- C13: one call of `doWithProgressIndicator`, for every action result and every
interleaving of the ticker, the goroutine that runs the action and the foreground loop.
While the call has not returned only spinner frames are printed.  Once it has returned,
the returned flag is the proceed flag of the action, what was printed is spinner frames
followed by the outcome lines, the outcome line occurring exactly once, and no further move
is possible, so no frame is printed after it.  The call can always complete: from every
state before the return the goroutine's remaining moves, at most three, make it return;
once the ticker is stopped every two moves do; and for every duration k, counted in ticks,
the call returns after k + 1 frames and one outcome line. -/
theorem C13_progress_indicator (message : String) (action : StepResult) :
    (∀ (moves : List Move) (s : ProgressState),
      progressRun action moves ProgressState.start = some s →
      (s.result = none → ∀ p ∈ s.printed, p.isFrame = true) ∧
      (∀ b, s.result = some b →
        b = action.proceed ∧ b = (doWithProgressIndicator message action).1 ∧
        (s.printed.filter Printed.isOutcome).length = 1 ∧
        (∃ frames : List Printed, (∀ p ∈ frames, p.isFrame = true) ∧
          s.printed = frames ++ outcomeLines action) ∧
        ∀ m : Move, progressStep action m s = none) ∧
      (s.result = none →
        ∃ rest : List Move, rest ≠ [] ∧ rest.length ≤ 3 ∧
          (progressRun action rest s).map (fun s1 => s1.result) =
            some (some action.proceed)) ∧
      (s.pc = .stopped → ∀ (m1 m2 : Move) (s2 : ProgressState),
        progressRun action [m1, m2] s = some s2 → s2.result = some action.proceed)) ∧
    (∀ (k : Nat) (drain : Bool),
      ∃ s, progressRun action (durationSchedule k drain) ProgressState.start = some s ∧
        s.result = some action.proceed ∧
        (s.printed.filter Printed.isFrame).length = k + 1 ∧
        (s.printed.filter Printed.isOutcome).length = 1) := by
  refine ⟨?_, progressRun_duration action⟩
  intro moves s hrun
  have inv := ProgressInvariant_run action moves _ s (ProgressInvariant_start action) hrun
  refine ⟨inv.frames_only, ?_, progress_can_finish action s inv, ?_⟩
  · intro b hb
    obtain ⟨hflag, frames, hframes, hprinted⟩ := inv.outcome_last b hb
    refine ⟨hflag, hflag, ?_, ⟨frames, hframes, hprinted⟩, ?_⟩
    · rw [hprinted]
      exact (outcomeLines_count action frames hframes).1
    · intro m
      exact progress_no_move_after_return action s inv (by rw [hb]; simp) m
  · intro hpc m1 m2 s2 h2
    exact progress_after_stop action s inv hpc m1 m2 s2 h2

end Install
